import Mathlib

/-!
# Verification of pLarianSaveTools codec claims

Shallow embedding of the TypeScript sources of pLarianSaveTools
(LSF binary codec, LSX writer, LSV package packer/unpacker, compression
facade) and proofs about them.

Bytes are modelled as natural numbers below 256 in a `List Nat`.
JavaScript 32-bit integer coercions (`| 0`, `>>> 0`, signed `>>`) are
modelled explicitly on `Int`/`Nat`.  External libraries (lz4, zlib, zstd)
are not part of the repository; where the code delegates to them the
embedding either parameterises over the library result or composes the
pre-compression writer output with the post-decompression reader input.
-/

namespace PLarian

/-! ## JavaScript integer primitives -/
/-- JS `ToUint32`: wrap an integer into the range `[0, 2^32)` (the value of
the expression `x >>> 0`). -/
def toUint32 (z : Int) : Nat := (z % 4294967296).toNat

/-- JS `ToInt32`: wrap an integer into the signed 32-bit range
`[-2^31, 2^31)` (coercion applied by `| 0`, `&`, `>>`, `<<`). -/
def toInt32 (z : Int) : Int :=
  let u : Int := z % 4294967296
  if u < 2147483648 then u else u - 4294967296

/-- JS signed right shift `x >> k` on an already 32-bit signed integer:
arithmetic shift, i.e. flooring division by `2^k`. -/
def jsShr (x : Int) (k : Nat) : Int := x / (2 ^ k : Nat)

/-! ## Little-endian byte encodings -/
/-- Little-endian 16-bit encoding (`Buffer.writeUInt16LE`, value taken
modulo `2^16` as the Buffer API masks into range). -/
def u16le (n : Nat) : List Nat := [n % 256, n / 256 % 256]

/-- Little-endian 32-bit encoding (`Buffer.writeUInt32LE`). -/
def u32le (n : Nat) : List Nat :=
  [n % 256, n / 256 % 256, n / 65536 % 256, n / 16777216 % 256]

/-- Little-endian signed 32-bit encoding (`Buffer.writeInt32LE`): two's
complement of the value. -/
def i32le (z : Int) : List Nat := u32le (toUint32 z)

/-- `Buffer.readUInt16LE` over the first two list elements. -/
def readU16 (l : List Nat) : Nat := l.getD 0 0 + l.getD 1 0 * 256

/-- `Buffer.readUInt32LE` over the first four list elements. -/
def readU32 (l : List Nat) : Nat :=
  l.getD 0 0 + l.getD 1 0 * 256 + l.getD 2 0 * 65536 + l.getD 3 0 * 16777216

/-- `Buffer.readInt32LE`: unsigned read reinterpreted as two's complement. -/
def readI32 (l : List Nat) : Int :=
  let u := readU32 l
  if u < 2147483648 then (u : Int) else (u : Int) - 4294967296

namespace Compression

/-! ## Compression facade (src/src/lsv/compression.ts)

The zlib / lz4 / zstd codecs are external npm libraries, not code of this
repository.  The facade is therefore parameterised over them: the lz4
block decoder is a function returning the result code (negative on
failure, otherwise the decoded length) together with the contents it
wrote into the output buffer; zlib and zstd are plain byte functions. -/
/-- Error kinds raised by the facade (the source throws `Error` objects;
we distinguish the two messages). -/
inductive CErr where
  | unsupported (method : Nat)
  | corrupt (code : Int)
deriving DecidableEq, Repr

/-- `getCompressionMethod(flags)`: JS `flags & 0x0f`, i.e. the low four
bits of the (non-negative, below `2^32`) flag word. -/
def getCompressionMethod (flags : Nat) : Nat := flags % 16

/-- `decompressLZ4`: calls the external block decoder; if the result code
is negative (strictly), throws; otherwise returns the first `result`
bytes of the output buffer. -/
def decompressLZ4 (decode : List Nat → Int × List Nat) (compressed : List Nat)
    (_decompressedSize : Nat) : Except CErr (List Nat) :=
  let r := decode compressed
  if r.1 < 0 then Except.error (CErr.corrupt r.1)
  else Except.ok (r.2.take r.1.toNat)

/-- `decompress(compressed, decompressedSize, flags)`: dispatch on the low
four bits of the flags. -/
def decompress (decode : List Nat → Int × List Nat)
    (inflate : List Nat → List Nat) (zstd : List Nat → List Nat)
    (compressed : List Nat) (decompressedSize : Nat) (flags : Nat) :
    Except CErr (List Nat) :=
  match getCompressionMethod flags with
  | 0 => Except.ok (compressed.take decompressedSize)
  | 1 => Except.ok (inflate compressed)
  | 2 => decompressLZ4 decode compressed decompressedSize
  | 3 => Except.ok (zstd compressed)
  | m => Except.error (CErr.unsupported m)

/-- `compressLZ4`: the external block encoder returns the written length
(negative on failure) and the output buffer contents. -/
def compressLZ4 (encode : List Nat → Int × List Nat) (data : List Nat) :
    Except CErr (List Nat) :=
  let r := encode data
  if r.1 < 0 then Except.error (CErr.corrupt r.1)
  else Except.ok (r.2.take r.1.toNat)

/-- `compress(data, flags)`: same dispatch on the low four bits. -/
def compress (encode : List Nat → Int × List Nat)
    (deflate : List Nat → List Nat) (zstdc : List Nat → List Nat)
    (data : List Nat) (flags : Nat) : Except CErr (List Nat) :=
  match getCompressionMethod flags with
  | 0 => Except.ok data
  | 1 => Except.ok (deflate data)
  | 2 => compressLZ4 encode data
  | 3 => Except.ok (zstdc data)
  | m => Except.error (CErr.unsupported m)

end Compression

namespace Packer

/-! ## LSV packer data layout

Two generations of the packer exist in the repository:
the current one (`packLsv`, unnamed source corresponding to
src/lsv/packer.ts with 0xAD padding) and the legacy manifest-based one
(src/src/lsv/packer.ts) which never aligns.  The per-file loop is
modelled over the already-compressed payload byte lists (compression is
delegated to the external libraries and irrelevant to the layout). -/
/-- `Math.ceil(n / 64) * 64` on exact integers. -/
def alignTo64 (n : Nat) : Nat := ((n + 63) / 64) * 64

/-- State of the per-file packing loop: concatenated data bytes, the
recorded offsets and sizes, and the running offset. -/
structure PackState where
  chunks : List Nat
  offsets : List Nat
  sizes : List Nat
  offset : Nat
deriving Repr, DecidableEq

/-- One iteration of the current packer loop (part of `packLsv`):
record offset and size, then append the payload and, when aligning
(DOS2), pad with 0xAD bytes up to the next 64-byte boundary. -/
def packStep (useAlignment : Bool) (st : PackState) (compressed : List Nat) : PackState :=
  let offsets := st.offsets ++ [st.offset]
  let sizes := st.sizes ++ [compressed.length]
  if useAlignment then
    let aligned := alignTo64 (st.offset + compressed.length)
    let padding := aligned - st.offset - compressed.length
    { chunks := st.chunks ++ compressed ++ List.replicate padding 0xad,
      offsets := offsets, sizes := sizes, offset := aligned }
  else
    { chunks := st.chunks ++ compressed,
      offsets := offsets, sizes := sizes, offset := st.offset + compressed.length }

/-- The data-block accumulation loop of the current `packLsv`
(`useAlignment = true` exactly when the target version is not a BG3
version 15/16/18, i.e. for DOS2 layouts). -/
def packData (useAlignment : Bool) (payloads : List (List Nat)) : PackState :=
  payloads.foldl (packStep useAlignment) ⟨[], [], [], 0⟩

/-- A payload followed by its 0xAD padding up to a 64-byte boundary. -/
def padded (p : List Nat) : List Nat :=
  p ++ List.replicate ((64 - p.length % 64) % 64) 0xad

/-- Cumulative offsets of a list of block lengths. -/
def cumOffsets (acc : Nat) : List Nat → List Nat
  | [] => []
  | l :: ls => acc :: cumOffsets (acc + l) ls

end Packer

namespace PackerLegacy

/-- The legacy packer loop (src/src/lsv/packer.ts, `packLsv`): no
alignment and no padding for any version, DOS2 v13 included. -/
def packStep (st : Packer.PackState) (compressed : List Nat) : Packer.PackState :=
  { chunks := st.chunks ++ compressed,
    offsets := st.offsets ++ [st.offset],
    sizes := st.sizes ++ [compressed.length],
    offset := st.offset + compressed.length }

/-- Data-block accumulation of the legacy `packLsv` (used for every
manifest version, there is no DOS2 alignment branch). -/
def packData (payloads : List (List Nat)) : Packer.PackState :=
  payloads.foldl packStep ⟨[], [], [], 0⟩

end PackerLegacy

namespace Unpacker

/-! ## LSV unpacker (src/src/lsv/unpacker.ts) -/
/-- File-list entry metadata (`PackagedFileInfo`).  `offsetInFile` is a
non-negative bigint read from the entry (u32/u64 fields). -/
structure PackagedFileInfo where
  name : String
  archivePart : Nat
  offsetInFile : Nat
  sizeOnDisk : Nat
  uncompressedSize : Nat
  flags : Nat
deriving Repr, DecidableEq

/-- Errors of extraction; the source throws `Error` with a message, we
keep the distinguishing kind. -/
inductive XErr where
  | deleted
  | outOfBounds
  | multiPart
  | compression (e : Compression.CErr)
deriving DecidableEq, Repr

/-- `extractFile(data, file, dataOffset)`: the deletion-marker test
(`(offsetInFile & 0x0000ffffffffffffn) === 0xbeefdeadbeefn`) comes first
and THROWS; then bounds check, slice, and conditional decompression. -/
def extractFile (decode : List Nat → Int × List Nat)
    (inflate : List Nat → List Nat) (zstd : List Nat → List Nat)
    (data : List Nat) (file : PackagedFileInfo) (dataOffset : Nat) :
    Except XErr (List Nat) :=
  if file.offsetInFile % 72057594037927936 = 0xbeefdeadbeef then
    Except.error XErr.deleted
  else if file.archivePart = 0 then
    let actualOffset := file.offsetInFile + dataOffset
    if actualOffset + file.sizeOnDisk > data.length then
      Except.error XErr.outOfBounds
    else
      let chunk := (data.drop actualOffset).take file.sizeOnDisk
      if file.flags = 0 ∨ file.uncompressedSize = 0 then
        Except.ok chunk
      else
        match Compression.decompress decode inflate zstd chunk file.uncompressedSize file.flags with
        | Except.ok out => Except.ok out
        | Except.error e => Except.error (XErr.compression e)
  else
    Except.error XErr.multiPart

/-- The extraction loop of `unpackLsv` (no filter): each file is
extracted with `dataOffset = 0`; a thrown error propagates out of the
loop (there is no try/catch around `extractFile`). -/
def unpackLoop (decode : List Nat → Int × List Nat)
    (inflate : List Nat → List Nat) (zstd : List Nat → List Nat)
    (data : List Nat) (files : List PackagedFileInfo) :
    Except XErr (List (String × List Nat)) :=
  files.mapM fun f =>
    (extractFile decode inflate zstd data f 0).map fun content => (f.name, content)

end Unpacker

/-! ## LSX XML escaping (two writer generations) -/
/-- Generic model of `String.prototype.replace` with a global character
class: every character satisfying the class is replaced by the callback
result, all others are kept. -/
def replaceClass (cls : Char → Bool) (f : Char → String) (s : String) : String :=
  String.join (s.data.map fun c => if cls c then f c else String.singleton c)

namespace LsxWriter

/-- The character class `[<>&"]` of the current writer. -/
def escClass (c : Char) : Bool :=
  c = Char.ofNat 60 || c = Char.ofNat 62 || c = Char.ofNat 38 || c = Char.ofNat 34

/-- The switch of the current `escapeXml` callback. -/
def escSwitch (c : Char) : String :=
  if c = Char.ofNat 60 then "&lt;"
  else if c = Char.ofNat 62 then "&gt;"
  else if c = Char.ofNat 38 then "&amp;"
  else if c = Char.ofNat 34 then "&quot;"
  else String.singleton c

/-- `escapeXml` of the current LSX writer: only `<`, `>`, `&`, `"` are
escaped; the apostrophe is not in the class. -/
def escapeXml (s : String) : String := replaceClass escClass escSwitch s

end LsxWriter

namespace LsxWriterLegacy

/-- The character class of the legacy writer includes the apostrophe. -/
def escClass (c : Char) : Bool :=
  c = Char.ofNat 60 || c = Char.ofNat 62 || c = Char.ofNat 38 ||
    c = Char.ofNat 34 || c = Char.ofNat 39

/-- The legacy switch additionally maps the apostrophe to its entity. -/
def escSwitch (c : Char) : String :=
  if c = Char.ofNat 60 then "&lt;"
  else if c = Char.ofNat 62 then "&gt;"
  else if c = Char.ofNat 38 then "&amp;"
  else if c = Char.ofNat 34 then "&quot;"
  else if c = Char.ofNat 39 then "&apos;"
  else String.singleton c

/-- `escapeXml` of the legacy LSX writer (src/src/lsx/lsx-writer.ts). -/
def escapeXml (s : String) : String := replaceClass escClass escSwitch s

end LsxWriterLegacy

/-- The escaping rule as the specification words it: `<`, `>`, `&` and
the double quote become entities, every other character - the apostrophe
explicitly included - is emitted verbatim. -/
def specEscapeXml (s : String) : String :=
  String.join (s.data.map fun c =>
    if c = Char.ofNat 60 then "&lt;"
    else if c = Char.ofNat 62 then "&gt;"
    else if c = Char.ofNat 38 then "&amp;"
    else if c = Char.ofNat 34 then "&quot;"
    else String.singleton c)

/-- Decidable equality on `Except` results (for concrete evaluations). -/
instance {ε α : Type} [DecidableEq ε] [DecidableEq α] : DecidableEq (Except ε α) :=
  fun a b =>
  match a, b with
  | .ok x, .ok y => decidable_of_iff (x = y)
      ⟨fun h => by rw [h], fun h => Except.ok.inj h⟩
  | .error e, .error f => decidable_of_iff (e = f)
      ⟨fun h => by rw [h], fun h => Except.error.inj h⟩
  | .ok _, .error _ => .isFalse fun hc => Except.noConfusion hc
  | .error _, .ok _ => .isFalse fun hc => Except.noConfusion hc

namespace LsxWriter

/-- Hex-digit test of the UUID regex character class `[0-9a-f]` with
the `i` flag. -/
def isHexDigit (c : Char) : Bool :=
  (Char.ofNat 48 ≤ c && c ≤ Char.ofNat 57) || (Char.ofNat 97 ≤ c && c ≤ Char.ofNat 102) ||
    (Char.ofNat 65 ≤ c && c ≤ Char.ofNat 70)

/-- `swap2` of `formatUuidForLsx`: a 4-character group becomes
`s[2]+s[3]+s[0]+s[1]`, anything else is returned unchanged. -/
def swapGroup2 : List Char → List Char
  | [a, b, c, d] => [c, d, a, b]
  | l => l

/-- `m[1].match(/../g)!.reverse().join("")`: the character pairs of the
first group in reverse order. -/
def revPairs : List Char → List Char
  | a :: b :: rest => revPairs rest ++ [a, b]
  | l => l

/-- Split a character list at the dashes (the grouping the UUID regex
captures). -/
def splitDash : List Char → List Char → List (List Char)
  | [], acc => [acc.reverse]
  | c :: rest, acc =>
    if c = Char.ofNat 45 then acc.reverse :: splitDash rest []
    else splitDash rest (c :: acc)

/-- `formatUuidForLsx` (the `bswap_guids` path of the LSX writer):
reverse the byte pairs of the first group and swap the two pairs of the
second and third groups; a string that does not match the 8-4-4-4-12
hex shape is returned unchanged. -/
def formatUuidForLsx (uuid : String) : String :=
  match splitDash uuid.data [] with
  | [p1, p2, p3, p4, p5] =>
    if p1.length = 8 ∧ p2.length = 4 ∧ p3.length = 4 ∧ p4.length = 4 ∧ p5.length = 12 ∧
        (p1 ++ p2 ++ p3 ++ p4 ++ p5).all isHexDigit then
      String.mk (revPairs p1 ++ [Char.ofNat 45] ++ swapGroup2 p2 ++ [Char.ofNat 45] ++
        swapGroup2 p3 ++ [Char.ofNat 45] ++ p4 ++ [Char.ofNat 45] ++ p5)
    else uuid
  | _ => uuid

/-- The Byte case of `serializeAttribute` in the LSX writer:
`String((attr.value >>> 0) & 0xff)` - the token printed is the low
eight bits of the JS ToUint32 of the value. -/
def lsxByteToken (n : Int) : Nat := toUint32 n % 256

end LsxWriter

/-! ## UTF-8 (model of Buffer.from(s, "utf8") / buffer.toString("utf8")) -/
/-- UTF-8 encoding of one character. -/
def utf8EncodeChar (c : Char) : List Nat :=
  let n := c.toNat
  if n < 128 then [n]
  else if n < 2048 then [192 + n / 64, 128 + n % 64]
  else if n < 65536 then [224 + n / 4096, 128 + n / 64 % 64, 128 + n % 64]
  else [240 + n / 262144, 128 + n / 4096 % 64, 128 + n / 64 % 64, 128 + n % 64]

/-- UTF-8 encoding of a string (`Buffer.from(s, "utf8")`). -/
def utf8Encode (s : String) : List Nat := (s.data.map utf8EncodeChar).flatten

/-- The replacement character U+FFFD emitted by Node for invalid input. -/
def replChar : Char := Char.ofNat 65533

/-- One decoding step on a lead byte and the bytes following it:
returns the decoded character and the number of continuation bytes
consumed.  Malformed sequences yield a replacement character and
consume nothing beyond the lead byte (Node keeps scanning at the next
byte). -/
def utf8Step (b : Nat) (rest : List Nat) : Char × Nat :=
  if b < 128 then (Char.ofNat b, 0)
  else if b < 192 then (replChar, 0)
  else if b < 224 then
    match rest with
    | b1 :: _ =>
      if 128 ≤ b1 ∧ b1 < 192 then
        let n := (b - 192) * 64 + (b1 - 128)
        (if n < 128 then replChar else Char.ofNat n, 1)
      else (replChar, 0)
    | [] => (replChar, 0)
  else if b < 240 then
    match rest with
    | b1 :: b2 :: _ =>
      if 128 ≤ b1 ∧ b1 < 192 ∧ 128 ≤ b2 ∧ b2 < 192 then
        let n := (b - 224) * 4096 + (b1 - 128) * 64 + (b2 - 128)
        (if n < 2048 ∨ (55296 ≤ n ∧ n < 57344) then replChar else Char.ofNat n, 2)
      else (replChar, 0)
    | _ => (replChar, 0)
  else
    match rest with
    | b1 :: b2 :: b3 :: _ =>
      if 128 ≤ b1 ∧ b1 < 192 ∧ 128 ≤ b2 ∧ b2 < 192 ∧ 128 ≤ b3 ∧ b3 < 192 then
        let n := (b - 240) * 262144 + (b1 - 128) * 4096 + (b2 - 128) * 64 + (b3 - 128)
        (if n < 65536 ∨ 1114112 ≤ n then replChar else Char.ofNat n, 3)
      else (replChar, 0)
    | _ => (replChar, 0)

/-- UTF-8 decoding (`buffer.toString("utf8")`): malformed sequences
become replacement characters; only behaviour on valid encodings is
relied upon in the proofs. -/
def utf8DecodeChars : List Nat → List Char
  | [] => []
  | b :: rest =>
    let s := utf8Step b rest
    s.1 :: utf8DecodeChars (rest.drop s.2)
termination_by l => l.length
decreasing_by simp_wf; omega

/-- String-level decoding. -/
def utf8Decode (l : List Nat) : String := String.mk (utf8DecodeChars l)

namespace LsfWriter

/-! ## .NET string hash and bucket fold (LSF writer `buildStringTable`) -/
/-- UTF-16 code units of a string (JS `charCodeAt` enumerates these). -/
def utf16Units (s : String) : List Nat :=
  (s.data.map fun c =>
    if c.toNat < 65536 then [c.toNat]
    else [55296 + (c.toNat - 65536) / 1024, 56320 + (c.toNat - 65536) % 1024]).flatten

/-- One step of `hash = ((hash << 5) - hash + charCode) | 0`: the shift
wraps to int32 first, the subtraction and addition are exact, and the
final `| 0` wraps again. -/
def hashStep (h : Int) (c : Nat) : Int := toInt32 (toInt32 (h * 32) - h + c)

def hashFold : Int → List Nat → Int
  | h, [] => h
  | h, c :: cs => hashFold (hashStep h c) cs

/-- `dotNetStringHashCode`: the loop above starting from 0, then `>>> 0`. -/
def dotNetStringHashCode (s : String) : Nat := toUint32 (hashFold 0 (utf16Units s))

/-- `hashToBucket` exactly as the JS source computes it: each `>>`
converts the u32 in a Number to a SIGNED 32-bit integer and shifts
arithmetically (flooring division), and each `& 0x1ff` takes the low
nine bits of the two's complement (euclidean mod 512). -/
def hashToBucket (u : Nat) : Nat :=
  let i := toInt32 u
  (((i % 512).toNat) ^^^ (((i / 512) % 512).toNat)) ^^^
    ((((i / 262144) % 512).toNat) ^^^ (((i / 134217728) % 512).toNat))

/-- The bucket fold as the specification words it: `h` treated as a u32
with LOGICAL shifts, `(h ^ (h>>9) ^ (h>>18) ^ (h>>27)) & 0x1ff`. -/
def specBucket (u : Nat) : Nat :=
  ((u ^^^ u / 512) ^^^ (u / 262144 ^^^ u / 134217728)) % 512

/-- State of the interning loop in `buildStringTable`. -/
structure STState where
  buckets : List (List String)
  indexMap : List (String × Nat)
deriving Repr

/-- `indexMap.get(s)`. -/
def lookupIM (m : List (String × Nat)) (s : String) : Option Nat :=
  (m.find? fun p => p.1 == s).map fun p => p.2

/-- One iteration of the interning loop: skip if already interned,
otherwise hash, pick the bucket chain, search it (`found`), and append;
the stored reference is `(bucket << 16) | offset`. -/
def internString (st : STState) (s : String) : STState :=
  if (lookupIM st.indexMap s).isSome then st
  else
    let bucket := hashToBucket (dotNetStringHashCode s)
    let chain := st.buckets.getD bucket []
    match chain.indexOf? s with
    | some i => { st with indexMap := st.indexMap ++ [(s, (bucket <<< 16) ||| i)] }
    | none =>
      { buckets := st.buckets.set bucket (chain ++ [s]),
        indexMap := st.indexMap ++ [(s, (bucket <<< 16) ||| chain.length)] }

/-- The interning phase of `buildStringTable`: 512 empty buckets, fold
over the strings in collection order. -/
def buildStringTableState (strs : List String) : STState :=
  strs.foldl internString ⟨List.replicate 512 [], []⟩

/-- The bucket a string is assigned to. -/
def bucketOf (s : String) : Nat := hashToBucket (dotNetStringHashCode s)

/-- Invariant of the interning fold: 512 buckets; every interned entry
stores `(bucket << 16) | i` and sits at position `i` of its bucket
chain; the total chain population is bounded by the map size. -/
structure STInv (st : STState) : Prop where
  blen : st.buckets.length = 512
  entries : ∀ p ∈ st.indexMap, ∃ i, p.2 = ((bucketOf p.1) <<< 16) ||| i ∧
      (st.buckets.getD (bucketOf p.1) []).get? i = some p.1
  sumBound : (st.buckets.map List.length).sum ≤ st.indexMap.length

/-- Serialized form of one chain entry: u16 byte length, UTF-8 bytes. -/
def stEntryBytes (s : String) : List Nat := u16le (utf8Encode s).length ++ utf8Encode s

/-- Serialized form of one bucket: u16 chain length, then the entries. -/
def stChainBytes (chain : List String) : List Nat :=
  u16le chain.length ++ (chain.map stEntryBytes).flatten

/-- The string-table block emitted by `buildStringTable`: u32 bucket
count (512), then every bucket in order. -/
def stringTableBytes (buckets : List (List String)) : List Nat :=
  u32le 512 ++ (buckets.map stChainBytes).flatten

end LsfWriter

namespace LSFReader

/-! ## LSF reader: string table parsing and name resolution -/
/-- Parse `n` chain entries (u16 length + bytes each), returning the
strings and the remaining bytes. -/
def parseSTEntries : Nat → List Nat → List String × List Nat
  | 0, l => ([], l)
  | n + 1, l =>
    let len := readU16 l
    let str := utf8Decode ((l.drop 2).take len)
    let r := parseSTEntries n ((l.drop 2).drop len)
    (str :: r.1, r.2)

/-- Parse `n` buckets (u16 chain length + entries each). -/
def parseSTBuckets : Nat → List Nat → List (List String)
  | 0, _ => []
  | n + 1, l =>
    let chainLen := readU16 l
    let r := parseSTEntries chainLen (l.drop 2)
    r.1 :: parseSTBuckets n r.2

/-- `parseStringTable`: u32 bucket count, then that many buckets. -/
def parseStringTable (l : List Nat) : List (List String) :=
  parseSTBuckets (readU32 l) (l.drop 4)

/-- The fallback name for unresolvable references
(`undefined_0x` + hex of the reference). -/
def fallbackName (ref : Nat) : String := "undefined_0x" ++ String.mk (Nat.toDigits 16 ref)

/-- `resolveName`: `ref >> 16` is a JS SIGNED shift, so references at or
above `2^31` produce a negative bucket index whose array access is
undefined and falls back; otherwise bucket `ref / 2^16`, offset
`ref & 0xffff`. -/
def resolveName (strings : List (List String)) (ref : Nat) : String :=
  if ref < 2147483648 then
    match strings.get? (ref / 65536) with
    | some chain =>
      match chain.get? (ref % 65536) with
      | some s => s
      | none => fallbackName ref
    | none => fallbackName ref
  else fallbackName ref

end LSFReader

/-! ## LSF data model (src/src/lsf/types.ts)

Attribute values are dynamically typed in the source.  `JSValue` covers
the shapes the codecs produce and consume: integers, strings, booleans,
TranslatedString objects, TranslatedFSString objects, and doubles.
Doubles read from the value block are represented by their bit patterns
(`f32`/`f64`); `vecF` stands for the reader's interpolated string of
float components (whose decimal formatting is not modelled). -/
mutual
/-- Recursive TranslatedFSString values (`value`, `handle`, nested
`arguments`). -/
inductive TFS where
  | mk (value : String) (handle : String) (args : List TFSArg)
/-- One argument of a TranslatedFSString. -/
inductive TFSArg where
  | mk (key : String) (value : String) (string : Option TFS)
end

def TFS.value : TFS → String
  | .mk v _ _ => v

def TFS.handle : TFS → String
  | .mk _ h _ => h

def TFS.args : TFS → List TFSArg
  | .mk _ _ a => a

/-- Dynamic JS attribute values. -/
inductive JSValue where
  | num (n : Int)
  | str (s : String)
  | bool (b : Bool)
  | ts (value : String) (handle : String)
  | tfs (t : TFS)
  | f32 (bits : Nat)
  | f64 (bits : Nat)
  | vecF (comps : List Nat)

/-- `LSFAttribute`: name, type tag (0..33 as in `NodeAttributeType`),
value. -/
structure LSFAttribute where
  name : String
  type : Nat
  value : JSValue

/-- `LSFNode`: name, insertion-ordered attribute map (modelled as the
list of attributes in insertion order; the JS `Record` keys are unique),
ordered children, optional key.  Neither the LSF writer nor the LSF
reader ever touches `key`. -/
inductive LSFNode where
  | mk (name : String) (attributes : List LSFAttribute) (children : List LSFNode)
      (key : Option String)

def LSFNode.name : LSFNode → String
  | .mk n _ _ _ => n

def LSFNode.attributes : LSFNode → List LSFAttribute
  | .mk _ a _ _ => a

def LSFNode.children : LSFNode → List LSFNode
  | .mk _ _ c _ => c

def LSFNode.key : LSFNode → Option String
  | .mk _ _ _ k => k

/-! ## JS coercions used by the value serializer -/
/-- JS `Number(string)` restricted to the canonical integer forms: the
empty string is 0, optional-sign decimal strings parse exactly; every
other input (including non-integer numeric syntax, which the embedding
does not model) is `none`, treated downstream like `NaN`. -/
def jsStrToIntOpt (s : String) : Option Int := if s = "" then some 0 else s.toInt?

/-- JS `Number(value)` as an optional integer (`none` stands for `NaN`
or an unmodelled double). -/
def jsToNumberInt : JSValue → Option Int
  | .num n => some n
  | .bool b => some (if b then 1 else 0)
  | .str s => jsStrToIntOpt s
  | _ => none

/-- JS `String(value)` on the shapes the serializer can meet.  The
decimal rendering of doubles is not modelled (empty string). -/
def jsToString : JSValue → String
  | .str s => s
  | .num n => toString n
  | .bool b => if b then "true" else "false"
  | .ts _ _ => "[object Object]"
  | .tfs _ => "[object Object]"
  | _ => ""

/-- Float32 bit pattern classification: NaN. -/
def isF32NaN (bits : Nat) : Bool := bits / 8388608 % 256 = 255 && bits % 8388608 ≠ 0

/-- JS truthiness (`value ? 1 : 0`).  A float32 double is falsy exactly
for plus/minus zero and NaN. -/
def jsTruthy : JSValue → Bool
  | .num n => n ≠ 0
  | .str s => s ≠ ""
  | .bool b => b
  | .ts _ _ => true
  | .tfs _ => true
  | .f32 bits => !(bits % 2147483648 = 0 || isF32NaN bits)
  | .f64 bits => !(bits % 9223372036854775808 = 0 ||
      (bits / 4503599627370496 % 2048 = 2047 && bits % 4503599627370496 ≠ 0))
  | .vecF _ => true

/-! ## 64-bit and float encodings -/
def u64le (n : Nat) : List Nat :=
  [n % 256, n / 256 % 256, n / 65536 % 256, n / 16777216 % 256,
   n / 4294967296 % 256, n / 1099511627776 % 256, n / 281474976710656 % 256,
   n / 72057594037927936 % 256]

def i64le (z : Int) : List Nat := u64le ((z % 18446744073709551616).toNat)

def readU64 (l : List Nat) : Nat :=
  l.getD 0 0 + l.getD 1 0 * 256 + l.getD 2 0 * 65536 + l.getD 3 0 * 16777216 +
    l.getD 4 0 * 4294967296 + l.getD 5 0 * 1099511627776 +
    l.getD 6 0 * 281474976710656 + l.getD 7 0 * 72057594037927936

def readI64 (l : List Nat) : Int :=
  let u := readU64 l
  if u < 9223372036854775808 then (u : Int) else (u : Int) - 18446744073709551616

def readI16 (l : List Nat) : Int :=
  let u := readU16 l
  if u < 32768 then (u : Int) else (u : Int) - 65536

def i16le (z : Int) : List Nat := u16le ((z % 65536).toNat)

/-- `Buffer.readInt8`. -/
def readInt8 (b : Nat) : Int := if b < 128 then (b : Int) else (b : Int) - 256

/-- IEEE-754 binary32 bits of an integral double (`writeFloatLE` on an
integer value): round-to-nearest-even on the 24-bit significand. -/
def intToF32bits (n : Int) : Nat :=
  if n = 0 then 0
  else
    let sign := if n < 0 then 2147483648 else 0
    let m := n.natAbs
    let e := Nat.log2 m
    if e ≤ 23 then
      sign + (e + 127) * 8388608 + (m * 2 ^ (23 - e) - 8388608)
    else
      let shift := e - 23
      let q := m / 2 ^ shift
      let r := m % 2 ^ shift
      let half := 2 ^ (shift - 1)
      let q2 := if r > half ∨ (r = half ∧ q % 2 = 1) then q + 1 else q
      let q3 := if q2 = 16777216 then 8388608 else q2
      let e2 := if q2 = 16777216 then e + 1 else e
      if 255 ≤ e2 + 127 then sign + 2139095040
      else sign + (e2 + 127) * 8388608 + (q3 - 8388608)

/-- IEEE-754 binary64 bits of an integral double (exact for the int64
magnitudes the codec meets; rounds to nearest even above `2^53`). -/
def intToF64bits (n : Int) : Nat :=
  if n = 0 then 0
  else
    let sign := if n < 0 then 9223372036854775808 else 0
    let m := n.natAbs
    let e := Nat.log2 m
    if e ≤ 52 then
      sign + (e + 1023) * 4503599627370496 + (m * 2 ^ (52 - e) - 4503599627370496)
    else
      let shift := e - 52
      let q := m / 2 ^ shift
      let r := m % 2 ^ shift
      let half := 2 ^ (shift - 1)
      let q2 := if r > half ∨ (r = half ∧ q % 2 = 1) then q + 1 else q
      let q3 := if q2 = 9007199254740992 then 4503599627370496 else q2
      let e2 := if q2 = 9007199254740992 then e + 1 else e
      if 2047 ≤ e2 + 1023 then sign + 9218868437227405312
      else sign + (e2 + 1023) * 4503599627370496 + (q3 - 4503599627370496)

/-- Canonical quiet NaN float32 bits written for a NaN double. -/
def f32NaNbits : Nat := 2143289344

/-- Canonical quiet NaN float64 bits. -/
def f64NaNbits : Nat := 9221120237041090560

/-! ## Base64 (Buffer base64 codec, used for ScratchBuffer) -/
def b64val (c : Char) : Option Nat :=
  let n := c.toNat
  if 65 ≤ n ∧ n ≤ 90 then some (n - 65)
  else if 97 ≤ n ∧ n ≤ 122 then some (n - 97 + 26)
  else if 48 ≤ n ∧ n ≤ 57 then some (n - 48 + 52)
  else if n = 43 then some 62
  else if n = 47 then some 63
  else none

def b64decodeVals : List Nat → List Nat
  | a :: b :: c :: d :: rest =>
    (a * 4 + b / 16) :: ((b % 16) * 16 + c / 4) :: ((c % 4) * 64 + d) :: b64decodeVals rest
  | [a, b] => [a * 4 + b / 16]
  | [a, b, c] => [a * 4 + b / 16, (b % 16) * 16 + c / 4]
  | _ => []

/-- `Buffer.from(s, "base64")`: non-alphabet characters (padding
included) are skipped, then sextets are packed. -/
def b64decode (s : String) : List Nat := b64decodeVals (s.data.filterMap b64val)

def b64chr (n : Nat) : Char :=
  if n < 26 then Char.ofNat (65 + n)
  else if n < 52 then Char.ofNat (97 + n - 26)
  else if n < 62 then Char.ofNat (48 + n - 52)
  else if n = 62 then Char.ofNat 43
  else Char.ofNat 47

def b64encodeChunks : List Nat → List Char
  | x :: y :: z :: rest =>
    b64chr (x / 4) :: b64chr ((x % 4) * 16 + y / 16) :: b64chr ((y % 16) * 4 + z / 64) ::
      b64chr (z % 64) :: b64encodeChunks rest
  | [x, y] => [b64chr (x / 4), b64chr ((x % 4) * 16 + y / 16), b64chr ((y % 16) * 4), Char.ofNat 61]
  | [x] => [b64chr (x / 4), b64chr ((x % 4) * 16), Char.ofNat 61, Char.ofNat 61]
  | [] => []

/-- `buffer.toString("base64")` (standard alphabet, padded). -/
def b64encode (l : List Nat) : String := String.mk (b64encodeChunks l)

/-! ## Hex helpers -/
def hexDigitChar (n : Nat) : Char :=
  if n < 10 then Char.ofNat (48 + n) else Char.ofNat (87 + n)

/-- Two lowercase hex digits of a byte (`buffer.toString("hex")`). -/
def byteHex (b : Nat) : String := String.mk [hexDigitChar (b / 16 % 16), hexDigitChar (b % 16)]

def hexEncode (l : List Nat) : String := String.join (l.map byteHex)

/-- Hex digit value of a character (used by `parseInt(s, 16)`). -/
def hexDigitVal (c : Char) : Option Nat :=
  let n := c.toNat
  if 48 ≤ n ∧ n ≤ 57 then some (n - 48)
  else if 97 ≤ n ∧ n ≤ 102 then some (n - 97 + 10)
  else if 65 ≤ n ∧ n ≤ 70 then some (n - 65 + 10)
  else none

/-- `parseInt(s, 16)` on at most two characters: parses the longest hex
prefix, `none` for `NaN` (no leading hex digit). -/
def parseIntHexPair (cs : List Char) : Option Nat :=
  match cs with
  | [] => none
  | c1 :: rest =>
    match hexDigitVal c1 with
    | none => none
    | some d1 =>
      match rest with
      | [] => some d1
      | c2 :: _ =>
        match hexDigitVal c2 with
        | none => some d1
        | some d2 => some (16 * d1 + d2)

/-- Swap consecutive byte pairs (the `[b[i], b[i+1]] = [b[i+1], b[i]]`
loops of the UUID codec). -/
def swapPairs : List Nat → List Nat
  | x :: y :: r => y :: x :: swapPairs r
  | l => l

namespace LsfWriter

/-! ## LSF writer: value serialization (serializeAttributeValue) -/
/-- A NUL-terminated UTF-8 string prefixed by its i32 byte length
(`writeInt32LE(enc.length)`; the length is far below `2^31`, where the
signed write coincides with the unsigned encoding). -/
def lenPrefixedString (s : String) : List Nat :=
  let enc := utf8Encode s ++ [0]
  u32le enc.length ++ enc

/-- The bytes of an empty TranslatedFSString (`arg.string ?? {value:"",
handle:""}` serialized: optional version prefix or empty value, empty
handle, zero arguments). -/
def emptyTFSBytes (isBG3 : Bool) : List Nat :=
  (if isBG3 then [0, 0] else lenPrefixedString "") ++ lenPrefixedString "" ++ u32le 0

mutual
/-- `serializeTranslatedFSString`: BG3 writes a 2-byte version 0 prefix,
DOS2 writes the value; then handle, i32 argument count, and the
arguments (key, recursive string - defaulting to an empty one - and
value). -/
def serializeTFS (isBG3 : Bool) : TFS → List Nat
  | .mk v h args =>
    (if isBG3 then [0, 0] else lenPrefixedString v) ++
      lenPrefixedString h ++ u32le args.length ++ serializeTFSArgs isBG3 args
def serializeTFSArgs (isBG3 : Bool) : List TFSArg → List Nat
  | [] => []
  | .mk key val sub :: rest =>
    lenPrefixedString key ++
      (match sub with
       | some t => serializeTFS isBG3 t
       | none => emptyTFSBytes isBG3) ++
      lenPrefixedString val ++ serializeTFSArgs isBG3 rest
end

/-- `typeAndLength = (type & 0x3f) | (length << 6)`.  For lengths below
`2^25` (the only ones the format can carry; larger ones make the
source's `writeUInt32LE` throw before anything is emitted) this is the
plain sum below. -/
def talOf (type len : Nat) : Nat := type % 64 + len * 64

/-- The `{value, handle}` pair the TranslatedString case extracts
(`(value as {value?, handle?}) ?? {}` with `?? ""` defaults: any
non-object value yields empty strings). -/
def tsParts : JSValue → String × String
  | .ts v h => (v, h)
  | .tfs (.mk v h _) => (v, h)
  | _ => ("", "")

/-- The TranslatedFSString object the TFS case serializes. -/
def tfsOf : JSValue → TFS
  | .tfs t => t
  | .ts v h => .mk v h []
  | _ => .mk "" "" []

/-- `String(value).trim().split(/\s+/)` for the vector case, restricted
to space separation (the canonical component separator); empty pieces
are dropped, matching the `parts[i] || 0` default downstream. -/
def splitWs (s : String) : List String := (s.split fun c => c = Char.ofNat 32).filter (· ≠ "")

/-- One vector component: `writeInt32LE(parts[i] || 0)` for the integer
vectors, `writeFloatLE(parts[i] || 0)` for the float ones.  Components
that are not canonical integers depend on IEEE double parsing, which is
not modelled (`none`, written as 0 like `NaN || 0`). -/
def vecComp (isInt : Bool) (p : Option String) : List Nat :=
  let q := match p with
    | some s => jsStrToIntOpt s
    | none => none
  match q with
  | some n => if isInt then i32le (toInt32 n) else u32le (intToF32bits n)
  | none => if isInt then i32le 0 else u32le 0

/-- `BigInt(value ?? 0)` as an optional integer; `none` models a thrown
conversion error (caught and replaced by 0). -/
def jsToBigInt : JSValue → Option Int
  | .num n => some n
  | .bool b => some (if b then 1 else 0)
  | .str s => if s = "" then some 0 else s.toInt?
  | _ => none

/-- `serializeAttributeValue(attr, isBG3)`: the byte encoding of one
attribute value, following the source switch on the type tag
(1 Byte, 2 Short, 3 UShort, 4 Int, 5 UInt, 6 Float, 7 Double,
8..10 IVec, 11..13 Vec, 19 Bool, 20/21/22/23/29/30 string kinds,
24/26/32 64-bit ints, 25 ScratchBuffer, 27 Int8, 28 TranslatedString,
31 UUID, 33 TranslatedFSString, default UTF-8 of `String(value)`). -/
def serializeAttributeValue (isBG3 : Bool) (type : Nat) (value : JSValue) : List Nat :=
  match type with
  | 1 | 27 =>
    [match jsToNumberInt value with
     | some n => toUint32 n % 256
     | none => 0]
  | 2 =>
    let v := match jsToNumberInt value with
      | some n => toUint32 n % 65536
      | none => 0
    i16le (if 32767 < v then (v : Int) - 65536 else (v : Int))
  | 3 =>
    u16le (match jsToNumberInt value with
      | some n => toUint32 n % 65536
      | none => 0)
  | 4 =>
    i32le (match jsToNumberInt value with
      | some n => toInt32 n
      | none => 0)
  | 5 =>
    u32le (match jsToNumberInt value with
      | some n => toUint32 n
      | none => 0)
  | 6 =>
    match value with
    | .f32 bits => u32le (if isF32NaN bits then f32NaNbits else bits)
    | _ =>
      match jsToNumberInt value with
      | some n => u32le (intToF32bits n)
      | none => u32le f32NaNbits
  | 7 =>
    match value with
    | .f64 bits => u64le bits
    | _ =>
      match jsToNumberInt value with
      | some n => u64le (intToF64bits n)
      | none => u64le f64NaNbits
  | 19 => [if jsTruthy value then 1 else 0]
  | 20 | 21 | 22 | 23 | 29 | 30 => utf8Encode (jsToString value) ++ [0]
  | 31 =>
    let hex := (jsToString value).data.filter fun c => c ≠ Char.ofNat 45
    let bytes := (List.range 16).map fun i =>
      (parseIntHexPair ((hex.drop (2 * i)).take 2)).getD 0
    bytes.take 8 ++ swapPairs (bytes.drop 8)
  | 28 =>
    let p := tsParts value
    lenPrefixedString p.1 ++ lenPrefixedString p.2
  | 33 => serializeTFS isBG3 (tfsOf value)
  | 8 | 9 | 10 | 11 | 12 | 13 =>
    let parts := splitWs (jsToString value)
    let isInt := type ≤ 10
    let comps := if type = 8 ∨ type = 11 then 2 else if type = 9 ∨ type = 12 then 3 else 4
    ((List.range comps).map fun i => vecComp isInt (parts.get? i)).flatten
  | 24 | 26 | 32 =>
    match jsToBigInt value with
    | some z => if -9223372036854775808 ≤ z ∧ z < 9223372036854775808 then i64le z else u64le 0
    | none => u64le 0
  | 25 => b64decode (jsToString value)
  | _ => utf8Encode (jsToString value)

end LsfWriter

namespace LSFReader

/-! ## LSF reader: value decoding -/
/-- `readLsfString`: drop the final byte (the NUL terminator), strip any
further trailing zero bytes, decode as UTF-8. -/
def readLsfString (buf : List Nat) : String :=
  if buf.length = 0 then ""
  else
    let content := buf.take (buf.length - 1)
    utf8Decode ((content.reverse.dropWhile fun b => b = 0).reverse)

/-- The five hex groups 4-2-2-2-6 of a 16-byte UUID buffer. -/
def formatUuidGroups (b : List Nat) : String :=
  hexEncode (b.take 4) ++ "-" ++ hexEncode ((b.drop 4).take 2) ++ "-" ++
    hexEncode ((b.drop 6).take 2) ++ "-" ++ hexEncode ((b.drop 8).take 2) ++ "-" ++
    hexEncode (b.drop 10)

/-- `formatUuid(buf, byteSwap)`: optionally swap the last eight bytes
pairwise, then join the hex of the five groups 4-2-2-2-6. -/
def formatUuid (buf : List Nat) (byteSwap : Bool) : String :=
  if buf.length ≠ 16 then hexEncode buf
  else formatUuidGroups (if byteSwap then buf.take 8 ++ swapPairs (buf.drop 8) else buf)

/-- `readTranslatedString`: i32 value length, value bytes, i32 handle
length, handle bytes, with the source's bounds guards. -/
def readTranslatedString (buf : List Nat) : String × String :=
  if buf.length < 8 then ("", "")
  else
    let valueLen := readI32 buf
    let vOk := 0 < valueLen ∧ (4 + valueLen.toNat : Nat) ≤ buf.length
    let value := if vOk then readLsfString ((buf.drop 4).take valueLen.toNat) else ""
    let pos := if vOk then 4 + valueLen.toNat else 4
    if buf.length < pos + 4 then (value, "")
    else
      let handleLen := readI32 (buf.drop pos)
      let handle := if 0 < handleLen ∧ pos + 4 + handleLen.toNat ≤ buf.length then
          readLsfString ((buf.drop (pos + 4)).take handleLen.toNat)
        else ""
      (value, handle)

mutual
/-- `readTranslatedFSStringWithLength`, fuelled (the source terminates
because every recursive parse consumes input; the top-level call passes
`buf.length + 1` fuel which is never exhausted on such inputs).
Returns the parsed value and the bytes consumed. -/
def readTFSAux : Nat → Nat → List Nat → TFS × Nat
  | 0, _, _ => (.mk "" "" [], 0)
  | fuel + 1, version, buf =>
    if buf.length < 4 then (.mk "" "" [], 0)
    else
      let isBG3 := 5 ≤ version
      let start : Option (String × Nat) :=
        if isBG3 then (if buf.length < 6 then none else some ("", 2))
        else
          let valueLen := readI32 buf
          let vOk := 0 < valueLen ∧ 4 + valueLen.toNat ≤ buf.length
          some (if vOk then readLsfString ((buf.drop 4).take valueLen.toNat) else "",
            if vOk then 4 + valueLen.toNat else 4)
      match start with
      | none => (.mk "" "" [], 0)
      | some (value, pos0) =>
        if buf.length < pos0 + 4 then (.mk value "" [], pos0)
        else
          let handleLen := readI32 (buf.drop pos0)
          let hOk := 0 < handleLen ∧ pos0 + 4 + handleLen.toNat ≤ buf.length
          let handle := if hOk then readLsfString ((buf.drop (pos0 + 4)).take handleLen.toNat)
            else ""
          let pos1 := if hOk then pos0 + 4 + handleLen.toNat else pos0 + 4
          if buf.length < pos1 + 4 then (.mk value handle [], pos1)
          else
            let numArgs := readI32 (buf.drop pos1)
            let pos2 := pos1 + 4
            if numArgs ≤ 0 then (.mk value handle [], pos2)
            else
              let r := readTFSArgsAux fuel version buf numArgs.toNat pos2
              (.mk value handle r.1, r.2)
termination_by fuel _ _ => (fuel, 0)
def readTFSArgsAux : Nat → Nat → List Nat → Nat → Nat → List TFSArg × Nat
  | _, _, _, 0, pos => ([], pos)
  | fuel, version, buf, count + 1, pos =>
    if buf.length < pos + 4 then ([], pos)
    else
      let keyLen := readI32 (buf.drop pos)
      let kOk := 0 < keyLen ∧ pos + 4 + keyLen.toNat ≤ buf.length
      let key := if kOk then readLsfString ((buf.drop (pos + 4)).take keyLen.toNat) else ""
      let pos1 := if kOk then pos + 4 + keyLen.toNat else pos + 4
      let sub := readTFSAux fuel version (buf.drop pos1)
      let pos2 := pos1 + sub.2
      if buf.length < pos2 + 4 then ([], pos2)
      else
        let valLen := readI32 (buf.drop pos2)
        let vOk := 0 < valLen ∧ pos2 + 4 + valLen.toNat ≤ buf.length
        let val := if vOk then readLsfString ((buf.drop (pos2 + 4)).take valLen.toNat) else ""
        let pos3 := if vOk then pos2 + 4 + valLen.toNat else pos2 + 4
        let r := readTFSArgsAux fuel version buf count pos3
        (.mk key val (some sub.1) :: r.1, r.2)
termination_by fuel _ _ count _ => (fuel, count + 1)
end

/-- The type dispatch of `readAttributeValue` (its body past the
empty-slice guard). -/
def readAttributeValueBody (version : Nat) (type : Nat) (buf : List Nat) : JSValue :=
  match type with
    | 1 => .num (if 1 ≤ buf.length then readInt8 (buf.getD 0 0) else 0)
    | 2 => .num (if 2 ≤ buf.length then readI16 buf else 0)
    | 3 => .num (if 2 ≤ buf.length then readU16 buf else 0)
    | 4 => .num (if 4 ≤ buf.length then readI32 buf else 0)
    | 5 => .num (if 4 ≤ buf.length then readU32 buf else 0)
    | 6 => if 4 ≤ buf.length then .f32 (readU32 buf) else .num 0
    | 7 => if 8 ≤ buf.length then .f64 (readU64 buf) else .num 0
    | 19 => .bool (if 1 ≤ buf.length then readInt8 (buf.getD 0 0) ≠ 0 else False)
    | 8 =>
      if 8 ≤ buf.length then
        .str (toString (readI32 buf) ++ " " ++ toString (readI32 (buf.drop 4)))
      else .str (hexEncode buf)
    | 9 =>
      if 12 ≤ buf.length then
        .str (toString (readI32 buf) ++ " " ++ toString (readI32 (buf.drop 4)) ++ " " ++
          toString (readI32 (buf.drop 8)))
      else .str (hexEncode buf)
    | 10 =>
      if 16 ≤ buf.length then
        .str (toString (readI32 buf) ++ " " ++ toString (readI32 (buf.drop 4)) ++ " " ++
          toString (readI32 (buf.drop 8)) ++ " " ++ toString (readI32 (buf.drop 12)))
      else .str (hexEncode buf)
    | 11 => if 8 ≤ buf.length then .vecF [readU32 buf, readU32 (buf.drop 4)]
      else .str (hexEncode buf)
    | 12 => if 12 ≤ buf.length then
        .vecF [readU32 buf, readU32 (buf.drop 4), readU32 (buf.drop 8)]
      else .str (hexEncode buf)
    | 13 => if 16 ≤ buf.length then
        .vecF [readU32 buf, readU32 (buf.drop 4), readU32 (buf.drop 8), readU32 (buf.drop 12)]
      else .str (hexEncode buf)
    | 20 | 21 | 22 | 23 | 29 | 30 => .str (readLsfString buf)
    | 31 => if buf.length = 16 then .str (formatUuid buf true) else .str (hexEncode buf)
    | 24 => .str (toString (readU64 buf))
    | 26 | 32 => if 8 ≤ buf.length then .str (toString (readI64 buf)) else .str ""
    | 27 => .num (if 1 ≤ buf.length then readInt8 (buf.getD 0 0) else 0)
    | 25 => .str (b64encode buf)
    | 28 =>
      let p := readTranslatedString buf
      .ts p.1 p.2
    | 33 => .tfs (readTFSAux (buf.length + 1) version buf).1
    | _ => .str (hexEncode buf)

/-- `readAttributeValue`: decode the sliced value bytes according to the
type tag.  `len` is the attribute entry length (the slice may be
shorter when the offset points past the value block). -/
def readAttributeValue (version : Nat) (type : Nat) (buf : List Nat) (len : Nat) : JSValue :=
  if buf.length = 0 ∧ 0 < len then .str ""
  else readAttributeValueBody version type buf

end LSFReader

/-! ## LSF table entries -/
/-- `LSFNodeEntry` (src/src/lsf/types.ts). -/
structure LSFNodeEntry where
  nameIndex : Nat
  parentIndex : Int
  nextSiblingIndex : Int
  firstAttributeIndex : Int
deriving Repr, DecidableEq

instance : Inhabited LSFNodeEntry := ⟨⟨0, -1, -1, -1⟩⟩

/-- `LSFAttributeEntry` (src/src/lsf/types.ts). -/
structure LSFAttributeEntry where
  nameIndex : Nat
  type : Nat
  length : Nat
  nodeIndex : Int
  nextAttributeIndex : Int
  offset : Nat
deriving Repr, DecidableEq

instance : Inhabited LSFAttributeEntry := ⟨⟨0, 0, 0, -1, -1, 0⟩⟩

namespace LSFReader

/-- The length field of `typeAndLength`: a JS SIGNED shift by 6.  The
`.toNat` clamps the (never writer-produced) negative case to zero. -/
def talLength (tal : Nat) : Nat := (jsShr (toInt32 tal) 6).toNat

/-- `parseNodes`, V3 layout (16-byte entries: nameRef u32, parent i32,
nextSibling i32, firstAttribute i32).  The source loop reads whole
entries while bytes remain (a partial trailing entry would make the
Buffer reads throw; the writer emits exact multiples). -/
def parseNodesV3 : List Nat → List LSFNodeEntry
  | [] => []
  | b :: rest =>
    { nameIndex := readU32 (b :: rest), parentIndex := readI32 ((b :: rest).drop 4),
      nextSiblingIndex := readI32 ((b :: rest).drop 8),
      firstAttributeIndex := readI32 ((b :: rest).drop 12) } ::
      parseNodesV3 ((b :: rest).drop 16)
termination_by l => l.length
decreasing_by simp_wf; omega

/-- `parseNodes`, V2 layout (12-byte entries: nameRef u32,
firstAttribute i32, parent i32; no sibling index). -/
def parseNodesV2 : List Nat → List LSFNodeEntry
  | [] => []
  | b :: rest =>
    { nameIndex := readU32 (b :: rest), parentIndex := readI32 ((b :: rest).drop 8),
      nextSiblingIndex := -1, firstAttributeIndex := readI32 ((b :: rest).drop 4) } ::
      parseNodesV2 ((b :: rest).drop 12)
termination_by l => l.length
decreasing_by simp_wf; omega

def parseNodes (metadataFormat : Nat) (buf : List Nat) : List LSFNodeEntry :=
  if metadataFormat = 1 then parseNodesV3 buf else parseNodesV2 buf

/-- `parseAttributes`, V3 layout (16-byte entries with explicit
nextAttributeIndex and value offset). -/
def parseAttrsV3 : List Nat → List LSFAttributeEntry
  | [] => []
  | b :: rest =>
    let l := b :: rest
    let tal := readU32 (l.drop 4)
    { nameIndex := readU32 l, type := tal % 64, length := talLength tal,
      nodeIndex := -1, nextAttributeIndex := readI32 (l.drop 8),
      offset := readU32 (l.drop 12) } :: parseAttrsV3 (l.drop 16)
termination_by l => l.length
decreasing_by simp_wf; omega

/-- Patch an earlier entry's `nextAttributeIndex`
(`this.attributes[prev].nextAttributeIndex = this.attributes.length`). -/
def setNextAttr (acc : List LSFAttributeEntry) (idx : Nat) (nxt : Int) :
    List LSFAttributeEntry :=
  match acc.get? idx with
  | some e => acc.set idx { e with nextAttributeIndex := nxt }
  | none => acc

/-- `while (prevAttributeRefs.length <= nodeIndex) push(-1)`. -/
def padTo (prev : List Int) (n : Nat) : List Int :=
  prev ++ List.replicate (n + 1 - prev.length) (-1)

/-- `parseAttributes`, V2 layout: 12-byte entries (nameRef, tal,
nodeIndex); the reader rebuilds per-node chains through
`prevAttributeRefs` and assigns cumulative value offsets.  A negative
`nodeIndex + 1` would be an out-of-range JS array access and is
modelled as skipping the linking. -/
def parseAttrsV2Loop : List Nat → List Int → Nat → List LSFAttributeEntry →
    List LSFAttributeEntry
  | [], _, _, acc => acc
  | b :: rest, prev, dataOffset, acc =>
    let l := b :: rest
    let tal := readU32 (l.drop 4)
    let nodeIndexI := readI32 (l.drop 8)
    let attr : LSFAttributeEntry :=
      { nameIndex := readU32 l, type := tal % 64, length := talLength tal,
        nodeIndex := nodeIndexI, nextAttributeIndex := -1, offset := dataOffset }
    if 0 ≤ nodeIndexI + 1 then
      let ni := (nodeIndexI + 1).toNat
      let acc2 := if ni < prev.length ∧ prev.getD ni (-1) ≠ -1 then
          setNextAttr acc (prev.getD ni (-1)).toNat acc.length
        else acc
      let prev2 := (padTo prev ni).set ni acc.length
      parseAttrsV2Loop (l.drop 12) prev2 (dataOffset + attr.length) (acc2 ++ [attr])
    else
      parseAttrsV2Loop (l.drop 12) prev (dataOffset + attr.length) (acc ++ [attr])
termination_by l _ _ _ => l.length
decreasing_by all_goals simp_wf; omega

def parseAttributes (metadataFormat : Nat) (buf : List Nat) : List LSFAttributeEntry :=
  if metadataFormat = 1 then parseAttrsV3 buf else parseAttrsV2Loop buf [] 0 []

/-- The attribute-chain walk of `buildNodeRecursive`: follow
`nextAttributeIndex` from `firstAttributeIndex`, tracking visited
indices (the loop body can run at most `attrs.length` times since every
iteration visits a fresh index, so `attrs.length + 1` fuel is exact).
The JS `attrEntry.offset || runningOffset` treats offset 0 as falsy.
Each resolved attribute is assigned into the JS record in chain order
(modelled as list append; writer-produced chains have distinct names).
A negative index other than -1 would crash the source on an undefined
entry; the model exits the loop. -/
def readAttrChain (strings : List (List String)) (attrs : List LSFAttributeEntry)
    (values : List Nat) (version : Nat) :
    Nat → List Nat → Int → Nat → List LSFAttribute
  | 0, _, _, _ => []
  | fuel + 1, visited, attrIdx, runningOffset =>
    if attrIdx < 0 ∨ (attrs.length : Int) ≤ attrIdx then []
    else
      let i := attrIdx.toNat
      if visited.contains i then []
      else
        let e := attrs.getD i default
        let name := resolveName strings e.nameIndex
        let actualOffset := if e.offset = 0 then runningOffset else e.offset
        let value := readAttributeValue version e.type
          ((values.drop actualOffset).take e.length) e.length
        ⟨name, e.type, value⟩ ::
          readAttrChain strings attrs values version fuel (i :: visited)
            e.nextAttributeIndex (actualOffset + e.length)

/-- `buildNodeRecursive`, fuelled by the remaining depth budget
(`fuel = 101 - depth`; the source throws once `depth > 100`).  Children
are collected by scanning the whole node array for entries whose
`parentIndex` equals this node's index. -/
def buildNode (strings : List (List String)) (nodes : List LSFNodeEntry)
    (attrs : List LSFAttributeEntry) (values : List Nat) (version : Nat) :
    Nat → Nat → Except String LSFNode
  | 0, _ => Except.error "Build recursion depth exceeded"
  | fuel + 1, nodeIdx =>
    let e := nodes.getD nodeIdx default
    let name := resolveName strings e.nameIndex
    let nattrs := readAttrChain strings attrs values version (attrs.length + 1) []
      e.firstAttributeIndex 0
    let childIdxs := (List.range nodes.length).filter fun i =>
      decide ((nodes.getD i default).parentIndex = (nodeIdx : Int)) && decide (i ≠ nodeIdx)
    match childIdxs.mapM fun i => buildNode strings nodes attrs values version fuel i with
    | Except.ok cs => Except.ok (.mk name nattrs cs none)
    | Except.error e => Except.error e

/-- `reconstructTree`: error on an empty node table or missing roots; a
single root is returned directly, several roots are wrapped in a
virtual `save` node.  The root depth budget is 101 (depths 0..100). -/
def reconstructTree (strings : List (List String)) (nodes : List LSFNodeEntry)
    (attrs : List LSFAttributeEntry) (values : List Nat) (version : Nat) :
    Except String LSFNode :=
  if nodes.length = 0 then Except.error "No nodes found"
  else
    let rootIndices := (List.range nodes.length).filter fun i =>
      decide ((nodes.getD i default).parentIndex = (-1 : Int))
    if rootIndices.length = 0 then Except.error "No root node found"
    else if rootIndices.length = 1 then
      buildNode strings nodes attrs values version 101 (rootIndices.getD 0 0)
    else
      match rootIndices.mapM fun i => buildNode strings nodes attrs values version 101 i with
      | Except.ok cs => Except.ok (.mk "save" [] cs none)
      | Except.error e => Except.error e

/-- The whole reader on the four decompressed blocks (`read()` after
block decompression; the lz4/zlib/zstd stage belongs to the external
libraries and is byte-preserving on its domain). -/
def readLsfBlocks (stringBuf nodeBuf attrBuf valueBuf : List Nat) (version : Nat)
    (metadataFormat : Nat) : Except String LSFNode :=
  reconstructTree (parseStringTable stringBuf) (parseNodes metadataFormat nodeBuf)
    (parseAttributes metadataFormat attrBuf) valueBuf version

end LSFReader

namespace LsfWriter

/-! ## LSF writer: flattening and block emission

The source computes each node's `parentIdx` by searching the flattened
array for the node object holding it among its children, and the
sibling index through `indexOf` on object references.  Under JS
reference identity every node object occurs exactly once in the
flattened preorder array, so those searches return precisely the
preorder index of the parent and of the next sibling; the functions
below compute the same indices structurally. -/
mutual
/-- Number of nodes in a subtree (its preorder footprint). -/
def nodeCount : LSFNode → Nat
  | .mk _ _ cs _ => 1 + nodeListCount cs
def nodeListCount : List LSFNode → Nat
  | [] => 0
  | c :: cs => nodeCount c + nodeListCount cs
end

mutual
/-- Number of attributes in a subtree. -/
def attrTotal : LSFNode → Nat
  | .mk _ attrs cs _ => attrs.length + attrListTotal cs
def attrListTotal : List LSFNode → Nat
  | [] => 0
  | c :: cs => attrTotal c + attrListTotal cs
end

mutual
/-- `collectStringsInOrder`: node name, attribute names, children
depth-first. -/
def collectStrings : LSFNode → List String
  | .mk name attrs cs _ => name :: (attrs.map LSFAttribute.name ++ collectStringsList cs)
def collectStringsList : List LSFNode → List String
  | [] => []
  | c :: cs => collectStrings c ++ collectStringsList cs
end

/-- Writer-side flattened attribute record: resolved name reference,
type tag, serialized value bytes, owning node index. -/
structure WAttr where
  nameIndex : Nat
  type : Nat
  bytes : List Nat
  nodeIdx : Nat
deriving Repr

instance : Inhabited WAttr := ⟨⟨0, 0, [], 0⟩⟩

mutual
/-- Flatten one subtree rooted at preorder index `self` with the given
parent and next-sibling indices; `ab` is the index of its first
attribute in the global attribute array. -/
def flatNode (isBG3 : Bool) (im : String → Nat) (t : LSFNode) (self : Nat) (parent : Int)
    (nextSib : Int) (ab : Nat) : List LSFNodeEntry × List WAttr :=
  match t with
  | .mk name attrs cs _ =>
    let wattrs := attrs.map fun a =>
      ⟨im a.name, a.type, serializeAttributeValue isBG3 a.type a.value, self⟩
    let firstAttr : Int := if attrs.length = 0 then -1 else (ab : Int)
    let r := flatChildren isBG3 im cs (self + 1) (self : Int) (ab + attrs.length)
    (⟨im name, parent, nextSib, firstAttr⟩ :: r.1, wattrs ++ r.2)
/-- Flatten a child list starting at preorder index `base`. -/
def flatChildren (isBG3 : Bool) (im : String → Nat) : List LSFNode → Nat → Int → Nat →
    List LSFNodeEntry × List WAttr
  | [], _, _, _ => ([], [])
  | c :: rest, base, parent, ab =>
    let sz := nodeCount c
    let nextSib : Int := if rest.length = 0 then -1 else ((base + sz : Nat) : Int)
    let r1 := flatNode isBG3 im c base parent nextSib ab
    let r2 := flatChildren isBG3 im rest (base + sz) parent (ab + attrTotal c)
    (r1.1 ++ r2.1, r1.2 ++ r2.2)
end

/-- Flatten the region list: every region root gets `parentIndex = -1`
and (never being found among any node's children) `nextSiblingIndex`
-1. -/
def flatForest (isBG3 : Bool) (im : String → Nat) : List LSFNode → Nat → Nat →
    List LSFNodeEntry × List WAttr
  | [], _, _ => ([], [])
  | r :: rest, base, ab =>
    let r1 := flatNode isBG3 im r base (-1) (-1) ab
    let r2 := flatForest isBG3 im rest (base + nodeCount r) (ab + attrTotal r)
    (r1.1 ++ r2.1, r1.2 ++ r2.2)

/-- `region` split of the writer: a `save`-named root with children is
split into its regions, otherwise the root itself is the sole region. -/
def regionsOf (root : LSFNode) : List LSFNode :=
  if root.name = "save" ∧ root.children.length ≠ 0 then root.children else [root]

/-- V3 node entry bytes (16 per entry). -/
def nodeEntryBytesV3 (e : LSFNodeEntry) : List Nat :=
  u32le e.nameIndex ++ i32le e.parentIndex ++ i32le e.nextSiblingIndex ++
    i32le e.firstAttributeIndex

/-- V2 node entry bytes (12 per entry: nameRef, firstAttribute,
parent). -/
def nodeEntryBytesV2 (e : LSFNodeEntry) : List Nat :=
  u32le e.nameIndex ++ i32le e.firstAttributeIndex ++ i32le e.parentIndex

/-- The `nextAttrMap` of the V3 emitter: the next position holding an
attribute of the same node, or -1 (`attrIdxByNode` lists the positions
of each node's attributes in ascending order). -/
def nextAttrIdx (flatAttrs : List WAttr) (i : Nat) : Int :=
  match (flatAttrs.drop (i + 1)).findIdx? fun a =>
      a.nodeIdx = (flatAttrs.getD i default).nodeIdx with
  | some k => ((i + 1 + k : Nat) : Int)
  | none => -1

/-- V3 attribute table: 16-byte entries with cumulative value offsets. -/
def attrTableV3Aux (all : List WAttr) : Nat → Nat → List WAttr → List Nat
  | _, _, [] => []
  | i, off, a :: rest =>
    u32le a.nameIndex ++ u32le (talOf a.type a.bytes.length) ++ i32le (nextAttrIdx all i) ++
      u32le off ++ attrTableV3Aux all (i + 1) (off + a.bytes.length) rest

def attrTableV3 (flatAttrs : List WAttr) : List Nat := attrTableV3Aux flatAttrs 0 0 flatAttrs

/-- V2 attribute table: 12-byte entries (nameRef, tal, nodeIndex). -/
def attrTableV2 : List WAttr → List Nat
  | [] => []
  | a :: rest =>
    u32le a.nameIndex ++ u32le (talOf a.type a.bytes.length) ++ i32le (a.nodeIdx : Int) ++
      attrTableV2 rest

/-- The uncompressed blocks `writeLsf` assembles (plus the header fields
the reader consumes): string table, node table, attribute table, value
block, header version (6 for BG3, 3 for DOS2) and the metadataFormat
value the metadata block declares (BG3 always writes 1 even though the
table layout follows the option; DOS2 writes the option byte). -/
structure WriteResult where
  stringBuf : List Nat
  nodeBuf : List Nat
  attrBuf : List Nat
  valueBuf : List Nat
  headerVersion : Nat
  metadataFormatWritten : Nat

/-- `writeLsf(root, v, options)` up to the per-block lz4 compression
(modelled as the identity on block contents, matching the reader's
decompression): collect strings of the regions in order, intern them,
flatten nodes and attributes, and emit the four blocks. -/
def writeLsf (root : LSFNode) (vmajor : Nat) (mfOpt : Option Nat) : WriteResult :=
  let isBG3 := 4 ≤ vmajor
  let metadataFormat := mfOpt.getD (if isBG3 then 1 else 0)
  let strs := collectStringsList (regionsOf root)
  let st := buildStringTableState strs
  let im := fun s => (lookupIM st.indexMap s).getD 0
  let fr := flatForest isBG3 im (regionsOf root) 0 0
  let nodeBuf := if metadataFormat = 1 then (fr.1.map nodeEntryBytesV3).flatten
    else (fr.1.map nodeEntryBytesV2).flatten
  let attrBuf := if metadataFormat = 1 then attrTableV3 fr.2 else attrTableV2 fr.2
  { stringBuf := stringTableBytes st.buckets
    nodeBuf := nodeBuf
    attrBuf := attrBuf
    valueBuf := (fr.2.map WAttr.bytes).flatten
    headerVersion := if isBG3 then 6 else 3
    metadataFormatWritten := if isBG3 then 1 else metadataFormat }

end LsfWriter

/-- The reader applied to the writer's blocks: `readLsf(writeLsf(tree))`
with the external compression round (lz4 encode/decode) elided. -/
def readWriteLsf (root : LSFNode) (vmajor : Nat) (mfOpt : Option Nat) :
    Except String LSFNode :=
  let w := LsfWriter.writeLsf root vmajor mfOpt
  LSFReader.readLsfBlocks w.stringBuf w.nodeBuf w.attrBuf w.valueBuf w.headerVersion
    w.metadataFormatWritten

/-! ## Canonical trees

The round-trip `readLsf(writeLsf(tree))` cannot reproduce arbitrary
trees (node keys are never written, several value shapes are normalised
by the reader).  `canonicalValue` describes the attribute values the
reader itself produces: exactly those are fixed points of the codec. -/
/-- True when the string does not end in a NUL character (the reader
strips trailing NULs). -/
def noTrailingNul (s : String) : Bool :=
  match s.data.getLast? with
  | some c => c ≠ Char.ofNat 0
  | none => true

/-- The sixteen bytes the writer parses out of a UUID string (dashes
removed, hex pairs; identical to the UUID case of
`serializeAttributeValue` before the byte swap). -/
def uuidBytesOf (s : String) : List Nat :=
  (List.range 16).map fun i =>
    (parseIntHexPair (((s.data.filter fun c => c ≠ Char.ofNat 45).drop (2 * i)).take 2)).getD 0

/-- Canonical attribute values per type tag: the value shapes produced
by the LSF reader for the integer, boolean, string, UUID and
TranslatedString types.  (Float, Double, vector, 64-bit integer,
ScratchBuffer and TranslatedFSString attributes are outside the
modelled fragment and never canonical here.) -/
def canonicalValue (type : Nat) (v : JSValue) : Bool :=
  if type = 1 ∨ type = 27 then
    match v with
    | .num n => decide (-128 ≤ n) && decide (n ≤ 127)
    | _ => false
  else if type = 2 then
    match v with
    | .num n => decide (-32768 ≤ n) && decide (n < 32768)
    | _ => false
  else if type = 3 then
    match v with
    | .num n => decide (0 ≤ n) && decide (n < 65536)
    | _ => false
  else if type = 4 then
    match v with
    | .num n => decide (-2147483648 ≤ n) && decide (n < 2147483648)
    | _ => false
  else if type = 5 then
    match v with
    | .num n => decide (0 ≤ n) && decide (n < 4294967296)
    | _ => false
  else if type = 19 then
    match v with
    | .bool _ => true
    | _ => false
  else if type = 20 ∨ type = 21 ∨ type = 22 ∨ type = 23 ∨ type = 29 ∨ type = 30 then
    match v with
    | .str s => noTrailingNul s
    | _ => false
  else if type = 31 then
    match v with
    | .str s => LSFReader.formatUuid (uuidBytesOf s) false == s
    | _ => false
  else if type = 28 then
    match v with
    | .ts v h =>
      noTrailingNul v && noTrailingNul h &&
        decide ((utf8Encode v).length < 16777216) && decide ((utf8Encode h).length < 16777216)
    | _ => false
  else false

mutual
/-- Height of a node (levels). -/
def heightN : LSFNode → Nat
  | .mk _ _ cs _ => 1 + heightList cs
def heightList : List LSFNode → Nat
  | [] => 0
  | c :: cs => max (heightN c) (heightList cs)
end

mutual
/-- Per-node canonicity: no key, canonical values, distinct attribute
names, canonical children. -/
def canonicalNode : LSFNode → Bool
  | .mk _ attrs cs k =>
    k.isNone && attrs.all (fun a => canonicalValue a.type a.value) &&
      decide (attrs.map LSFAttribute.name).Nodup && canonicalForest cs
def canonicalForest : List LSFNode → Bool
  | [] => true
  | c :: cs => canonicalNode c && canonicalForest cs
end

/-- A canonical tree: all regions canonical and within the reader's
depth budget; a multi-region `save` root carries no attributes or key
and at least two regions (a single region would be returned unwrapped
by the reader). -/
def goodTree (t : LSFNode) : Bool :=
  canonicalForest (LsfWriter.regionsOf t) && decide (heightList (LsfWriter.regionsOf t) ≤ 101) &&
    (if t.name == "save" && t.children.length != 0 then
      t.attributes.isEmpty && t.key.isNone && decide (2 ≤ t.children.length)
    else true)

/-- The interning map `writeLsf` builds (string → table reference). -/
def writerIMap (root : LSFNode) : String → Nat :=
  fun s =>
    (LsfWriter.lookupIM
      (LsfWriter.buildStringTableState
        (LsfWriter.collectStringsList (LsfWriter.regionsOf root))).indexMap s).getD 0

/-- The flattened node/attribute arrays `writeLsf` emits. -/
def writerFlat (root : LSFNode) (vmajor : Nat) :
    List LSFNodeEntry × List LsfWriter.WAttr :=
  LsfWriter.flatForest (decide (4 ≤ vmajor)) (writerIMap root) (LsfWriter.regionsOf root) 0 0

/-! ## Node table round trips -/
/-- Field ranges under which the 32-bit node entry fields survive the
byte encoding. -/
def nodeEntryBounds (e : LSFNodeEntry) : Prop :=
  e.nameIndex < 4294967296 ∧ -2147483648 ≤ e.parentIndex ∧ e.parentIndex < 2147483648 ∧
    -2147483648 ≤ e.nextSiblingIndex ∧ e.nextSiblingIndex < 2147483648 ∧
    -2147483648 ≤ e.firstAttributeIndex ∧ e.firstAttributeIndex < 2147483648

/-! ## Attribute table round trips -/
/-- Cumulative value offset of attribute `i` (sum of the byte lengths
of the earlier attribute values). -/
def vOffStart (flatAttrs : List LsfWriter.WAttr) (i : Nat) : Nat :=
  ((flatAttrs.take i).map fun a => a.bytes.length).sum

/-- The attribute entry the reader obtains for position `j` of the
writer's flattened attribute array, for either table layout
(`nodeIndex` is -1 in the V3 layout and the owning node in V2; nothing
downstream reads it, so it is kept as a parameter). -/
def expectedAttrEntry (flatAttrs : List LsfWriter.WAttr) (nodeIdxOf : Nat → Int) (j : Nat) :
    LSFAttributeEntry :=
  { nameIndex := (flatAttrs.getD j default).nameIndex,
    type := (flatAttrs.getD j default).type,
    length := (flatAttrs.getD j default).bytes.length,
    nodeIndex := nodeIdxOf j,
    nextAttributeIndex := LsfWriter.nextAttrIdx flatAttrs j,
    offset := vOffStart flatAttrs j }

/-- Size bounds on a flattened attribute array under which the table
encodings are lossless. -/
def attrBounds (all : List LsfWriter.WAttr) : Prop :=
  (∀ a ∈ all, a.nameIndex < 4294967296 ∧ a.type < 64 ∧ a.bytes.length < 33554432 ∧
    a.nodeIdx < 2147483648) ∧
  all.length < 2147483648 ∧ ((all.map fun a => a.bytes.length).sum < 4294967296)

instance (all : List LsfWriter.WAttr) : Decidable (attrBounds all) := by
  unfold attrBounds
  infer_instance

/-! ## V2 attribute table: the chain-rebuilding loop -/
/-- The last position below `k` holding an attribute of node `ni - 1`
(i.e. with `nodeIdx + 1 = ni`), or -1: the value `prevAttributeRefs[ni]`
holds after `k` loop iterations. -/
def lastIdxBelow (all : List LsfWriter.WAttr) : Nat → Nat → Int
  | 0, _ => -1
  | k + 1, ni =>
    if (all.getD k default).nodeIdx + 1 = ni then (k : Int) else lastIdxBelow all k ni

/-- The attribute entry list after `upTo` iterations of the V2 loop:
chains are linked only towards positions already processed. -/
def expV2 (all : List LsfWriter.WAttr) (upTo : Nat) (j : Nat) : LSFAttributeEntry :=
  { nameIndex := (all.getD j default).nameIndex,
    type := (all.getD j default).type,
    length := (all.getD j default).bytes.length,
    nodeIndex := ((all.getD j default).nodeIdx : Int),
    nextAttributeIndex := if LsfWriter.nextAttrIdx all j < (upTo : Int) then
      LsfWriter.nextAttrIdx all j else -1,
    offset := vOffStart all j }

/-! ## The attribute chain walk -/
instance : Inhabited LSFAttribute := ⟨⟨"", 0, .num 0⟩⟩

/-! ## Flattened forest structure -/
/-- Global preorder positions of a child list starting at `b`. -/
def childOffsets : List LSFNode → Nat → List Nat
  | [], _ => []
  | c :: cs, b => b :: childOffsets cs (b + LsfWriter.nodeCount c)


/-! ## Theorems -/

theorem toUint32_lt (z : Int) : toUint32 z < 4294967296 := by
  have h := Int.emod_lt_of_pos z (b := 4294967296) (by norm_num)
  have h0 := Int.emod_nonneg z (b := 4294967296) (by norm_num)
  unfold toUint32
  omega

theorem readU32_u32le (n : Nat) (h : n < 4294967296) : readU32 (u32le n) = n := by
  simp only [u32le, readU32, List.getD]
  simp only [List.get?_cons_zero, List.get?_cons_succ, Option.getD_some]
  omega

theorem readU16_u16le (n : Nat) (h : n < 65536) : readU16 (u16le n) = n := by
  simp only [u16le, readU16, List.getD]
  simp only [List.get?_cons_zero, List.get?_cons_succ, Option.getD_some]
  omega

theorem readI32_i32le (z : Int) (h1 : -2147483648 ≤ z) (h2 : z < 2147483648) :
    readI32 (i32le z) = z := by
  have hmod : (z % 4294967296) = if 0 ≤ z then z else z + 4294967296 := by
    rcases le_or_lt 0 z with hz | hz
    · rw [if_pos hz]
      exact Int.emod_eq_of_lt hz (by omega)
    · rw [if_neg (by omega)]
      have : (z + 4294967296) % 4294967296 = z % 4294967296 := by
        omega
      rw [← this]
      exact Int.emod_eq_of_lt (by omega) (by omega)
  unfold readI32 i32le toUint32
  rw [readU32_u32le]
  · rcases le_or_lt 0 z with hz | hz
    · rw [hmod, if_pos hz]
      have : (z.toNat : Int) = z := Int.toNat_of_nonneg hz
      simp only [this]
      omega
    · rw [hmod, if_neg (by omega)]
      have hnn : (0:Int) ≤ z + 4294967296 := by omega
      have : ((z + 4294967296).toNat : Int) = z + 4294967296 := Int.toNat_of_nonneg hnn
      omega
  · have := toUint32_lt z
    unfold toUint32 at this
    exact this

theorem char_valid_ranges (c : Char) :
    c.toNat < 55296 ∨ (57343 < c.toNat ∧ c.toNat < 1114112) := by
  have h := c.valid
  unfold UInt32.isValidChar at h
  exact h

theorem utf8DecodeChars_cons (b : Nat) (rest : List Nat) :
    utf8DecodeChars (b :: rest) =
      (utf8Step b rest).1 :: utf8DecodeChars (rest.drop (utf8Step b rest).2) := by
  simp only [utf8DecodeChars]

theorem utf8DecodeChars_encodeChar (c : Char) (rest : List Nat) :
    utf8DecodeChars (utf8EncodeChar c ++ rest) = c :: utf8DecodeChars rest := by
  have hv := char_valid_ranges c
  unfold utf8EncodeChar
  rcases Nat.lt_or_ge c.toNat 128 with h1 | h1
  · rw [if_pos h1]
    show utf8DecodeChars (c.toNat :: rest) = _
    rw [utf8DecodeChars_cons]
    have hs : utf8Step c.toNat rest = (Char.ofNat c.toNat, 0) := by
      unfold utf8Step
      rw [if_pos h1]
    rw [hs, Char.ofNat_toNat]
    rfl
  · rw [if_neg (by omega)]
    rcases Nat.lt_or_ge c.toNat 2048 with h2 | h2
    · rw [if_pos h2]
      show utf8DecodeChars ((192 + c.toNat / 64) :: (128 + c.toNat % 64) :: rest) = _
      rw [utf8DecodeChars_cons]
      have hs : utf8Step (192 + c.toNat / 64) ((128 + c.toNat % 64) :: rest) =
          (Char.ofNat c.toNat, 1) := by
        unfold utf8Step
        rw [if_neg (by omega), if_neg (by omega), if_pos (by omega)]
        simp only [if_pos (show 128 ≤ 128 + c.toNat % 64 ∧ 128 + c.toNat % 64 < 192 by omega)]
        have hn : (192 + c.toNat / 64 - 192) * 64 + (128 + c.toNat % 64 - 128) = c.toNat := by
          omega
        rw [hn, if_neg (by omega)]
      rw [hs, Char.ofNat_toNat]
      rfl
    · rw [if_neg (by omega)]
      rcases Nat.lt_or_ge c.toNat 65536 with h3 | h3
      · rw [if_pos h3]
        show utf8DecodeChars ((224 + c.toNat / 4096) :: (128 + c.toNat / 64 % 64) ::
          (128 + c.toNat % 64) :: rest) = _
        rw [utf8DecodeChars_cons]
        have hs : utf8Step (224 + c.toNat / 4096)
            ((128 + c.toNat / 64 % 64) :: (128 + c.toNat % 64) :: rest) =
            (Char.ofNat c.toNat, 2) := by
          unfold utf8Step
          rw [if_neg (by omega), if_neg (by omega), if_neg (by omega), if_pos (by omega)]
          simp only [if_pos (show 128 ≤ 128 + c.toNat / 64 % 64 ∧ 128 + c.toNat / 64 % 64 < 192 ∧
            128 ≤ 128 + c.toNat % 64 ∧ 128 + c.toNat % 64 < 192 by omega)]
          have hn : (224 + c.toNat / 4096 - 224) * 4096 + (128 + c.toNat / 64 % 64 - 128) * 64 +
              (128 + c.toNat % 64 - 128) = c.toNat := by
            omega
          rw [hn, if_neg (by omega)]
        rw [hs, Char.ofNat_toNat]
        rfl
      · rw [if_neg (by omega)]
        show utf8DecodeChars ((240 + c.toNat / 262144) :: (128 + c.toNat / 4096 % 64) ::
          (128 + c.toNat / 64 % 64) :: (128 + c.toNat % 64) :: rest) = _
        rw [utf8DecodeChars_cons]
        have hs : utf8Step (240 + c.toNat / 262144) ((128 + c.toNat / 4096 % 64) ::
            (128 + c.toNat / 64 % 64) :: (128 + c.toNat % 64) :: rest) =
            (Char.ofNat c.toNat, 3) := by
          unfold utf8Step
          rw [if_neg (by omega), if_neg (by omega), if_neg (by omega), if_neg (by omega)]
          simp only [if_pos (show 128 ≤ 128 + c.toNat / 4096 % 64 ∧
            128 + c.toNat / 4096 % 64 < 192 ∧
            128 ≤ 128 + c.toNat / 64 % 64 ∧ 128 + c.toNat / 64 % 64 < 192 ∧
            128 ≤ 128 + c.toNat % 64 ∧ 128 + c.toNat % 64 < 192 by omega)]
          have hn : (240 + c.toNat / 262144 - 240) * 262144 +
              (128 + c.toNat / 4096 % 64 - 128) * 4096 +
              (128 + c.toNat / 64 % 64 - 128) * 64 + (128 + c.toNat % 64 - 128) = c.toNat := by
            omega
          rw [hn, if_neg (by omega)]
        rw [hs, Char.ofNat_toNat]
        rfl

theorem utf8DecodeChars_append (cs : List Char) (rest : List Nat) :
    utf8DecodeChars ((cs.map utf8EncodeChar).flatten ++ rest) = cs ++ utf8DecodeChars rest := by
  induction cs with
  | nil => rfl
  | cons c cs ih =>
    simp only [List.map_cons, List.flatten_cons, List.append_assoc]
    rw [utf8DecodeChars_encodeChar, ih]
    rfl

/-- Decoding inverts encoding. -/
theorem utf8Decode_encode (s : String) : utf8Decode (utf8Encode s) = s := by
  unfold utf8Decode utf8Encode
  rw [← List.append_nil (s.data.map utf8EncodeChar).flatten]
  rw [utf8DecodeChars_append]
  have h0 : utf8DecodeChars [] = [] := by
    simp only [utf8DecodeChars]
  rw [h0, List.append_nil]

/-! ## Byte-list reading helpers -/
theorem lorSplit (b o : Nat) (h : o < 65536) : (b <<< 16) ||| o = b * 65536 + o := by
  apply Nat.eq_of_testBit_eq
  intro i
  rw [Nat.testBit_lor, Nat.testBit_shiftLeft]
  rcases Nat.lt_or_ge i 16 with hi | hi
  · have h1 : (decide (16 ≤ i) && b.testBit (i - 16)) = false := by
      simp [Nat.not_le.mpr hi]
    rw [h1, Bool.false_or]
    rw [Nat.testBit_to_div_mod, Nat.testBit_to_div_mod]
    have e1 : 2 ^ i * (2 * 2 ^ (15 - i)) = 2 ^ 16 := by
      calc 2 ^ i * (2 * 2 ^ (15 - i)) = 2 ^ i * 2 ^ ((15 - i) + 1) := by
            rw [Nat.pow_succ]
            ring
        _ = 2 ^ (i + ((15 - i) + 1)) := (Nat.pow_add 2 i _).symm
        _ = 2 ^ 16 := by
            congr 1
            omega
    have h2 : b * 65536 + o = 2 ^ i * (2 * (b * 2 ^ (15 - i))) + o := by
      have : (65536 : Nat) = 2 ^ 16 := by norm_num
      rw [this, ← e1]
      ring
    rw [h2, Nat.mul_add_div (Nat.pos_pow_of_pos i (by norm_num))]
    have h3 : (2 * (b * 2 ^ (15 - i)) + o / 2 ^ i) % 2 = o / 2 ^ i % 2 := by
      omega
    rw [h3]
  · have ho : o.testBit i = false := by
      apply Nat.testBit_eq_false_of_lt
      calc o < 65536 := h
        _ = 2 ^ 16 := by norm_num
        _ ≤ 2 ^ i := Nat.pow_le_pow_right (by norm_num) hi
    rw [ho, Bool.or_false]
    have h6 : (decide (16 ≤ i)) = true := by
      simp [hi]
    rw [h6, Bool.true_and]
    rw [Nat.testBit_to_div_mod, Nat.testBit_to_div_mod]
    have h3 : (b * 65536 + o) / 2 ^ i = b / 2 ^ (i - 16) := by
      have h4 : (2:Nat) ^ i = 2 ^ 16 * 2 ^ (i - 16) := by
        rw [← Nat.pow_add]
        congr 1
        omega
      rw [h4, ← Nat.div_div_eq_div_mul]
      have h5 : (b * 65536 + o) / 2 ^ 16 = b := by
        have : (65536 : Nat) = 2 ^ 16 := by norm_num
        omega
      rw [h5]
    rw [h3]

theorem readU16_append (n : Nat) (t : List Nat) (h : n < 65536) :
    readU16 (u16le n ++ t) = n := by
  simp only [u16le, readU16, List.cons_append, List.nil_append, List.getD]
  simp only [List.get?_cons_zero, List.get?_cons_succ, Option.getD_some]
  omega

theorem readU32_append (n : Nat) (t : List Nat) (h : n < 4294967296) :
    readU32 (u32le n ++ t) = n := by
  simp only [u32le, readU32, List.cons_append, List.nil_append, List.getD]
  simp only [List.get?_cons_zero, List.get?_cons_succ, Option.getD_some]
  omega

theorem readI32_append (z : Int) (t : List Nat) (h1 : -2147483648 ≤ z) (h2 : z < 2147483648) :
    readI32 (i32le z ++ t) = z := by
  have hu : readU32 (i32le z ++ t) = readU32 (i32le z) := by
    unfold i32le
    rw [readU32_append _ _ (toUint32_lt z), readU32_u32le _ (toUint32_lt z)]
  unfold readI32
  rw [hu]
  exact readI32_i32le z h1 h2

theorem u16le_length (n : Nat) : (u16le n).length = 2 := rfl

theorem u32le_length (n : Nat) : (u32le n).length = 4 := rfl

theorem i32le_length (z : Int) : (i32le z).length = 4 := rfl

namespace LsfWriter

theorem emod512_toNat_lt (i : Int) : (i % 512).toNat < 512 := by
  have h1 := Int.emod_nonneg i (b := 512) (by norm_num)
  have h2 := Int.emod_lt_of_pos i (b := 512) (by norm_num)
  omega

theorem hashToBucket_lt (u : Nat) : hashToBucket u < 512 := by
  unfold hashToBucket
  have h9 : (512 : Nat) = 2 ^ 9 := by norm_num
  rw [h9]
  apply Nat.xor_lt_two_pow
  · apply Nat.xor_lt_two_pow
    · rw [← h9]
      exact emod512_toNat_lt _
    · rw [← h9]
      exact emod512_toNat_lt _
  · apply Nat.xor_lt_two_pow
    · rw [← h9]
      exact emod512_toNat_lt _
    · rw [← h9]
      exact emod512_toNat_lt _

theorem lookupIM_mem {m : List (String × Nat)} {s : String} {r : Nat}
    (h : lookupIM m s = some r) : (s, r) ∈ m := by
  unfold lookupIM at h
  cases hf : m.find? (fun p => p.1 == s) with
  | none =>
    rw [hf] at h
    simp at h
  | some q =>
    rw [hf] at h
    simp at h
    have hq := List.find?_some hf
    have hmem := List.mem_of_find?_eq_some hf
    simp only [beq_iff_eq] at hq
    have hqe : q = (s, r) := by
      cases q
      simp only [Prod.mk.injEq]
      exact ⟨hq, h⟩
    rw [← hqe]
    exact hmem

theorem lookupIM_append_some {m : List (String × Nat)} {s : String} {r : Nat}
    (p : String × Nat) (h : lookupIM m s = some r) : lookupIM (m ++ [p]) s = some r := by
  unfold lookupIM at h ⊢
  rw [List.find?_append]
  cases hf : m.find? (fun q => q.1 == s) with
  | none =>
    rw [hf] at h
    simp at h
  | some q =>
    rw [hf] at h
    simpa using h

theorem lookupIM_append_self {m : List (String × Nat)} {s : String} (r : Nat)
    (h : lookupIM m s = none) : lookupIM (m ++ [(s, r)]) s = some r := by
  unfold lookupIM at h ⊢
  rw [List.find?_append]
  cases hf : m.find? (fun q => q.1 == s) with
  | some q =>
    rw [hf] at h
    simp at h
  | none =>
    simp [List.find?]

theorem indexOf?_get? {α : Type} [BEq α] [LawfulBEq α] {a : α} {l : List α} {i : Nat}
    (h : l.indexOf? a = some i) : l.get? i = some a := by
  unfold List.indexOf? at h
  rw [List.findIdx?_eq_some_iff_getElem] at h
  obtain ⟨hlt, hget, _⟩ := h
  rw [List.get?_eq_getElem?, List.getElem?_eq_getElem hlt]
  have := beq_iff_eq.mp hget
  rw [this]

theorem sum_set_nat (l : List Nat) (i : Nat) (a : Nat) (h : i < l.length) :
    (l.set i a).sum + l.getD i 0 = l.sum + a := by
  induction l generalizing i with
  | nil => simp at h
  | cons b bs ih =>
    cases i with
    | zero =>
      simp [List.set, List.getD]
      omega
    | succ j =>
      simp only [List.set, List.sum_cons, List.getD_cons_succ]
      have := ih j (by simpa using h)
      omega

theorem getD_append_lt {α : Type} (l₁ l₂ : List α) (i : Nat) (d : α) (h : i < l₁.length) :
    (l₁ ++ l₂).getD i d = l₁.getD i d := by
  rw [List.getD_append _ _ _ _ h]

theorem get?_append_lt {α : Type} (l₁ l₂ : List α) (i : Nat) (h : i < l₁.length) :
    (l₁ ++ l₂).get? i = l₁.get? i := by
  simp only [List.get?_eq_getElem?]
  rw [List.getElem?_append_left h]

theorem getD_set_self {α : Type} (l : List α) (i : Nat) (x d : α) (h : i < l.length) :
    (l.set i x).getD i d = x := by
  simp only [List.getD_eq_getElem?_getD]
  rw [List.getElem?_set_self (by simpa using h)]
  rfl

theorem getD_set_ne {α : Type} (l : List α) (i j : Nat) (x d : α) (h : i ≠ j) :
    (l.set i x).getD j d = l.getD j d := by
  simp only [List.getD_eq_getElem?_getD]
  rw [List.getElem?_set_ne h]

/-- Branch equation: already interned strings are skipped. -/
theorem internString_of_some (st : STState) (s : String)
    (h : (lookupIM st.indexMap s).isSome) : internString st s = st := by
  unfold internString
  rw [if_pos h]

/-- Branch equation: new string found in its chain by the linear search. -/
theorem internString_found (st : STState) (s : String) (i : Nat)
    (h : lookupIM st.indexMap s = none)
    (hio : (st.buckets.getD (hashToBucket (dotNetStringHashCode s)) []).indexOf? s = some i) :
    internString st s =
      { st with indexMap :=
          st.indexMap ++ [(s, (hashToBucket (dotNetStringHashCode s) <<< 16) ||| i)] } := by
  unfold internString
  rw [if_neg (by rw [h]; simp)]
  simp only [hio]

/-- Branch equation: new string appended to its bucket chain. -/
theorem internString_fresh (st : STState) (s : String)
    (h : lookupIM st.indexMap s = none)
    (hio : (st.buckets.getD (hashToBucket (dotNetStringHashCode s)) []).indexOf? s = none) :
    internString st s =
      { buckets := st.buckets.set (hashToBucket (dotNetStringHashCode s))
          ((st.buckets.getD (hashToBucket (dotNetStringHashCode s)) []) ++ [s]),
        indexMap := st.indexMap ++ [(s, (hashToBucket (dotNetStringHashCode s) <<< 16) |||
          (st.buckets.getD (hashToBucket (dotNetStringHashCode s)) []).length)] } := by
  unfold internString
  rw [if_neg (by rw [h]; simp)]
  simp only [hio]

/-- One interning step preserves the invariant, keeps every existing
lookup result, makes the new string resolvable, and grows the map by at
most one entry. -/
theorem internString_spec (st : STState) (s : String) (h : STInv st) :
    STInv (internString st s) ∧
    (∀ t r, lookupIM st.indexMap t = some r →
      lookupIM (internString st s).indexMap t = some r) ∧
    (lookupIM (internString st s).indexMap s).isSome ∧
    (internString st s).indexMap.length ≤ st.indexMap.length + 1 := by
  cases hlk : (lookupIM st.indexMap s).isSome with
  | true =>
    rw [internString_of_some st s hlk]
    exact ⟨h, fun t r hr => hr, hlk, by omega⟩
  | false =>
    have hnone : lookupIM st.indexMap s = none := by
      cases hx : lookupIM st.indexMap s with
      | none => rfl
      | some v =>
        rw [hx] at hlk
        simp at hlk
    have hblt : hashToBucket (dotNetStringHashCode s) < st.buckets.length := by
      rw [h.blen]
      exact hashToBucket_lt _
    cases hio : (st.buckets.getD (hashToBucket (dotNetStringHashCode s)) []).indexOf? s with
    | some i =>
      rw [internString_found st s i hnone hio]
      refine ⟨⟨h.blen, ?_, ?_⟩, ?_, ?_, ?_⟩
      · intro p hp
        rcases List.mem_append.mp hp with hp1 | hp2
        · exact h.entries p hp1
        · have hps : p = (s, (hashToBucket (dotNetStringHashCode s) <<< 16) ||| i) := by
            simpa using hp2
          refine ⟨i, ?_, ?_⟩
          · rw [hps]
            rfl
          · rw [hps]
            show (st.buckets.getD (bucketOf s) []).get? i = some s
            unfold bucketOf
            exact indexOf?_get? hio
      · have := h.sumBound
        simp only [List.length_append, List.length_cons, List.length_nil]
        omega
      · intro t r hr
        exact lookupIM_append_some _ hr
      · rw [lookupIM_append_self _ hnone]
        rfl
      · simp
    | none =>
      rw [internString_fresh st s hnone hio]
      set b := hashToBucket (dotNetStringHashCode s) with hb
      set chain := st.buckets.getD b [] with hchain
      refine ⟨⟨?_, ?_, ?_⟩, ?_, ?_, ?_⟩
      · simp [h.blen]
      · intro p hp
        rcases List.mem_append.mp hp with hp1 | hp2
        · obtain ⟨i, hri, hgi⟩ := h.entries p hp1
          refine ⟨i, hri, ?_⟩
          by_cases hbe : bucketOf p.1 = b
          · rw [hbe] at hgi ⊢
            rw [getD_set_self _ _ _ _ hblt]
            rw [← hchain] at hgi
            have hilt : i < chain.length := by
              rw [List.get?_eq_getElem?] at hgi
              exact List.getElem?_eq_some_iff.mp hgi |>.choose
            rw [get?_append_lt _ _ _ hilt]
            exact hgi
          · rw [getD_set_ne _ _ _ _ _ (fun hx => hbe hx.symm)]
            exact hgi
        · have hps : p = (s, (b <<< 16) ||| chain.length) := by
            simpa using hp2
          refine ⟨chain.length, ?_, ?_⟩
          · rw [hps]
            rfl
          · rw [hps]
            show ((st.buckets.set b (chain ++ [s])).getD (bucketOf s) []).get? chain.length =
              some s
            have hbs : bucketOf s = b := rfl
            rw [hbs, getD_set_self _ _ _ _ hblt]
            simp [List.getElem?_concat_length, List.get?_eq_getElem?]
      · have hmap : (st.buckets.set b (chain ++ [s])).map List.length =
            (st.buckets.map List.length).set b (chain ++ [s]).length := by
          simp [List.map_set]
        have hsum := sum_set_nat (st.buckets.map List.length) b (chain ++ [s]).length
          (by simpa using hblt)
        have hgetD : (st.buckets.map List.length).getD b 0 = chain.length := by
          rw [hchain]
          rw [List.getD_eq_getElem?_getD, List.getD_eq_getElem?_getD]
          rw [List.getElem?_map]
          cases hx : st.buckets[b]? with
          | none => simp
          | some c => simp
        have hb2 := h.sumBound
        show ((st.buckets.set b (chain ++ [s])).map List.length).sum ≤
          (st.indexMap ++ [(s, (b <<< 16) ||| chain.length)]).length
        rw [hmap]
        simp only [List.length_append, List.length_cons, List.length_nil]
        simp only [List.length_append, List.length_cons, List.length_nil] at hsum
        omega
      · intro t r hr
        exact lookupIM_append_some _ hr
      · rw [lookupIM_append_self _ hnone]
        rfl
      · simp

/-- The interning fold preserves the invariant, lookups, makes every
processed string resolvable and adds at most one entry per string. -/
theorem foldl_intern_spec (strs : List String) (st : STState) (h : STInv st) :
    STInv (strs.foldl internString st) ∧
    (∀ t r, lookupIM st.indexMap t = some r →
      lookupIM (strs.foldl internString st).indexMap t = some r) ∧
    (∀ s ∈ strs, (lookupIM (strs.foldl internString st).indexMap s).isSome) ∧
    (strs.foldl internString st).indexMap.length ≤ st.indexMap.length + strs.length := by
  induction strs generalizing st with
  | nil =>
    exact ⟨h, fun t r hr => hr, by simp, by simp⟩
  | cons s ss ih =>
    obtain ⟨h1, h2, h3, h4⟩ := internString_spec st s h
    obtain ⟨g1, g2, g3, g4⟩ := ih (internString st s) h1
    simp only [List.foldl_cons]
    refine ⟨g1, ?_, ?_, ?_⟩
    · intro t r hr
      exact g2 t r (h2 t r hr)
    · intro x hx
      rcases List.mem_cons.mp hx with hxe | hxs
      · subst hxe
        cases hr : lookupIM (internString st x).indexMap x with
        | none =>
          rw [hr] at h3
          simp at h3
        | some r =>
          have := g2 x r hr
          rw [this]
          rfl
      · exact g3 x hxs
    · simp only [List.length_cons]
      omega

theorem initial_STInv : STInv ⟨List.replicate 512 [], []⟩ := by
  refine ⟨List.length_replicate 512 [], ?_, ?_⟩
  · intro p hp
    exact absurd hp (List.not_mem_nil p)
  · rw [List.map_replicate, List.sum_replicate]
    simp only [List.length_nil, smul_eq_mul, Nat.mul_zero]
    exact Nat.le_refl 0

/-- Full correctness of the interning phase: 512 buckets, and every
collected string receives the reference `(bucket << 16) | i` where `i`
is its position in the chain of its hash bucket; `i` is below the number
of interned strings. -/
theorem buildStringTableState_spec (strs : List String) :
    STInv (buildStringTableState strs) ∧
    (buildStringTableState strs).indexMap.length ≤ strs.length ∧
    ∀ s ∈ strs, ∃ i, lookupIM (buildStringTableState strs).indexMap s =
        some ((bucketOf s <<< 16) ||| i) ∧
      ((buildStringTableState strs).buckets.getD (bucketOf s) []).get? i = some s ∧
      i < (buildStringTableState strs).indexMap.length := by
  unfold buildStringTableState
  obtain ⟨h1, _, h3, h4⟩ := foldl_intern_spec strs ⟨List.replicate 512 [], []⟩ initial_STInv
  have h0 : ({ buckets := List.replicate 512 [], indexMap := [] } : STState).indexMap.length = 0 :=
    rfl
  refine ⟨h1, by omega, ?_⟩
  intro s hs
  have hsome := h3 s hs
  cases hr : lookupIM (List.foldl internString ⟨List.replicate 512 [], []⟩ strs).indexMap s with
  | none =>
    rw [hr] at hsome
    rw [Option.isSome_none] at hsome
    exact Bool.noConfusion hsome
  | some r =>
    have hmem : (s, r) ∈ (List.foldl internString ⟨List.replicate 512 [], []⟩ strs).indexMap :=
      lookupIM_mem hr
    obtain ⟨i, hri, hgi⟩ := h1.entries (s, r) hmem
    refine ⟨i, ?_, hgi, ?_⟩
    · exact congrArg some hri
    · have hilt : i <
          ((List.foldl internString ⟨List.replicate 512 [], []⟩ strs).buckets.getD
            (bucketOf s) []).length := by
        rw [List.get?_eq_getElem?] at hgi
        exact List.getElem?_eq_some_iff.mp hgi |>.choose
      have hblt : bucketOf s <
          (List.foldl internString ⟨List.replicate 512 [], []⟩ strs).buckets.length := by
        rw [h1.blen]
        exact hashToBucket_lt _
      have hchainmem : ((List.foldl internString ⟨List.replicate 512 [], []⟩
            strs).buckets.getD (bucketOf s) []).length ∈
          ((List.foldl internString ⟨List.replicate 512 [], []⟩ strs).buckets.map
            List.length) := by
        have hceq : (List.foldl internString ⟨List.replicate 512 [], []⟩
              strs).buckets.getD (bucketOf s) [] =
            (List.foldl internString ⟨List.replicate 512 [], []⟩ strs).buckets[bucketOf s] := by
          rw [List.getD_eq_getElem?_getD, List.getElem?_eq_getElem hblt]
          rfl
        rw [hceq]
        exact List.mem_map_of_mem _ (List.getElem_mem hblt)
      have hle := List.single_le_sum
        (l := (List.foldl internString ⟨List.replicate 512 [], []⟩ strs).buckets.map List.length)
        (by intro x hx; omega) _ hchainmem
      have hsum := h1.sumBound
      omega

end LsfWriter

namespace LSFReader

theorem parseSTEntries_append (chain : List String) (rest : List Nat)
    (h : ∀ s ∈ chain, (utf8Encode s).length < 65536) :
    parseSTEntries chain.length ((chain.map LsfWriter.stEntryBytes).flatten ++ rest) =
      (chain, rest) := by
  induction chain with
  | nil => rfl
  | cons s ss ih =>
    have hs : (utf8Encode s).length < 65536 := h s (by simp)
    simp only [List.map_cons, List.flatten_cons, List.length_cons]
    unfold parseSTEntries
    simp only [LsfWriter.stEntryBytes, List.append_assoc]
    rw [readU16_append _ _ hs]
    have hdrop2 : ((u16le (utf8Encode s).length ++ (utf8Encode s ++
        ((ss.map LsfWriter.stEntryBytes).flatten ++ rest))).drop 2) =
        utf8Encode s ++ ((ss.map LsfWriter.stEntryBytes).flatten ++ rest) := by
      rw [← u16le_length (utf8Encode s).length, List.drop_left]
    rw [hdrop2, List.take_left, List.drop_left]
    rw [ih (fun t ht => h t (by simp [ht]))]
    rw [utf8Decode_encode]

theorem parseSTBuckets_append (buckets : List (List String)) (rest : List Nat)
    (hchain : ∀ c ∈ buckets, c.length < 65536)
    (hstr : ∀ c ∈ buckets, ∀ s ∈ c, (utf8Encode s).length < 65536) :
    parseSTBuckets buckets.length ((buckets.map LsfWriter.stChainBytes).flatten ++ rest) =
      buckets := by
  induction buckets with
  | nil => rfl
  | cons c cs ih =>
    simp only [List.map_cons, List.flatten_cons, List.length_cons]
    unfold parseSTBuckets
    simp only [LsfWriter.stChainBytes, List.append_assoc]
    rw [readU16_append _ _ (hchain c (by simp))]
    have hdrop2 : ((u16le c.length ++ ((c.map LsfWriter.stEntryBytes).flatten ++
        ((cs.map LsfWriter.stChainBytes).flatten ++ rest))).drop 2) =
        (c.map LsfWriter.stEntryBytes).flatten ++
          ((cs.map LsfWriter.stChainBytes).flatten ++ rest) := by
      rw [← u16le_length c.length, List.drop_left]
    rw [hdrop2]
    rw [parseSTEntries_append c _ (hstr c (by simp))]
    rw [ih (fun d hd => hchain d (by simp [hd])) (fun d hd => hstr d (by simp [hd]))]

/-- Parsing the emitted string table returns exactly the writer buckets. -/
theorem parseStringTable_bytes (buckets : List (List String))
    (hlen : buckets.length = 512)
    (hchain : ∀ c ∈ buckets, c.length < 65536)
    (hstr : ∀ c ∈ buckets, ∀ s ∈ c, (utf8Encode s).length < 65536) :
    parseStringTable (LsfWriter.stringTableBytes buckets) = buckets := by
  unfold parseStringTable LsfWriter.stringTableBytes
  rw [readU32_append _ _ (by norm_num)]
  have hdrop4 : ((u32le 512 ++ (buckets.map LsfWriter.stChainBytes).flatten).drop 4) =
      (buckets.map LsfWriter.stChainBytes).flatten := by
    rw [← u32le_length 512, List.drop_left]
  rw [hdrop4]
  have := parseSTBuckets_append buckets [] hchain hstr
  rw [List.append_nil] at this
  rw [← hlen]
  exact this

end LSFReader

/-! ## Value codec round trips (canonical values) -/
theorem readInt8_byte (n : Int) (h1 : -128 ≤ n) (h2 : n ≤ 127) :
    readInt8 (toUint32 n % 256) = n := by
  unfold readInt8 toUint32
  split <;> omega

theorem toUint32_of_range (n : Int) (h1 : 0 ≤ n) (h2 : n < 4294967296) :
    toUint32 n = n.toNat := by
  unfold toUint32; omega

theorem toInt32_of_range (n : Int) (h1 : -2147483648 ≤ n) (h2 : n < 2147483648) :
    toInt32 n = n := by
  simp only [toInt32]
  split <;> omega

theorem rav_byte (version : Nat) (isBG3 : Bool) (type : Nat) (n : Int)
    (ht : type = 1 ∨ type = 27) (h1 : -128 ≤ n) (h2 : n ≤ 127) :
    LSFReader.readAttributeValue version type
      (LsfWriter.serializeAttributeValue isBG3 type (.num n))
      (LsfWriter.serializeAttributeValue isBG3 type (.num n)).length = .num n := by
  rcases ht with ht | ht <;> subst ht <;>
  · show JSValue.num (readInt8 (toUint32 n % 256)) = JSValue.num n
    rw [readInt8_byte n h1 h2]

theorem rav_short (version : Nat) (isBG3 : Bool) (n : Int)
    (h1 : -32768 ≤ n) (h2 : n < 32768) :
    LSFReader.readAttributeValue version 2
      (LsfWriter.serializeAttributeValue isBG3 2 (.num n))
      (LsfWriter.serializeAttributeValue isBG3 2 (.num n)).length = .num n := by
  have hs : LsfWriter.serializeAttributeValue isBG3 2 (.num n) =
      i16le (if (32767 : Int) < (toUint32 n : Int) % 65536 then
        (toUint32 n : Int) % 65536 - 65536 else (toUint32 n : Int) % 65536) := rfl
  have haux : ∀ z : Int, LSFReader.readAttributeValue version 2 (i16le z) (i16le z).length =
      .num (readI16 (i16le z)) := fun z => rfl
  rw [hs, haux]
  congr 1
  have key : (((if (32767 : Int) < (toUint32 n : Int) % 65536 then
      (toUint32 n : Int) % 65536 - 65536 else
      (toUint32 n : Int) % 65536)) % 65536).toNat = (n % 65536).toNat := by
    simp only [toUint32]
    split <;> omega
  simp only [readI16, i16le, key]
  rw [readU16_u16le _ (by omega)]
  split <;> omega

theorem rav_ushort (version : Nat) (isBG3 : Bool) (n : Int)
    (h1 : 0 ≤ n) (h2 : n < 65536) :
    LSFReader.readAttributeValue version 3
      (LsfWriter.serializeAttributeValue isBG3 3 (.num n))
      (LsfWriter.serializeAttributeValue isBG3 3 (.num n)).length = .num n := by
  show JSValue.num (readU16 (u16le (toUint32 n % 65536))) = JSValue.num n
  congr 1
  rw [readU16_u16le _ (by omega)]
  simp only [toUint32]
  omega

theorem rav_int (version : Nat) (isBG3 : Bool) (n : Int)
    (h1 : -2147483648 ≤ n) (h2 : n < 2147483648) :
    LSFReader.readAttributeValue version 4
      (LsfWriter.serializeAttributeValue isBG3 4 (.num n))
      (LsfWriter.serializeAttributeValue isBG3 4 (.num n)).length = .num n := by
  show JSValue.num (readI32 (i32le (toInt32 n))) = JSValue.num n
  rw [toInt32_of_range n h1 h2, readI32_i32le n h1 h2]

theorem rav_uint (version : Nat) (isBG3 : Bool) (n : Int)
    (h1 : 0 ≤ n) (h2 : n < 4294967296) :
    LSFReader.readAttributeValue version 5
      (LsfWriter.serializeAttributeValue isBG3 5 (.num n))
      (LsfWriter.serializeAttributeValue isBG3 5 (.num n)).length = .num n := by
  show JSValue.num (readU32 (u32le (toUint32 n))) = JSValue.num n
  rw [readU32_u32le _ (toUint32_lt n), toUint32_of_range n h1 h2]
  congr 1
  omega

theorem rav_bool (version : Nat) (isBG3 : Bool) (b : Bool) :
    LSFReader.readAttributeValue version 19
      (LsfWriter.serializeAttributeValue isBG3 19 (.bool b))
      (LsfWriter.serializeAttributeValue isBG3 19 (.bool b)).length = .bool b := by
  cases b <;> rfl

theorem readAttributeValue_pos (version type : Nat) (buf : List Nat) (len : Nat)
    (h : buf.length ≠ 0) :
    LSFReader.readAttributeValue version type buf len =
      LSFReader.readAttributeValueBody version type buf := by
  unfold LSFReader.readAttributeValue
  exact if_neg fun hc => h hc.1

theorem utf8EncodeChar_ne_nil (c : Char) : utf8EncodeChar c ≠ [] := by
  simp only [utf8EncodeChar]
  split_ifs <;> simp

theorem utf8EncodeChar_getLast_ne_zero (c : Char) (hc : c.toNat ≠ 0) (x : Nat)
    (h : (utf8EncodeChar c).getLast? = some x) : x ≠ 0 := by
  simp only [utf8EncodeChar] at h
  split_ifs at h <;> simp [List.getLast?] at h <;> omega

theorem utf8Encode_getLast (cs : List Char)
    (h : ∀ c, cs.getLast? = some c → c.toNat ≠ 0) :
    ∀ x, ((cs.map utf8EncodeChar).flatten).getLast? = some x → x ≠ 0 := by
  induction cs with
  | nil => simp
  | cons c rest ih =>
    cases rest with
    | nil =>
      intro x hx
      simp only [List.map_cons, List.map_nil, List.flatten_cons, List.flatten_nil,
        List.append_nil] at hx
      exact utf8EncodeChar_getLast_ne_zero c (h c rfl) x hx
    | cons d ds =>
      intro x hx
      have hne : ((d :: ds).map utf8EncodeChar).flatten ≠ [] := by
        simp only [List.map_cons, List.flatten_cons]
        exact List.append_ne_nil_of_left_ne_nil (utf8EncodeChar_ne_nil d) _
      rw [List.map_cons, List.flatten_cons, List.getLast?_append_of_ne_nil _ hne] at hx
      exact ih (fun e he => h e (by rw [List.getLast?_cons_cons]; exact he)) x hx

theorem stripZeros_id (l : List Nat) (h : ∀ x, l.getLast? = some x → x ≠ 0) :
    (l.reverse.dropWhile fun b => b = 0).reverse = l := by
  cases hr : l.reverse with
  | nil => simp [List.reverse_eq_nil_iff.mp hr]
  | cons a t =>
    have ha : l.getLast? = some a := by rw [← List.head?_reverse, hr]; rfl
    rw [List.dropWhile_cons_of_neg (by simpa using h a ha), ← hr, List.reverse_reverse]

theorem noTrailingNul_last (s : String) (h : noTrailingNul s = true) :
    ∀ x, (utf8Encode s).getLast? = some x → x ≠ 0 := by
  apply utf8Encode_getLast
  intro c hc h0
  unfold noTrailingNul at h
  rw [hc] at h
  simp only [decide_eq_true_eq] at h
  exact h (by rw [← Char.ofNat_toNat c, h0])

theorem readLsfString_encode (s : String) (h : noTrailingNul s = true) :
    LSFReader.readLsfString (utf8Encode s ++ [0]) = s := by
  unfold LSFReader.readLsfString
  rw [if_neg (by simp)]
  have h1 : (utf8Encode s ++ [0]).length - 1 = (utf8Encode s).length := by simp
  rw [h1, List.take_left' rfl]
  show utf8Decode ((utf8Encode s).reverse.dropWhile fun b => b = 0).reverse = s
  rw [stripZeros_id _ (noTrailingNul_last s h), utf8Decode_encode]

theorem rav_string (version : Nat) (isBG3 : Bool) (type : Nat) (s : String)
    (ht : type = 20 ∨ type = 21 ∨ type = 22 ∨ type = 23 ∨ type = 29 ∨ type = 30)
    (h : noTrailingNul s = true) :
    LSFReader.readAttributeValue version type
      (LsfWriter.serializeAttributeValue isBG3 type (.str s))
      (LsfWriter.serializeAttributeValue isBG3 type (.str s)).length = .str s := by
  have key : ∀ t, LSFReader.readAttributeValueBody version t (utf8Encode s ++ [0]) =
      .str (LSFReader.readLsfString (utf8Encode s ++ [0])) →
      LSFReader.readAttributeValue version t (utf8Encode s ++ [0])
        (utf8Encode s ++ [0]).length = .str s := by
    intro t hb
    rw [readAttributeValue_pos _ _ _ _ (by simp), hb, readLsfString_encode s h]
  rcases ht with ht | ht | ht | ht | ht | ht <;> subst ht <;>
    exact key _ rfl

theorem swapPairs_length : ∀ l : List Nat, (swapPairs l).length = l.length
  | [] => rfl
  | [_] => rfl
  | x :: y :: r => by
    show (y :: x :: swapPairs r).length = (x :: y :: r).length
    simp [swapPairs_length r]

theorem swapPairs_swapPairs : ∀ l : List Nat, swapPairs (swapPairs l) = l
  | [] => rfl
  | [_] => rfl
  | x :: y :: r => by
    show swapPairs (y :: x :: swapPairs r) = x :: y :: r
    show x :: y :: swapPairs (swapPairs r) = x :: y :: r
    rw [swapPairs_swapPairs r]

theorem uuidBytesOf_length (s : String) : (uuidBytesOf s).length = 16 := by
  simp [uuidBytesOf]

theorem rav_uuid (version : Nat) (isBG3 : Bool) (s : String)
    (h : canonicalValue 31 (.str s) = true) :
    LSFReader.readAttributeValue version 31
      (LsfWriter.serializeAttributeValue isBG3 31 (.str s))
      (LsfWriter.serializeAttributeValue isBG3 31 (.str s)).length = .str s := by
  have hcan : LSFReader.formatUuid (uuidBytesOf s) false = s := by
    have : (LSFReader.formatUuid (uuidBytesOf s) false == s) = true := h
    exact eq_of_beq this
  have hs : LsfWriter.serializeAttributeValue isBG3 31 (.str s) =
      (uuidBytesOf s).take 8 ++ swapPairs ((uuidBytesOf s).drop 8) := rfl
  have hB : (uuidBytesOf s).length = 16 := uuidBytesOf_length s
  have htk : ((uuidBytesOf s).take 8).length = 8 := by rw [List.length_take]; omega
  have hdp : (swapPairs ((uuidBytesOf s).drop 8)).length = 8 := by
    rw [swapPairs_length, List.length_drop, hB]
  have hW : ((uuidBytesOf s).take 8 ++ swapPairs ((uuidBytesOf s).drop 8)).length = 16 := by
    rw [List.length_append, htk, hdp]
  have hne : ((uuidBytesOf s).take 8 ++ swapPairs ((uuidBytesOf s).drop 8)).length ≠ 0 := by
    omega
  rw [hs, readAttributeValue_pos _ _ _ _ hne]
  have hbody : ∀ X : List Nat, X.length = 16 →
      LSFReader.readAttributeValueBody version 31 X = .str (LSFReader.formatUuid X true) := by
    intro X hX
    show (if X.length = 16 then JSValue.str (LSFReader.formatUuid X true)
      else JSValue.str (hexEncode X)) = _
    rw [if_pos hX]
  rw [hbody _ hW]
  have hg1 : LSFReader.formatUuid
      ((uuidBytesOf s).take 8 ++ swapPairs ((uuidBytesOf s).drop 8)) true =
      LSFReader.formatUuidGroups
        (((uuidBytesOf s).take 8 ++ swapPairs ((uuidBytesOf s).drop 8)).take 8 ++
          swapPairs (((uuidBytesOf s).take 8 ++ swapPairs ((uuidBytesOf s).drop 8)).drop 8)) := by
    unfold LSFReader.formatUuid
    rw [if_neg (by omega)]
    rfl
  have hg2 : LSFReader.formatUuid (uuidBytesOf s) false =
      LSFReader.formatUuidGroups (uuidBytesOf s) := by
    unfold LSFReader.formatUuid
    rw [if_neg (by omega)]
    rfl
  rw [hg1, List.take_left' htk, List.drop_left' htk, swapPairs_swapPairs,
    List.take_append_drop, ← hg2, hcan]

theorem readI32_u32le_append (n : Nat) (t : List Nat) (h : n < 2147483648) :
    readI32 (u32le n ++ t) = (n : Int) := by
  have hi : i32le (n : Int) = u32le n := by
    unfold i32le
    congr 1
    unfold toUint32
    omega
  rw [← hi, readI32_append _ _ (by omega) (by omega)]

theorem readLsfString_prefix (s : String) (t : List Nat) (h : noTrailingNul s = true) :
    LSFReader.readLsfString (((utf8Encode s ++ [0]) ++ t).take (utf8Encode s ++ [0]).length)
      = s := by
  rw [List.take_left]
  exact readLsfString_encode s h

theorem readTranslatedString_append (ev eh : List Nat)
    (h1 : 1 ≤ ev.length) (h2 : ev.length < 1073741824)
    (h3 : 1 ≤ eh.length) (h4 : eh.length < 1073741824) :
    LSFReader.readTranslatedString ((u32le ev.length ++ ev) ++ (u32le eh.length ++ eh)) =
      (LSFReader.readLsfString ev, LSFReader.readLsfString eh) := by
  have hXlen : ((u32le ev.length ++ ev) ++ (u32le eh.length ++ eh)).length =
      4 + ev.length + 4 + eh.length := by
    simp [u32le]
    omega
  have hd4 : ((u32le ev.length ++ ev) ++ (u32le eh.length ++ eh)).drop 4 =
      ev ++ (u32le eh.length ++ eh) := by
    rw [List.append_assoc, List.drop_left' (u32le_length _)]
  have hdpos : ((u32le ev.length ++ ev) ++ (u32le eh.length ++ eh)).drop (4 + ev.length) =
      u32le eh.length ++ eh := by
    rw [List.drop_left' (by simp [u32le]; omega)]
  have hdpos4 : ((u32le ev.length ++ ev) ++ (u32le eh.length ++ eh)).drop (4 + ev.length + 4) =
      eh := by
    rw [show (u32le ev.length ++ ev) ++ (u32le eh.length ++ eh) =
      ((u32le ev.length ++ ev) ++ u32le eh.length) ++ eh by simp,
      List.drop_left' (by simp [u32le]; omega)]
  have hrv : readI32 ((u32le ev.length ++ ev) ++ (u32le eh.length ++ eh)) =
      (ev.length : Int) := by
    rw [List.append_assoc, readI32_u32le_append _ _ (by omega)]
  unfold LSFReader.readTranslatedString
  rw [if_neg (by omega)]
  dsimp only
  rw [hrv]
  have hvOk : (0 : Int) < (ev.length : Int) ∧
      4 + ((ev.length : Int)).toNat ≤
        ((u32le ev.length ++ ev) ++ (u32le eh.length ++ eh)).length := by
    refine ⟨by omega, ?_⟩
    rw [hXlen]
    omega
  simp only [if_pos hvOk]
  have htn : ((ev.length : Int)).toNat = ev.length := by omega
  rw [htn, hd4, List.take_left]
  rw [if_neg (by rw [hXlen]; omega)]
  rw [hdpos, readI32_u32le_append _ _ (by omega)]
  have hhOk : (0 : Int) < (eh.length : Int) ∧
      4 + ev.length + 4 + ((eh.length : Int)).toNat ≤
        ((u32le ev.length ++ ev) ++ (u32le eh.length ++ eh)).length := by
    refine ⟨by omega, ?_⟩
    rw [hXlen]
    omega
  rw [if_pos hhOk]
  have htn2 : ((eh.length : Int)).toNat = eh.length := by omega
  rw [htn2, hdpos4, List.take_length]

theorem rav_ts (version : Nat) (isBG3 : Bool) (v h : String)
    (hv : noTrailingNul v = true) (hh : noTrailingNul h = true)
    (hlv : (utf8Encode v).length < 16777216) (hlh : (utf8Encode h).length < 16777216) :
    LSFReader.readAttributeValue version 28
      (LsfWriter.serializeAttributeValue isBG3 28 (.ts v h))
      (LsfWriter.serializeAttributeValue isBG3 28 (.ts v h)).length = .ts v h := by
  have hs : LsfWriter.serializeAttributeValue isBG3 28 (.ts v h) =
      (u32le (utf8Encode v ++ [0]).length ++ (utf8Encode v ++ [0])) ++
        (u32le (utf8Encode h ++ [0]).length ++ (utf8Encode h ++ [0])) := rfl
  rw [hs, readAttributeValue_pos _ _ _ _ (by simp [u32le])]
  have hbody : ∀ X : List Nat, LSFReader.readAttributeValueBody version 28 X =
      .ts (LSFReader.readTranslatedString X).1 (LSFReader.readTranslatedString X).2 :=
    fun X => rfl
  rw [hbody, readTranslatedString_append _ _ (by simp) (by simp; omega) (by simp)
    (by simp; omega), readLsfString_encode v hv, readLsfString_encode h hh]

/-- Canonical values are fixed points of the value codec: serializing
and re-reading a canonical attribute value reproduces it exactly, for
any reader version and writer flavour. -/
theorem rav_canonical (version : Nat) (isBG3 : Bool) (type : Nat) (v : JSValue)
    (h : canonicalValue type v = true) :
    LSFReader.readAttributeValue version type
      (LsfWriter.serializeAttributeValue isBG3 type v)
      (LsfWriter.serializeAttributeValue isBG3 type v).length = v := by
  unfold canonicalValue at h
  split_ifs at h with h1 h2 h3 h4 h5 h6 h7 h8 h9
  · cases v <;> try exact Bool.noConfusion h
    rename_i n
    simp only [Bool.and_eq_true, decide_eq_true_eq] at h
    rcases h1 with h1 | h1 <;> subst h1
    · exact rav_byte version isBG3 1 n (Or.inl rfl) h.1 h.2
    · exact rav_byte version isBG3 27 n (Or.inr rfl) h.1 h.2
  · cases v <;> try exact Bool.noConfusion h
    rename_i n
    simp only [Bool.and_eq_true, decide_eq_true_eq] at h
    subst h2
    exact rav_short version isBG3 n h.1 h.2
  · cases v <;> try exact Bool.noConfusion h
    rename_i n
    simp only [Bool.and_eq_true, decide_eq_true_eq] at h
    subst h3
    exact rav_ushort version isBG3 n h.1 h.2
  · cases v <;> try exact Bool.noConfusion h
    rename_i n
    simp only [Bool.and_eq_true, decide_eq_true_eq] at h
    subst h4
    exact rav_int version isBG3 n h.1 h.2
  · cases v <;> try exact Bool.noConfusion h
    rename_i n
    simp only [Bool.and_eq_true, decide_eq_true_eq] at h
    subst h5
    exact rav_uint version isBG3 n h.1 h.2
  · cases v <;> try exact Bool.noConfusion h
    rename_i b
    subst h6
    exact rav_bool version isBG3 b
  · cases v <;> try exact Bool.noConfusion h
    rename_i s
    rcases h7 with h7 | h7 | h7 | h7 | h7 | h7 <;> subst h7 <;>
      exact rav_string version isBG3 _ s (by simp) h
  · cases v <;> try exact Bool.noConfusion h
    rename_i s
    subst h8
    exact rav_uuid version isBG3 s h
  · cases v <;> try exact Bool.noConfusion h
    rename_i tv th
    simp only [Bool.and_eq_true, decide_eq_true_eq] at h
    subst h9
    exact rav_ts version isBG3 tv th h.1.1.1 h.1.1.2 h.1.2 h.2

theorem nodeEntryBytesV3_assoc (e : LSFNodeEntry) (rest : List Nat) :
    LsfWriter.nodeEntryBytesV3 e ++ rest =
      u32le e.nameIndex ++ (i32le e.parentIndex ++ (i32le e.nextSiblingIndex ++
        (i32le e.firstAttributeIndex ++ rest))) := by
  simp [LsfWriter.nodeEntryBytesV3, List.append_assoc]

theorem parseNodesV3_cons (e : LSFNodeEntry) (rest : List Nat) (hb : nodeEntryBounds e) :
    LSFReader.parseNodesV3 (LsfWriter.nodeEntryBytesV3 e ++ rest) =
      e :: LSFReader.parseNodesV3 rest := by
  obtain ⟨h1, h2, h3, h4, h5, h6, h7⟩ := hb
  have hd4 : (LsfWriter.nodeEntryBytesV3 e ++ rest).drop 4 =
      i32le e.parentIndex ++ (i32le e.nextSiblingIndex ++
        (i32le e.firstAttributeIndex ++ rest)) := by
    rw [nodeEntryBytesV3_assoc, List.drop_left' (u32le_length _)]
  have hd8 : (LsfWriter.nodeEntryBytesV3 e ++ rest).drop 8 =
      i32le e.nextSiblingIndex ++ (i32le e.firstAttributeIndex ++ rest) := by
    rw [nodeEntryBytesV3_assoc, ← List.append_assoc,
      List.drop_left' (by rw [List.length_append, u32le_length, i32le_length])]
  have hd12 : (LsfWriter.nodeEntryBytesV3 e ++ rest).drop 12 =
      i32le e.firstAttributeIndex ++ rest := by
    rw [nodeEntryBytesV3_assoc, ← List.append_assoc, ← List.append_assoc,
      List.drop_left' (by
        rw [List.length_append, List.length_append, u32le_length, i32le_length, i32le_length])]
  have hd16 : (LsfWriter.nodeEntryBytesV3 e ++ rest).drop 16 = rest := by
    rw [List.drop_left' (by
      simp [LsfWriter.nodeEntryBytesV3, u32le_length, i32le_length])]
  have hu : readU32 (LsfWriter.nodeEntryBytesV3 e ++ rest) = e.nameIndex := by
    rw [nodeEntryBytesV3_assoc, readU32_append _ _ h1]
  cases hl : LsfWriter.nodeEntryBytesV3 e ++ rest with
  | nil =>
    have hlen : (LsfWriter.nodeEntryBytesV3 e ++ rest).length = 16 + rest.length := by
      simp [LsfWriter.nodeEntryBytesV3, u32le, i32le]
      omega
    rw [hl] at hlen
    simp only [List.length_nil] at hlen
    omega
  | cons b r =>
    simp only [LSFReader.parseNodesV3]
    rw [← hl, hu, hd4, hd8, hd12, hd16]
    rw [readI32_append _ _ h2 h3, readI32_append _ _ h4 h5, readI32_append _ _ h6 h7]

theorem parseNodesV3_entries (es : List LSFNodeEntry)
    (h : ∀ e ∈ es, nodeEntryBounds e) :
    LSFReader.parseNodesV3 ((es.map LsfWriter.nodeEntryBytesV3).flatten) = es := by
  induction es with
  | nil => simp [LSFReader.parseNodesV3]
  | cons e es ih =>
    simp only [List.map_cons, List.flatten_cons]
    rw [parseNodesV3_cons e _ (h e (by simp)), ih (fun x hx => h x (by simp [hx]))]

theorem nodeEntryBytesV2_assoc (e : LSFNodeEntry) (rest : List Nat) :
    LsfWriter.nodeEntryBytesV2 e ++ rest =
      u32le e.nameIndex ++ (i32le e.firstAttributeIndex ++ (i32le e.parentIndex ++ rest)) := by
  simp [LsfWriter.nodeEntryBytesV2, List.append_assoc]

theorem parseNodesV2_cons (e : LSFNodeEntry) (rest : List Nat) (hb : nodeEntryBounds e) :
    LSFReader.parseNodesV2 (LsfWriter.nodeEntryBytesV2 e ++ rest) =
      { e with nextSiblingIndex := -1 } :: LSFReader.parseNodesV2 rest := by
  obtain ⟨h1, h2, h3, _, _, h6, h7⟩ := hb
  have hd4 : (LsfWriter.nodeEntryBytesV2 e ++ rest).drop 4 =
      i32le e.firstAttributeIndex ++ (i32le e.parentIndex ++ rest) := by
    rw [nodeEntryBytesV2_assoc, List.drop_left' (u32le_length _)]
  have hd8 : (LsfWriter.nodeEntryBytesV2 e ++ rest).drop 8 =
      i32le e.parentIndex ++ rest := by
    rw [nodeEntryBytesV2_assoc, ← List.append_assoc,
      List.drop_left' (by rw [List.length_append, u32le_length, i32le_length])]
  have hd12 : (LsfWriter.nodeEntryBytesV2 e ++ rest).drop 12 = rest := by
    rw [List.drop_left' (by
      simp [LsfWriter.nodeEntryBytesV2, u32le_length, i32le_length])]
  have hu : readU32 (LsfWriter.nodeEntryBytesV2 e ++ rest) = e.nameIndex := by
    rw [nodeEntryBytesV2_assoc, readU32_append _ _ h1]
  cases hl : LsfWriter.nodeEntryBytesV2 e ++ rest with
  | nil =>
    have hlen : (LsfWriter.nodeEntryBytesV2 e ++ rest).length = 12 + rest.length := by
      simp [LsfWriter.nodeEntryBytesV2, u32le, i32le]
      omega
    rw [hl] at hlen
    simp only [List.length_nil] at hlen
    omega
  | cons b r =>
    simp only [LSFReader.parseNodesV2]
    rw [← hl, hu, hd4, hd8, hd12]
    rw [readI32_append _ _ h2 h3, readI32_append _ _ h6 h7]

theorem parseNodesV2_entries (es : List LSFNodeEntry)
    (h : ∀ e ∈ es, nodeEntryBounds e) :
    LSFReader.parseNodesV2 ((es.map LsfWriter.nodeEntryBytesV2).flatten) =
      es.map fun e => { e with nextSiblingIndex := -1 } := by
  induction es with
  | nil => simp [LSFReader.parseNodesV2]
  | cons e es ih =>
    simp only [List.map_cons, List.flatten_cons]
    rw [parseNodesV2_cons e _ (h e (by simp)), ih (fun x hx => h x (by simp [hx]))]

theorem talOf_mod (t l : Nat) (ht : t < 64) : (LsfWriter.talOf t l) % 64 = t := by
  unfold LsfWriter.talOf
  omega

theorem talOf_lt (t l : Nat) (ht : t < 64) (hl : l < 33554432) :
    LsfWriter.talOf t l < 2147483648 := by
  unfold LsfWriter.talOf
  omega

theorem talLength_talOf (t l : Nat) (ht : t < 64) (hl : l < 33554432) :
    LSFReader.talLength (LsfWriter.talOf t l) = l := by
  unfold LSFReader.talLength jsShr
  rw [toInt32_of_range _ (by omega) (by exact_mod_cast talOf_lt t l ht hl)]
  unfold LsfWriter.talOf
  have h64 : ((2 ^ 1 * 2 ^ 5 : Nat) : Int) = 64 := by norm_num
  have : ((t % 64 + l * 64 : Nat) : Int) / ((2 ^ 6 : Nat) : Int) = (l : Int) := by
    push_cast
    omega
  rw [show ((2:Nat) ^ 6) = 64 from by norm_num] at this ⊢
  rw [show ((t % 64 + l * 64 : Nat) : Int) / ((64 : Nat) : Int) = (l : Int) from by
    push_cast; omega]
  omega

theorem vOffStart_zero (all : List LsfWriter.WAttr) : vOffStart all 0 = 0 := rfl

theorem vOffStart_succ (all : List LsfWriter.WAttr) (i : Nat) (h : i < all.length) :
    vOffStart all (i + 1) = vOffStart all i + (all.getD i default).bytes.length := by
  unfold vOffStart
  rw [List.take_succ]
  have : all[i]? = some (all.getD i default) := by
    rw [List.getD_eq_getElem?_getD, List.getElem?_eq_getElem h]
    rfl
  rw [this]
  simp

theorem vOffStart_le_sum (all : List LsfWriter.WAttr) (i : Nat) :
    vOffStart all i ≤ ((all.map fun a => a.bytes.length).sum) := by
  unfold vOffStart
  conv_rhs => rw [← List.take_append_drop i all]
  rw [List.map_append, List.sum_append]
  omega

theorem nextAttrIdx_cases (all : List LsfWriter.WAttr) (i : Nat) :
    LsfWriter.nextAttrIdx all i = -1 ∨
      (((i : Int) + 1 ≤ LsfWriter.nextAttrIdx all i) ∧
        LsfWriter.nextAttrIdx all i < (all.length : Int)) := by
  unfold LsfWriter.nextAttrIdx
  cases hf : (all.drop (i + 1)).findIdx? fun a =>
      a.nodeIdx = (all.getD i default).nodeIdx with
  | none => exact Or.inl rfl
  | some k =>
    right
    have hk : k < (all.drop (i + 1)).length := by
      have := List.findIdx?_eq_some_iff_getElem.mp hf
      exact this.1
    rw [List.length_drop] at hk
    refine ⟨show (i : Int) + 1 ≤ ((i + 1 + k : Nat) : Int) from by push_cast; omega,
      show ((i + 1 + k : Nat) : Int) < (all.length : Int) from by push_cast; omega⟩

theorem parseAttrsV3_cons (a : LsfWriter.WAttr) (nxt : Int) (off : Nat) (rest : List Nat)
    (h1 : a.nameIndex < 4294967296) (h2 : a.type < 64) (h3 : a.bytes.length < 33554432)
    (hn1 : -2147483648 ≤ nxt) (hn2 : nxt < 2147483648) (hoff : off < 4294967296) :
    LSFReader.parseAttrsV3 (u32le a.nameIndex ++
        (u32le (LsfWriter.talOf a.type a.bytes.length) ++ (i32le nxt ++ (u32le off ++ rest)))) =
      { nameIndex := a.nameIndex, type := a.type, length := a.bytes.length,
        nodeIndex := -1, nextAttributeIndex := nxt, offset := off } ::
        LSFReader.parseAttrsV3 rest := by
  set L := u32le a.nameIndex ++
    (u32le (LsfWriter.talOf a.type a.bytes.length) ++ (i32le nxt ++ (u32le off ++ rest)))
    with hL
  have htal : LsfWriter.talOf a.type a.bytes.length < 4294967296 := by
    have := talOf_lt a.type a.bytes.length h2 h3
    omega
  have hd4 : L.drop 4 =
      u32le (LsfWriter.talOf a.type a.bytes.length) ++ (i32le nxt ++ (u32le off ++ rest)) := by
    rw [hL, List.drop_left' (u32le_length _)]
  have hd8 : L.drop 8 = i32le nxt ++ (u32le off ++ rest) := by
    rw [hL, ← List.append_assoc,
      List.drop_left' (by rw [List.length_append, u32le_length, u32le_length])]
  have hd12 : L.drop 12 = u32le off ++ rest := by
    rw [hL, ← List.append_assoc, ← List.append_assoc,
      List.drop_left' (by
        rw [List.length_append, List.length_append, u32le_length, u32le_length, i32le_length])]
  have hd16 : L.drop 16 = rest := by
    rw [hL, ← List.append_assoc, ← List.append_assoc, ← List.append_assoc,
      List.drop_left' (by
        rw [List.length_append, List.length_append, List.length_append,
          u32le_length, u32le_length, i32le_length, u32le_length])]
  have hru : readU32 L = a.nameIndex := by
    rw [hL, readU32_append _ _ h1]
  cases hl : L with
  | nil =>
    have hlen : L.length = 16 + rest.length := by
      rw [hL]
      simp [u32le, i32le]
      omega
    rw [hl] at hlen
    simp only [List.length_nil] at hlen
    omega
  | cons b r =>
    simp only [LSFReader.parseAttrsV3]
    rw [← hl, hru, hd4, hd8, hd12, hd16, readU32_append _ _ htal,
      readI32_append _ _ hn1 hn2, readU32_append _ _ hoff,
      talOf_mod _ _ h2, talLength_talOf _ _ h2 h3]

theorem attrTableV3Aux_parse (all : List LsfWriter.WAttr) (hb : attrBounds all) :
    ∀ rest i, rest = all.drop i →
      LSFReader.parseAttrsV3 (LsfWriter.attrTableV3Aux all i (vOffStart all i) rest) =
        (List.range (all.length - i)).map
          (fun k => expectedAttrEntry all (fun _ => -1) (i + k)) := by
  intro rest
  induction rest with
  | nil =>
    intro i hi
    have : all.length ≤ i := by
      by_contra hc
      have := congrArg List.length hi
      rw [List.length_drop] at this
      simp at this
      omega
    rw [show all.length - i = 0 by omega]
    simp [LsfWriter.attrTableV3Aux, LSFReader.parseAttrsV3]
  | cons a as ih =>
    intro i hi
    have hlen := congrArg List.length hi
    rw [List.length_drop] at hlen
    simp only [List.length_cons] at hlen
    have hilt : i < all.length := by omega
    have hget : all.getD i default = a := by
      have h0 : (all.drop i)[0]? = some a := by rw [← hi]; simp
      rw [List.getElem?_drop] at h0
      have h1 : all[i]? = some a := by simpa using h0
      rw [List.getD_eq_getElem?_getD, h1]
      rfl
    have has : as = all.drop (i + 1) := by
      rw [← List.drop_drop 1 i all, ← hi]
      simp
    have hmem : a ∈ all := by
      have : a ∈ all.drop i := by rw [← hi]; simp
      exact List.mem_of_mem_drop this
    obtain ⟨hfields, hcnt, hsum⟩ := hb
    obtain ⟨hf1, hf2, hf3, _⟩ := hfields a hmem
    have hnxt := nextAttrIdx_cases all i
    have hoff : vOffStart all i < 4294967296 := by
      have := vOffStart_le_sum all i
      omega
    show LSFReader.parseAttrsV3 (u32le a.nameIndex ++
        (u32le (LsfWriter.talOf a.type a.bytes.length) ++ (i32le (LsfWriter.nextAttrIdx all i) ++
          (u32le (vOffStart all i) ++
            LsfWriter.attrTableV3Aux all (i + 1) (vOffStart all i + a.bytes.length) as)))) = _
    rw [parseAttrsV3_cons a _ _ _ hf1 hf2 hf3 (by rcases hnxt with hc | hc <;> omega)
      (by rcases hnxt with hc | hc <;> (push_cast; omega)) hoff]
    rw [show vOffStart all i + a.bytes.length = vOffStart all (i + 1) from by
      rw [vOffStart_succ all i hilt, hget]]
    rw [ih (i + 1) has]
    have hre : List.range (all.length - i) =
        0 :: (List.range (all.length - (i + 1))).map Nat.succ := by
      rw [show all.length - i = (all.length - (i + 1)) + 1 by omega, List.range_succ_eq_map]
    rw [hre]
    simp only [List.map_cons, List.map_map]
    congr 1
    · unfold expectedAttrEntry
      rw [show i + 0 = i from rfl, hget]
    · apply List.map_congr_left
      intro k _
      simp only [Function.comp_apply]
      rw [show i + Nat.succ k = (i + 1) + k by omega]

theorem parseAttrsV3_table (all : List LsfWriter.WAttr) (hb : attrBounds all) :
    LSFReader.parseAttrsV3 (LsfWriter.attrTableV3 all) =
      (List.range all.length).map (expectedAttrEntry all fun _ => -1) := by
  have h := attrTableV3Aux_parse all hb all 0 rfl
  rw [Nat.sub_zero] at h
  have hz : LsfWriter.attrTableV3 all = LsfWriter.attrTableV3Aux all 0 (vOffStart all 0) all := rfl
  rw [hz, h]
  apply List.map_congr_left
  intro k _
  rw [Nat.zero_add]

theorem lastIdxBelow_neg_iff (all : List LsfWriter.WAttr) (k ni : Nat) :
    lastIdxBelow all k ni = -1 ↔ ∀ j, j < k → (all.getD j default).nodeIdx + 1 ≠ ni := by
  induction k with
  | zero => simp [lastIdxBelow]
  | succ k ih =>
    unfold lastIdxBelow
    split
    · constructor
      · intro hc
        exact absurd hc (by omega)
      · intro hc
        exact absurd (by assumption) (hc k (by omega))
    · rw [ih]
      constructor
      · intro hc j hj
        rcases Nat.lt_succ_iff_lt_or_eq.mp hj with hj | hj
        · exact hc j hj
        · subst hj; assumption
      · intro hc j hj
        exact hc j (by omega)

theorem lastIdxBelow_spec (all : List LsfWriter.WAttr) (k ni : Nat)
    (h : lastIdxBelow all k ni ≠ -1) :
    ∃ j0 : Nat, lastIdxBelow all k ni = (j0 : Int) ∧ j0 < k ∧
      (all.getD j0 default).nodeIdx + 1 = ni ∧
      ∀ j, j0 < j → j < k → (all.getD j default).nodeIdx + 1 ≠ ni := by
  induction k with
  | zero => exact absurd rfl h
  | succ k ih =>
    unfold lastIdxBelow at h ⊢
    split
    · exact ⟨k, rfl, by omega, by assumption, fun j h1 h2 => absurd h2 (by omega)⟩
    · rw [if_neg (by assumption)] at h
      obtain ⟨j0, he, hlt, hni, hmax⟩ := ih h
      refine ⟨j0, he, by omega, hni, fun j h1 h2 => ?_⟩
      rcases Nat.lt_succ_iff_lt_or_eq.mp h2 with h2 | h2
      · exact hmax j h1 h2
      · subst h2; assumption

theorem nextAttrIdx_eq (all : List LsfWriter.WAttr) (j m : Nat) (hj : j < m)
    (hm : m < all.length)
    (heq : (all.getD m default).nodeIdx = (all.getD j default).nodeIdx)
    (hbet : ∀ l, j < l → l < m → (all.getD l default).nodeIdx ≠ (all.getD j default).nodeIdx) :
    LsfWriter.nextAttrIdx all j = (m : Int) := by
  unfold LsfWriter.nextAttrIdx
  have hgd : ∀ i : Nat, i < all.length → (all.drop (j + 1)).getD (i - (j + 1)) default =
      all.getD i default → True := fun _ _ _ => trivial
  have hfi : (all.drop (j + 1)).findIdx?
      (fun a => a.nodeIdx = (all.getD j default).nodeIdx) = some (m - (j + 1)) := by
    rw [List.findIdx?_eq_some_iff_getElem]
    have hlt : m - (j + 1) < (all.drop (j + 1)).length := by
      rw [List.length_drop]; omega
    refine ⟨hlt, ?_, ?_⟩
    · have : (all.drop (j + 1))[m - (j + 1)] = all.getD m default := by
        rw [← List.getD_eq_getElem _ default hlt, List.getD_eq_getElem?_getD,
          List.getElem?_drop, show j + 1 + (m - (j + 1)) = m by omega,
          List.getD_eq_getElem?_getD]
      rw [this]
      simp only [decide_eq_true_eq]
      exact heq
    · intro l hl
      have hlt2 : l < (all.drop (j + 1)).length := by omega
      have : (all.drop (j + 1))[l] = all.getD (j + 1 + l) default := by
        rw [← List.getD_eq_getElem _ default hlt2, List.getD_eq_getElem?_getD,
          List.getElem?_drop, List.getD_eq_getElem?_getD]
      rw [this]
      simp only [decide_eq_true_eq]
      exact hbet (j + 1 + l) (by omega) (by omega)
  rw [hfi]
  show ((j + 1 + (m - (j + 1)) : Nat) : Int) = (m : Int)
  congr 1
  omega

theorem nextAttrIdx_sound (all : List LsfWriter.WAttr) (j : Nat) (m : Nat)
    (h : LsfWriter.nextAttrIdx all j = (m : Int)) :
    j < m ∧ m < all.length ∧ (all.getD m default).nodeIdx = (all.getD j default).nodeIdx ∧
      ∀ l, j < l → l < m → (all.getD l default).nodeIdx ≠ (all.getD j default).nodeIdx := by
  unfold LsfWriter.nextAttrIdx at h
  cases hf : (all.drop (j + 1)).findIdx?
      (fun a => a.nodeIdx = (all.getD j default).nodeIdx) with
  | none => rw [hf] at h; exact absurd h (by simp)
  | some k =>
    rw [hf] at h
    have hk := List.findIdx?_eq_some_iff_getElem.mp hf
    obtain ⟨hlt, hp, hmin⟩ := hk
    have hm : m = j + 1 + k := by
      have : ((j + 1 + k : Nat) : Int) = (m : Int) := h
      omega
    subst hm
    rw [List.length_drop] at hlt
    have hgd : ∀ l : Nat, ∀ hl : l < (all.drop (j + 1)).length,
        (all.drop (j + 1))[l] = all.getD (j + 1 + l) default := by
      intro l hl
      rw [← List.getD_eq_getElem _ default hl, List.getD_eq_getElem?_getD,
        List.getElem?_drop, List.getD_eq_getElem?_getD]
    refine ⟨by omega, by omega, ?_, ?_⟩
    · have := hp
      rw [hgd k (by rw [List.length_drop]; omega)] at this
      simpa using this
    · intro l h1 h2
      have hli : l - (j + 1) < k := by omega
      have := hmin (l - (j + 1)) hli
      rw [hgd (l - (j + 1)) (by rw [List.length_drop]; omega),
        show j + 1 + (l - (j + 1)) = l by omega] at this
      simpa using this

set_option maxRecDepth 4000 in
theorem parseAttrsV2Loop_cons (a : LsfWriter.WAttr) (rest : List Nat) (prev : List Int)
    (off : Nat) (acc : List LSFAttributeEntry)
    (h1 : a.nameIndex < 4294967296) (h2 : a.type < 64) (h3 : a.bytes.length < 33554432)
    (h4 : a.nodeIdx < 2147483648) :
    LSFReader.parseAttrsV2Loop (u32le a.nameIndex ++
        (u32le (LsfWriter.talOf a.type a.bytes.length) ++ (i32le (a.nodeIdx : Int) ++ rest)))
        prev off acc =
      LSFReader.parseAttrsV2Loop rest
        ((LSFReader.padTo prev (a.nodeIdx + 1)).set (a.nodeIdx + 1) acc.length)
        (off + a.bytes.length)
        ((if a.nodeIdx + 1 < prev.length ∧ prev.getD (a.nodeIdx + 1) (-1) ≠ -1 then
          LSFReader.setNextAttr acc (prev.getD (a.nodeIdx + 1) (-1)).toNat acc.length
        else acc) ++
          [{ nameIndex := a.nameIndex, type := a.type, length := a.bytes.length,
             nodeIndex := (a.nodeIdx : Int), nextAttributeIndex := -1, offset := off }]) := by
  set L := u32le a.nameIndex ++
    (u32le (LsfWriter.talOf a.type a.bytes.length) ++ (i32le (a.nodeIdx : Int) ++ rest))
    with hL
  have htal : LsfWriter.talOf a.type a.bytes.length < 4294967296 := by
    have := talOf_lt a.type a.bytes.length h2 h3
    omega
  have hd4 : L.drop 4 =
      u32le (LsfWriter.talOf a.type a.bytes.length) ++ (i32le (a.nodeIdx : Int) ++ rest) := by
    rw [hL, List.drop_left' (u32le_length _)]
  have hd8 : L.drop 8 = i32le (a.nodeIdx : Int) ++ rest := by
    rw [hL, ← List.append_assoc,
      List.drop_left' (by rw [List.length_append, u32le_length, u32le_length])]
  have hd12 : L.drop 12 = rest := by
    rw [hL, ← List.append_assoc, ← List.append_assoc,
      List.drop_left' (by
        rw [List.length_append, List.length_append, u32le_length, u32le_length, i32le_length])]
  have hru : readU32 L = a.nameIndex := by
    rw [hL, readU32_append _ _ h1]
  cases hl : L with
  | nil =>
    have hlen : L.length = 12 + rest.length := by
      rw [hL]
      simp [u32le, i32le]
      omega
    rw [hl] at hlen
    simp only [List.length_nil] at hlen
    omega
  | cons b r =>
    rw [LSFReader.parseAttrsV2Loop]
    rw [← hl, hru, hd4, hd8, hd12, readU32_append _ _ htal,
      readI32_append _ _ (by omega) (by push_cast; omega),
      talOf_mod _ _ h2, talLength_talOf _ _ h2 h3]
    rw [if_pos (by omega)]
    have htn : ((a.nodeIdx : Int) + 1).toNat = a.nodeIdx + 1 := by omega
    rw [htn]

/-- In the processed region, the only entry whose pending chain link
resolves at step `i` is the last earlier attribute of node
`(all.getD i).nodeIdx`. -/
theorem expV2_step_unchanged (all : List LsfWriter.WAttr) (i j : Nat) (hj : j < i)
    (hi : i < all.length)
    (hno : LsfWriter.nextAttrIdx all j ≠ (i : Int)) :
    expV2 all (i + 1) j = expV2 all i j := by
  unfold expV2
  rcases nextAttrIdx_cases all j with hc | hc
  · rw [hc]
    have hn1 : (-1 : Int) < (i : Int) := by omega
    have hn2 : (-1 : Int) < ((i : Nat) : Int) + 1 := by omega
    rw [if_pos (by push_cast; omega), if_pos (by push_cast; omega)]
  · by_cases hlt : LsfWriter.nextAttrIdx all j < (i : Int)
    · rw [if_pos hlt, if_pos (by push_cast at hlt ⊢; omega)]
    · rw [if_neg hlt, if_neg (by
        push_cast at hlt hno ⊢
        rcases hc with ⟨hc1, hc2⟩
        intro hcon
        have : LsfWriter.nextAttrIdx all j = (i : Int) := by omega
        exact hno this)]

theorem setNextAttr_map_range (f : Nat → LSFAttributeEntry) (n j0 : Nat) (hj : j0 < n)
    (nxt : Int) :
    LSFReader.setNextAttr ((List.range n).map f) j0 nxt =
      (List.range n).map fun j =>
        if j = j0 then { f j with nextAttributeIndex := nxt } else f j := by
  unfold LSFReader.setNextAttr
  have hget : ((List.range n).map f).get? j0 = some (f j0) := by
    rw [List.get?_eq_getElem?, List.getElem?_map, List.getElem?_range hj]
    rfl
  rw [hget]
  apply List.ext_getElem?
  intro m
  by_cases hm : m = j0
  · subst hm
    rw [List.getElem?_set_self (by simp [List.length_map, List.length_range]; omega),
      List.getElem?_map, List.getElem?_range hj]
    simp
  · rw [List.getElem?_set_ne (fun hc => hm hc.symm), List.getElem?_map, List.getElem?_map]
    by_cases hmn : m < n
    · rw [List.getElem?_range hmn]
      simp [hm]
    · rw [List.getElem?_eq_none (by simp [List.length_range]; omega)]
      rfl

theorem padTo_length (prev : List Int) (n : Nat) :
    (LSFReader.padTo prev n).length = max prev.length (n + 1) := by
  simp [LSFReader.padTo]
  omega

theorem padTo_getD_lt (prev : List Int) (n i : Nat) (h : i < prev.length) :
    (LSFReader.padTo prev n).getD i (-1) = prev.getD i (-1) :=
  LsfWriter.getD_append_lt _ _ _ _ h

theorem padTo_getD_ge (prev : List Int) (n i : Nat) (h : prev.length ≤ i) :
    (LSFReader.padTo prev n).getD i (-1) = -1 := by
  unfold LSFReader.padTo
  rw [List.getD_append_right _ _ _ _ h]
  rw [List.getD_eq_getElem?_getD, List.getElem?_replicate]
  split <;> rfl

theorem parseAttrsV2Loop_inv (all : List LsfWriter.WAttr) (hb : attrBounds all) :
    ∀ rest i prev, rest = all.drop i → i ≤ all.length →
      (∀ ni, ni < prev.length → prev.getD ni (-1) = lastIdxBelow all i ni) →
      (∀ ni, prev.length ≤ ni → lastIdxBelow all i ni = -1) →
      LSFReader.parseAttrsV2Loop (LsfWriter.attrTableV2 rest) prev (vOffStart all i)
          ((List.range i).map (expV2 all i)) =
        (List.range all.length).map (expV2 all all.length) := by
  intro rest
  induction rest with
  | nil =>
    intro i prev hi hle hp1 hp2
    have hlen : all.length ≤ i := by
      by_contra hc
      have := congrArg List.length hi
      rw [List.length_drop] at this
      simp at this
      omega
    have hieq : i = all.length := by omega
    subst hieq
    show LSFReader.parseAttrsV2Loop [] prev _ _ = _
    rw [LSFReader.parseAttrsV2Loop]
  | cons a as ih =>
    intro i prev hi hle hp1 hp2
    have hlen := congrArg List.length hi
    rw [List.length_drop] at hlen
    simp only [List.length_cons] at hlen
    have hilt : i < all.length := by omega
    have hget : all.getD i default = a := by
      have h0 : (all.drop i)[0]? = some a := by rw [← hi]; simp
      rw [List.getElem?_drop] at h0
      have h1 : all[i]? = some a := by simpa using h0
      rw [List.getD_eq_getElem?_getD, h1]
      rfl
    have has : as = all.drop (i + 1) := by
      rw [← List.drop_drop 1 i all, ← hi]
      simp
    have hmem : a ∈ all := by
      have : a ∈ all.drop i := by rw [← hi]; simp
      exact List.mem_of_mem_drop this
    obtain ⟨hfields, hcnt, hsum⟩ := hb
    obtain ⟨hf1, hf2, hf3, hf4⟩ := hfields a hmem
    have hchunk : LsfWriter.attrTableV2 (a :: as) = u32le a.nameIndex ++
        (u32le (LsfWriter.talOf a.type a.bytes.length) ++
          (i32le (a.nodeIdx : Int) ++ LsfWriter.attrTableV2 as)) := by
      simp [LsfWriter.attrTableV2, List.append_assoc]
    rw [hchunk, parseAttrsV2Loop_cons a _ prev _ _ hf1 hf2 hf3 hf4]
    have hacclen : ((List.range i).map (expV2 all i)).length = i := by
      rw [List.length_map, List.length_range]
    rw [hacclen]
    have hoffstep : vOffStart all i + a.bytes.length = vOffStart all (i + 1) := by
      rw [vOffStart_succ all i hilt, hget]
    rw [hoffstep]
    have hstage : (if a.nodeIdx + 1 < prev.length ∧ prev.getD (a.nodeIdx + 1) (-1) ≠ -1 then
          LSFReader.setNextAttr ((List.range i).map (expV2 all i))
            (prev.getD (a.nodeIdx + 1) (-1)).toNat (i : Int)
        else (List.range i).map (expV2 all i)) =
        (List.range i).map (expV2 all (i + 1)) := by
      by_cases hcond : a.nodeIdx + 1 < prev.length ∧ prev.getD (a.nodeIdx + 1) (-1) ≠ -1
      · rw [if_pos hcond]
        have hpv : prev.getD (a.nodeIdx + 1) (-1) = lastIdxBelow all i (a.nodeIdx + 1) :=
          hp1 _ hcond.1
        have hne : lastIdxBelow all i (a.nodeIdx + 1) ≠ -1 := by
          rw [← hpv]; exact hcond.2
        obtain ⟨j0, hj0eq, hj0lt, hj0ni, hj0max⟩ := lastIdxBelow_spec all i _ hne
        have hptn : (prev.getD (a.nodeIdx + 1) (-1)).toNat = j0 := by
          rw [hpv, hj0eq]
          omega
        rw [hptn, setNextAttr_map_range _ _ _ hj0lt]
        apply List.map_congr_left
        intro j hj
        rw [List.mem_range] at hj
        have hnodej0 : (all.getD j0 default).nodeIdx = a.nodeIdx := by omega
        have hnext : LsfWriter.nextAttrIdx all j0 = (i : Int) := by
          apply nextAttrIdx_eq all j0 i hj0lt hilt
          · rw [hget, hnodej0]
          · intro l h1 h2
            rw [hnodej0]
            have := hj0max l h1 h2
            omega
        by_cases hjj : j = j0
        · subst hjj
          rw [if_pos rfl]
          unfold expV2
          rw [hnext]
          rw [if_pos (show (i : Int) < ((i + 1 : Nat) : Int) from by push_cast; omega)]
        · rw [if_neg hjj]
          symm
          apply expV2_step_unchanged all i j hj hilt
          intro hcon
          obtain ⟨hs1, hs2, hs3, hs4⟩ := nextAttrIdx_sound all j i hcon
          rw [hget] at hs3
          rcases Nat.lt_trichotomy j j0 with hlt | heq | hgt
          · exact hs4 j0 hlt hj0lt (by rw [hnodej0, ← hs3])
          · exact hjj heq
          · exact hj0max j hgt hj (by omega)
      · rw [if_neg hcond]
        apply List.map_congr_left
        intro j hj
        rw [List.mem_range] at hj
        symm
        apply expV2_step_unchanged all i j hj hilt
        intro hcon
        obtain ⟨hs1, hs2, hs3, hs4⟩ := nextAttrIdx_sound all j i hcon
        rw [hget] at hs3
        have hex : lastIdxBelow all i (a.nodeIdx + 1) ≠ -1 := by
          intro hc
          rw [lastIdxBelow_neg_iff] at hc
          exact hc j hj (by omega)
        rcases Nat.lt_or_ge (a.nodeIdx + 1) prev.length with hlt | hge
        · exact hex (by rw [← hp1 _ hlt]; by_contra hc; exact hcond ⟨hlt, hc⟩)
        · exact hex (hp2 _ hge)
    rw [hstage]
    have hnx : (if LsfWriter.nextAttrIdx all i < ((i + 1 : Nat) : Int) then
        LsfWriter.nextAttrIdx all i else -1) = -1 := by
      rcases nextAttrIdx_cases all i with hc | hc
      · rw [hc, if_pos (by push_cast; omega)]
      · rw [if_neg (by push_cast at hc ⊢; omega)]
    have hattr : LSFAttributeEntry.mk a.nameIndex a.type a.bytes.length
        (a.nodeIdx : Int) (-1) (vOffStart all i) = expV2 all (i + 1) i := by
      unfold expV2
      rw [hget, hnx]
    rw [hattr]
    have hsnoc : (List.range i).map (expV2 all (i + 1)) ++ [expV2 all (i + 1) i] =
        (List.range (i + 1)).map (expV2 all (i + 1)) := by
      rw [List.range_succ]
      simp
    rw [hsnoc]
    have hp1n : ∀ ni, ni <
        ((LSFReader.padTo prev (a.nodeIdx + 1)).set (a.nodeIdx + 1) (i : Int)).length →
        ((LSFReader.padTo prev (a.nodeIdx + 1)).set (a.nodeIdx + 1) (i : Int)).getD ni (-1) =
          lastIdxBelow all (i + 1) ni := by
      intro ni hni
      rw [List.length_set, padTo_length] at hni
      have hstep : lastIdxBelow all (i + 1) ni =
          if (all.getD i default).nodeIdx + 1 = ni then (i : Int)
          else lastIdxBelow all i ni := rfl
      by_cases hni2 : ni = a.nodeIdx + 1
      · subst hni2
        rw [LsfWriter.getD_set_self _ _ _ _ (by rw [padTo_length]; omega)]
        rw [hstep, hget, if_pos rfl]
      · rw [LsfWriter.getD_set_ne _ _ _ _ _ (fun hc => hni2 hc.symm)]
        rw [hstep, hget, if_neg (by omega)]
        rcases Nat.lt_or_ge ni prev.length with hlt | hge
        · rw [padTo_getD_lt _ _ _ hlt]
          exact hp1 ni hlt
        · rw [padTo_getD_ge _ _ _ hge]
          exact (hp2 ni hge).symm
    have hp2n : ∀ ni,
        ((LSFReader.padTo prev (a.nodeIdx + 1)).set (a.nodeIdx + 1) (i : Int)).length ≤ ni →
        lastIdxBelow all (i + 1) ni = -1 := by
      intro ni hni
      rw [List.length_set, padTo_length] at hni
      have hstep : lastIdxBelow all (i + 1) ni =
          if (all.getD i default).nodeIdx + 1 = ni then (i : Int)
          else lastIdxBelow all i ni := rfl
      rw [hstep, hget, if_neg (by omega)]
      exact hp2 ni (by omega)
    exact ih (i + 1) _ has (by omega) hp1n hp2n

theorem expV2_final (all : List LsfWriter.WAttr) (j : Nat) :
    expV2 all all.length j =
      expectedAttrEntry all (fun j => ((all.getD j default).nodeIdx : Int)) j := by
  unfold expV2 expectedAttrEntry
  rcases nextAttrIdx_cases all j with hc | hc
  · rw [hc, if_pos (by push_cast; omega)]
  · rw [if_pos hc.2]

/-- The V2 attribute parse produces the same entries as the V3 one up
to the unused `nodeIndex` field. -/
theorem parseAttrsV2_table (all : List LsfWriter.WAttr) (hb : attrBounds all) :
    LSFReader.parseAttrsV2Loop (LsfWriter.attrTableV2 all) [] 0 [] =
      (List.range all.length).map
        (expectedAttrEntry all fun j => ((all.getD j default).nodeIdx : Int)) := by
  have h := parseAttrsV2Loop_inv all hb all 0 [] (by simp) (by omega)
    (fun ni hni => absurd hni (by simp)) (fun ni _ => rfl)
  have h2 : LSFReader.parseAttrsV2Loop (LsfWriter.attrTableV2 all) [] 0 [] =
      (List.range all.length).map (expV2 all all.length) := h
  rw [h2]
  exact List.map_congr_left fun j _ => expV2_final all j

/-! ## String interning round trip -/
theorem internString_chainMem (st : LsfWriter.STState) (s : String) (c : List String)
    (x : String) (hc : c ∈ (LsfWriter.internString st s).buckets) (hx : x ∈ c) :
    (∃ c0 ∈ st.buckets, x ∈ c0) ∨ x = s := by
  unfold LsfWriter.internString at hc
  split at hc
  · exact Or.inl ⟨c, hc, hx⟩
  · dsimp only at hc
    split at hc
    · exact Or.inl ⟨c, hc, hx⟩
    · dsimp only at hc
      rcases List.mem_or_eq_of_mem_set hc with hmem | heq
      · exact Or.inl ⟨c, hmem, hx⟩
      · subst heq
        rcases List.mem_append.mp hx with hx | hx
        · by_cases hblt : LsfWriter.hashToBucket (LsfWriter.dotNetStringHashCode s) <
              st.buckets.length
          · left
            refine ⟨st.buckets.getD
              (LsfWriter.hashToBucket (LsfWriter.dotNetStringHashCode s)) [], ?_, hx⟩
            rw [List.getD_eq_getElem?_getD, List.getElem?_eq_getElem hblt]
            exact List.getElem_mem hblt
          · rw [List.getD_eq_getElem?_getD, List.getElem?_eq_none (by omega)] at hx
            exact absurd hx (by simp)
        · right
          simpa using hx

theorem foldl_chainMem (P : String → Prop) :
    ∀ (l : List String) (st : LsfWriter.STState), (∀ s ∈ l, P s) →
      (∀ c ∈ st.buckets, ∀ x ∈ c, P x) →
      ∀ c ∈ (l.foldl LsfWriter.internString st).buckets, ∀ x ∈ c, P x := by
  intro l
  induction l with
  | nil => intro st _ h0; exact h0
  | cons s ss ih =>
    intro st hl h0
    apply ih (LsfWriter.internString st s) (fun t ht => hl t (by simp [ht]))
    intro c hc x hx
    rcases internString_chainMem st s c x hc hx with ⟨c0, hc0, hx0⟩ | heq
    · exact h0 c0 hc0 x hx0
    · subst heq
      exact hl x (by simp)

theorem buildST_chain_subset (strs : List String) :
    ∀ c ∈ (LsfWriter.buildStringTableState strs).buckets, ∀ x ∈ c, x ∈ strs := by
  unfold LsfWriter.buildStringTableState
  apply foldl_chainMem (· ∈ strs) strs _ (fun s hs => hs)
  intro c hc x hx
  rw [List.eq_of_mem_replicate hc] at hx
  exact absurd hx (by simp)

theorem buildST_chain_short (strs : List String) (hcnt : strs.length < 65536) :
    ∀ c ∈ (LsfWriter.buildStringTableState strs).buckets, c.length < 65536 := by
  intro c hc
  obtain ⟨hinv, hmap, _⟩ := LsfWriter.buildStringTableState_spec strs
  have hmem : c.length ∈ (LsfWriter.buildStringTableState strs).buckets.map List.length :=
    List.mem_map_of_mem _ hc
  have hle := List.single_le_sum
    (l := (LsfWriter.buildStringTableState strs).buckets.map List.length)
    (by intro x _; omega) _ hmem
  have hsum := hinv.sumBound
  omega

theorem resolveName_hit (strings : List (List String)) (b o : Nat) (chain : List String)
    (s : String) (hb : strings.get? b = some chain) (ho : chain.get? o = some s)
    (h31 : b * 65536 + o < 2147483648) (ho16 : o < 65536) :
    LSFReader.resolveName strings (b * 65536 + o) = s := by
  unfold LSFReader.resolveName
  rw [if_pos h31, show (b * 65536 + o) / 65536 = b from by omega,
    show (b * 65536 + o) % 65536 = o from by omega, hb]
  show (match chain.get? o with
    | some t => t
    | none => LSFReader.fallbackName (b * 65536 + o)) = s
  rw [ho]

theorem buildST_parse (strs : List String) (hcnt : strs.length < 65536)
    (hlen : ∀ s ∈ strs, (utf8Encode s).length < 65536) :
    LSFReader.parseStringTable
      (LsfWriter.stringTableBytes (LsfWriter.buildStringTableState strs).buckets) =
      (LsfWriter.buildStringTableState strs).buckets := by
  obtain ⟨hinv, hmap, hall⟩ := LsfWriter.buildStringTableState_spec strs
  exact LSFReader.parseStringTable_bytes _ hinv.blen (buildST_chain_short strs hcnt)
    (fun c hc x hx => hlen x (buildST_chain_subset strs c hc x hx))

theorem resolve_bucket (B : List (List String)) (s : String) (i : Nat) (hB : B.length = 512)
    (hchain : (B.getD (LsfWriter.bucketOf s) []).get? i = some s) (hi16 : i < 65536) :
    LSFReader.resolveName B ((LsfWriter.bucketOf s <<< 16) ||| i) = s := by
  have hbl : LsfWriter.bucketOf s < 512 := LsfWriter.hashToBucket_lt _
  rw [lorSplit _ _ hi16]
  have hgb : B.get? (LsfWriter.bucketOf s) = some (B.getD (LsfWriter.bucketOf s) []) := by
    rw [List.get?_eq_getElem?, List.getD_eq_getElem?_getD,
      List.getElem?_eq_getElem (by omega)]
    rfl
  exact resolveName_hit _ _ _ _ _ hgb hchain (by omega) hi16

/-- Resolving an interned string reference against the parsed string
table returns the string. -/
theorem resolve_intern (strs : List String) (hcnt : strs.length < 65536)
    (hlen : ∀ s ∈ strs, (utf8Encode s).length < 65536) (s : String) (hs : s ∈ strs) :
    LSFReader.resolveName
      (LSFReader.parseStringTable
        (LsfWriter.stringTableBytes (LsfWriter.buildStringTableState strs).buckets))
      ((LsfWriter.lookupIM (LsfWriter.buildStringTableState strs).indexMap s).getD 0) = s := by
  obtain ⟨hinv, hmap, hall⟩ := LsfWriter.buildStringTableState_spec strs
  obtain ⟨i, hlook, hchain, hilt⟩ := hall s hs
  rw [buildST_parse strs hcnt hlen]
  have hrw : (LsfWriter.lookupIM (LsfWriter.buildStringTableState strs).indexMap s).getD 0 =
      (LsfWriter.bucketOf s <<< 16) ||| i := by
    rw [hlook, Option.getD_some]
  rw [hrw]
  exact resolve_bucket _ s i hinv.blen hchain (by omega)

/-! ## Value block slicing -/
theorem flatten_take_length (all : List LsfWriter.WAttr) (j : Nat) :
    (((all.take j).map LsfWriter.WAttr.bytes).flatten).length = vOffStart all j := by
  rw [List.length_flatten, vOffStart]
  rw [List.map_map]
  rfl

theorem flatten_slice (all : List LsfWriter.WAttr) (j : Nat) (hj : j < all.length) :
    (((all.map LsfWriter.WAttr.bytes).flatten).drop (vOffStart all j)).take
      ((all.getD j default).bytes.length) = (all.getD j default).bytes := by
  have hdecomp : (all.map LsfWriter.WAttr.bytes).flatten =
      ((all.take j).map LsfWriter.WAttr.bytes).flatten ++
        ((all.drop j).map LsfWriter.WAttr.bytes).flatten := by
    conv_lhs => rw [← List.take_append_drop j all]
    rw [List.map_append, List.flatten_append]
  rw [hdecomp, List.drop_left' (flatten_take_length all j)]
  have hdj : all.drop j = (all.getD j default) :: all.drop (j + 1) := by
    have h1 : all[j] = all.getD j default := by
      rw [List.getD_eq_getElem?_getD, List.getElem?_eq_getElem hj]
      rfl
    rw [List.drop_eq_getElem_cons hj, h1]
  rw [hdj, List.map_cons, List.flatten_cons, List.take_left]

theorem readAttrChain_neg (strings : List (List String)) (A : List LSFAttributeEntry)
    (values : List Nat) (version f : Nat) (v : List Nat) (ro : Nat) :
    LSFReader.readAttrChain strings A values version (f + 1) v (-1) ro = [] := by
  rw [LSFReader.readAttrChain]
  rw [if_pos (Or.inl (by omega))]

theorem chain_walk (strings : List (List String)) (values : List Nat) (version : Nat)
    (FA : List LsfWriter.WAttr) (A : List LSFAttributeEntry) (nf : Nat → Int)
    (isBG3 : Bool) (im : String → Nat) (ab self : Nat) (attrs : List LSFAttribute)
    (hAeq : A = (List.range FA.length).map (expectedAttrEntry FA nf))
    (hblk : ∀ m, m < attrs.length →
      FA.getD (ab + m) default =
        ⟨im (attrs.getD m default).name, (attrs.getD m default).type,
          LsfWriter.serializeAttributeValue isBG3 (attrs.getD m default).type
            (attrs.getD m default).value, self⟩)
    (hblkend : ab + attrs.length ≤ FA.length)
    (hafter : ∀ j, ab + attrs.length ≤ j → j < FA.length →
      (FA.getD j default).nodeIdx ≠ self)
    (hvalues : values = (FA.map LsfWriter.WAttr.bytes).flatten)
    (hcan : ∀ m, m < attrs.length →
      canonicalValue (attrs.getD m default).type (attrs.getD m default).value = true)
    (hresm : ∀ m, m < attrs.length →
      LSFReader.resolveName strings (im (attrs.getD m default).name) =
        (attrs.getD m default).name) :
    ∀ n m, attrs.length - m = n → m < attrs.length →
      ∀ fuel, n ≤ fuel → ∀ visited ro,
      (∀ x ∈ visited, x < ab + m) →
      ((expectedAttrEntry FA nf (ab + m)).offset = 0 → ro = vOffStart FA (ab + m)) →
      LSFReader.readAttrChain strings A values version (fuel + 1) visited
        ((ab + m : Nat) : Int) ro = attrs.drop m := by
  intro n
  induction n using Nat.strong_induction_on with
  | _ n ih =>
    intro m hn hm fuel hfuel visited ro hvis hro
    have hAlen : A.length = FA.length := by
      rw [hAeq, List.length_map, List.length_range]
    have hgA : ∀ j, j < FA.length → A.getD j default = expectedAttrEntry FA nf j := by
      intro j hj
      rw [hAeq, List.getD_eq_getElem?_getD, List.getElem?_map, List.getElem?_range hj]
      rfl
    have hablt : ab + m < FA.length := by omega
    rw [LSFReader.readAttrChain]
    dsimp only
    rw [if_neg (by push_cast; omega)]
    have htn : ((ab + m : Nat) : Int).toNat = ab + m := by omega
    rw [htn]
    rw [if_neg (by
      intro hc
      simp only [List.contains_iff_exists_mem_beq, beq_iff_eq] at hc
      obtain ⟨x, hx, hbeq⟩ := hc
      have := hvis x hx
      omega)]
    rw [hgA _ hablt]
    have hE : expectedAttrEntry FA nf (ab + m) =
        { nameIndex := im (attrs.getD m default).name, type := (attrs.getD m default).type,
          length := (LsfWriter.serializeAttributeValue isBG3 (attrs.getD m default).type
            (attrs.getD m default).value).length,
          nodeIndex := nf (ab + m),
          nextAttributeIndex := LsfWriter.nextAttrIdx FA (ab + m),
          offset := vOffStart FA (ab + m) } := by
      unfold expectedAttrEntry
      rw [hblk m hm]
    have hao : (if (expectedAttrEntry FA nf (ab + m)).offset = 0 then ro
        else (expectedAttrEntry FA nf (ab + m)).offset) = vOffStart FA (ab + m) := by
      split
      · rename_i hz
        rw [hro hz]
      · rw [hE]
    have hslice : (values.drop (vOffStart FA (ab + m))).take
        (expectedAttrEntry FA nf (ab + m)).length = (FA.getD (ab + m) default).bytes := by
      rw [hvalues]
      have : (expectedAttrEntry FA nf (ab + m)).length =
          (FA.getD (ab + m) default).bytes.length := rfl
      rw [this]
      exact flatten_slice FA (ab + m) hablt
    rw [hao, hslice]
    have hbytes : (FA.getD (ab + m) default).bytes =
        LsfWriter.serializeAttributeValue isBG3 (attrs.getD m default).type
          (attrs.getD m default).value := by
      rw [hblk m hm]
    have hlen2 : (expectedAttrEntry FA nf (ab + m)).length =
        (LsfWriter.serializeAttributeValue isBG3 (attrs.getD m default).type
          (attrs.getD m default).value).length := by
      show (FA.getD (ab + m) default).bytes.length = _
      rw [hbytes]
    have htype : (expectedAttrEntry FA nf (ab + m)).type = (attrs.getD m default).type := by
      show (FA.getD (ab + m) default).type = _
      rw [hblk m hm]
    have hrv : LSFReader.readAttributeValue version (expectedAttrEntry FA nf (ab + m)).type
        (FA.getD (ab + m) default).bytes (expectedAttrEntry FA nf (ab + m)).length =
        (attrs.getD m default).value := by
      rw [htype, hbytes, hlen2]
      exact rav_canonical version isBG3 _ _ (hcan m hm)
    rw [hrv]
    have hname : LSFReader.resolveName strings (expectedAttrEntry FA nf (ab + m)).nameIndex =
        (attrs.getD m default).name := by
      have : (expectedAttrEntry FA nf (ab + m)).nameIndex =
          im (attrs.getD m default).name := by
        show (FA.getD (ab + m) default).nameIndex = _
        rw [hblk m hm]
      rw [this]
      exact hresm m hm
    rw [hname]
    have hdm : attrs.drop m = attrs.getD m default :: attrs.drop (m + 1) := by
      rw [List.drop_eq_getElem_cons hm]
      congr 1
      rw [List.getD_eq_getElem?_getD, List.getElem?_eq_getElem hm]
      rfl
    rw [hdm]
    have hroff : vOffStart FA (ab + m) + (expectedAttrEntry FA nf (ab + m)).length =
        vOffStart FA (ab + m + 1) := by
      rw [vOffStart_succ FA (ab + m) hablt]
      rfl
    congr 1
    · rw [htype]
    by_cases hlast : m + 1 < attrs.length
    · have hnxt : LsfWriter.nextAttrIdx FA (ab + m) = ((ab + m + 1 : Nat) : Int) := by
        apply nextAttrIdx_eq FA (ab + m) (ab + m + 1) (by omega) (by omega)
        · have hb2 := hblk (m + 1) hlast
          rw [show ab + (m + 1) = ab + m + 1 from by omega] at hb2
          rw [hblk m hm, hb2]
        · intro l h1 h2
          omega
      have hnext : (expectedAttrEntry FA nf (ab + m)).nextAttributeIndex =
          ((ab + m + 1 : Nat) : Int) := hnxt
      rw [hnext, hroff]
      cases fuel with
      | zero => omega
      | succ f =>
        exact ih (n - 1) (by omega) (m + 1) (by omega) hlast f (by omega) _ _
          (by
            intro x hx
            rcases List.mem_cons.mp hx with hx | hx
            · omega
            · have := hvis x hx
              omega)
          (fun _ => rfl)
    · have hm1 : m + 1 = attrs.length := by omega
      have hnone : LsfWriter.nextAttrIdx FA (ab + m) = -1 := by
        unfold LsfWriter.nextAttrIdx
        have hfnone : (FA.drop (ab + m + 1)).findIdx?
            (fun a => a.nodeIdx = (FA.getD (ab + m) default).nodeIdx) = none := by
          rw [List.findIdx?_eq_none_iff]
          intro x hx
          obtain ⟨j, hj, hxe⟩ := List.mem_iff_getElem.mp hx
          rw [List.getElem_drop] at hxe
          have hjlt : ab + m + 1 + j < FA.length := by
            have := hj
            rw [List.length_drop] at this
            omega
          have hxg : x = FA.getD (ab + m + 1 + j) default := by
            rw [List.getD_eq_getElem?_getD, List.getElem?_eq_getElem hjlt]
            rw [← hxe]
            rfl
          have hself : (FA.getD (ab + m) default).nodeIdx = self := by rw [hblk m hm]
          have hne : (FA.getD (ab + m + 1 + j) default).nodeIdx ≠ self :=
            hafter _ (by omega) hjlt
          rw [hxg, hself]
          simp only [decide_eq_true_eq] at hne ⊢
          simpa using hne
        rw [hfnone]
      have hnext : (expectedAttrEntry FA nf (ab + m)).nextAttributeIndex = -1 := hnone
      rw [hnext]
      cases fuel with
      | zero =>
        rw [LSFReader.readAttrChain]
        rw [show attrs.drop (m + 1) = [] from by
          rw [List.drop_eq_nil_iff]
          omega]
      | succ f =>
        rw [readAttrChain_neg]
        rw [show attrs.drop (m + 1) = [] from by
          rw [List.drop_eq_nil_iff]
          omega]

theorem nodeCount_pos (t : LSFNode) : 1 ≤ LsfWriter.nodeCount t := by
  cases t
  show 1 ≤ 1 + _
  omega

theorem flatNode_eq (isBG3 : Bool) (im : String → Nat) (name : String)
    (attrs : List LSFAttribute) (cs : List LSFNode) (k : Option String)
    (self : Nat) (par ns : Int) (ab : Nat) :
    LsfWriter.flatNode isBG3 im (.mk name attrs cs k) self par ns ab =
      (⟨im name, par, ns, if attrs.length = 0 then -1 else (ab : Int)⟩ ::
        (LsfWriter.flatChildren isBG3 im cs (self + 1) (self : Int) (ab + attrs.length)).1,
       (attrs.map fun a =>
         ⟨im a.name, a.type, LsfWriter.serializeAttributeValue isBG3 a.type a.value, self⟩) ++
        (LsfWriter.flatChildren isBG3 im cs (self + 1) (self : Int) (ab + attrs.length)).2) :=
  rfl

theorem flatChildren_cons (isBG3 : Bool) (im : String → Nat) (c : LSFNode)
    (rest : List LSFNode) (base : Nat) (par : Int) (ab : Nat) :
    LsfWriter.flatChildren isBG3 im (c :: rest) base par ab =
      ((LsfWriter.flatNode isBG3 im c base par
          (if rest.length = 0 then -1 else ((base + LsfWriter.nodeCount c : Nat) : Int)) ab).1 ++
        (LsfWriter.flatChildren isBG3 im rest (base + LsfWriter.nodeCount c) par
          (ab + LsfWriter.attrTotal c)).1,
       (LsfWriter.flatNode isBG3 im c base par
          (if rest.length = 0 then -1 else ((base + LsfWriter.nodeCount c : Nat) : Int)) ab).2 ++
        (LsfWriter.flatChildren isBG3 im rest (base + LsfWriter.nodeCount c) par
          (ab + LsfWriter.attrTotal c)).2) :=
  rfl

theorem flatForest_cons (isBG3 : Bool) (im : String → Nat) (r : LSFNode)
    (rest : List LSFNode) (base ab : Nat) :
    LsfWriter.flatForest isBG3 im (r :: rest) base ab =
      ((LsfWriter.flatNode isBG3 im r base (-1) (-1) ab).1 ++
        (LsfWriter.flatForest isBG3 im rest (base + LsfWriter.nodeCount r)
          (ab + LsfWriter.attrTotal r)).1,
       (LsfWriter.flatNode isBG3 im r base (-1) (-1) ab).2 ++
        (LsfWriter.flatForest isBG3 im rest (base + LsfWriter.nodeCount r)
          (ab + LsfWriter.attrTotal r)).2) :=
  rfl

mutual
theorem flatNode_len (isBG3 : Bool) (im : String → Nat) (t : LSFNode) (self : Nat)
    (par ns : Int) (ab : Nat) :
    (LsfWriter.flatNode isBG3 im t self par ns ab).1.length = LsfWriter.nodeCount t ∧
    (LsfWriter.flatNode isBG3 im t self par ns ab).2.length = LsfWriter.attrTotal t := by
  cases t with
  | mk name attrs cs k =>
    have hc := flatChildren_len isBG3 im cs (self + 1) (self : Int) (ab + attrs.length)
    rw [flatNode_eq]
    constructor
    · show ((_ :: _ : List LSFNodeEntry)).length = _
      rw [List.length_cons, hc.1]
      show _ = 1 + LsfWriter.nodeListCount cs
      omega
    · show ((_ ++ _ : List LsfWriter.WAttr)).length = _
      rw [List.length_append, List.length_map, hc.2]
      rfl
theorem flatChildren_len (isBG3 : Bool) (im : String → Nat) (cs : List LSFNode) (base : Nat)
    (par : Int) (ab : Nat) :
    (LsfWriter.flatChildren isBG3 im cs base par ab).1.length = LsfWriter.nodeListCount cs ∧
    (LsfWriter.flatChildren isBG3 im cs base par ab).2.length = LsfWriter.attrListTotal cs := by
  cases cs with
  | nil => exact ⟨rfl, rfl⟩
  | cons c rest =>
    have h1 := flatNode_len isBG3 im c base par
      (if rest.length = 0 then -1 else ((base + LsfWriter.nodeCount c : Nat) : Int)) ab
    have h2 := flatChildren_len isBG3 im rest (base + LsfWriter.nodeCount c) par
      (ab + LsfWriter.attrTotal c)
    rw [flatChildren_cons]
    constructor
    · show (_ ++ _ : List LSFNodeEntry).length = _
      rw [List.length_append, h1.1, h2.1]
      rfl
    · show (_ ++ _ : List LsfWriter.WAttr).length = _
      rw [List.length_append, h1.2, h2.2]
      rfl
end

theorem flatForest_len (isBG3 : Bool) (im : String → Nat) (rs : List LSFNode) (base ab : Nat) :
    (LsfWriter.flatForest isBG3 im rs base ab).1.length = LsfWriter.nodeListCount rs ∧
    (LsfWriter.flatForest isBG3 im rs base ab).2.length = LsfWriter.attrListTotal rs := by
  induction rs generalizing base ab with
  | nil => exact ⟨rfl, rfl⟩
  | cons r rest ih =>
    have h1 := flatNode_len isBG3 im r base (-1) (-1) ab
    have h2 := ih (base + LsfWriter.nodeCount r) (ab + LsfWriter.attrTotal r)
    rw [flatForest_cons]
    exact ⟨by
      show (_ ++ _ : List LSFNodeEntry).length = _
      rw [List.length_append, h1.1, h2.1]
      rfl, by
      show (_ ++ _ : List LsfWriter.WAttr).length = _
      rw [List.length_append, h1.2, h2.2]
      rfl⟩

theorem childOffsets_mem_bounds (cs : List LSFNode) (b x : Nat) (h : x ∈ childOffsets cs b) :
    b ≤ x ∧ x < b + LsfWriter.nodeListCount cs := by
  induction cs generalizing b with
  | nil => exact absurd h (by simp [childOffsets])
  | cons c rest ih =>
    rcases List.mem_cons.mp h with he | ht
    · subst he
      have := nodeCount_pos c
      show x ≤ x ∧ x < x + (LsfWriter.nodeCount c + LsfWriter.nodeListCount rest)
      omega
    · have := ih (b + LsfWriter.nodeCount c) ht
      show b ≤ x ∧ x < b + (LsfWriter.nodeCount c + LsfWriter.nodeListCount rest)
      omega

theorem childOffsets_sorted (cs : List LSFNode) (b : Nat) :
    (childOffsets cs b).Sorted (· < ·) := by
  induction cs generalizing b with
  | nil => exact List.sorted_nil
  | cons c rest ih =>
    rw [childOffsets, List.sorted_cons]
    refine ⟨fun x hx => ?_, ih _⟩
    have h1 := childOffsets_mem_bounds rest _ x hx
    have h2 := nodeCount_pos c
    omega

theorem getD_append_ge {α : Type} [Inhabited α] (l₁ l₂ : List α) (i : Nat)
    (h : l₁.length ≤ i) :
    (l₁ ++ l₂).getD i default = l₂.getD (i - l₁.length) default :=
  List.getD_append_right _ _ _ _ h

theorem getD_map_lt {α β : Type} [Inhabited α] [Inhabited β] (f : α → β)
    (l : List α) (k : Nat) (h : k < l.length) :
    (l.map f).getD k default = f (l.getD k default) := by
  rw [List.getD_eq_getElem?_getD, List.getElem?_map, List.getD_eq_getElem?_getD,
    List.getElem?_eq_getElem h]
  rfl

mutual
/-- Parent pointers inside one flattened subtree block: the root entry
points at `par`, every other entry points inside the block. -/
theorem flatNode_parent (isBG3 : Bool) (im : String → Nat) (t : LSFNode) (self : Nat)
    (par ns : Int) (ab : Nat) (hpar : par < (self : Int)) :
    ∀ j, j < LsfWriter.nodeCount t →
      ((((LsfWriter.flatNode isBG3 im t self par ns ab).1.getD j default).parentIndex = par ↔
        j = 0) ∧
       (j = 0 ∨ ((self : Int) ≤
          ((LsfWriter.flatNode isBG3 im t self par ns ab).1.getD j default).parentIndex ∧
        ((LsfWriter.flatNode isBG3 im t self par ns ab).1.getD j default).parentIndex <
          ((self + LsfWriter.nodeCount t : Nat) : Int)))) := by
  cases t with
  | mk name attrs cs k =>
    intro j hj
    have hcount : LsfWriter.nodeCount (.mk name attrs cs k) =
        1 + LsfWriter.nodeListCount cs := rfl
    rw [flatNode_eq]
    cases j with
    | zero =>
      rw [List.getD_cons_zero]
      exact ⟨⟨fun _ => rfl, fun _ => rfl⟩, Or.inl rfl⟩
    | succ j =>
      rw [List.getD_cons_succ]
      have hj2 : j < LsfWriter.nodeListCount cs := by
        rw [hcount] at hj
        omega
      have hch := flatChildren_parent isBG3 im cs (self + 1) (self : Int)
        (ab + attrs.length) (by push_cast; omega) j hj2
      constructor
      · constructor
        · intro hpe
          exfalso
          rcases hch.2 with hcase | ⟨h1, h2⟩
          · rw [hpe] at hcase
            omega
          · rw [hpe] at h1
            push_cast at h1
            omega
        · intro hj0
          exact absurd hj0 (by omega)
      · right
        rcases hch.2 with hcase | ⟨h1, h2⟩
        · rw [hcase, hcount]
          push_cast
          omega
        · rw [hcount]
          push_cast at h1 h2 ⊢
          omega
theorem flatChildren_parent (isBG3 : Bool) (im : String → Nat) (cs : List LSFNode)
    (base : Nat) (par : Int) (ab : Nat) (hpar : par < (base : Int)) :
    ∀ j, j < LsfWriter.nodeListCount cs →
      ((((LsfWriter.flatChildren isBG3 im cs base par ab).1.getD j default).parentIndex = par ↔
        base + j ∈ childOffsets cs base) ∧
       (((LsfWriter.flatChildren isBG3 im cs base par ab).1.getD j default).parentIndex = par ∨
        ((base : Int) ≤
          ((LsfWriter.flatChildren isBG3 im cs base par ab).1.getD j default).parentIndex ∧
         ((LsfWriter.flatChildren isBG3 im cs base par ab).1.getD j default).parentIndex <
          ((base + LsfWriter.nodeListCount cs : Nat) : Int)))) := by
  cases cs with
  | nil =>
    intro j hj
    rw [show LsfWriter.nodeListCount [] = 0 from rfl] at hj
    omega
  | cons c rest =>
    intro j hj
    have hcnt : LsfWriter.nodeListCount (c :: rest) =
        LsfWriter.nodeCount c + LsfWriter.nodeListCount rest := rfl
    have hszc := nodeCount_pos c
    rw [flatChildren_cons]
    have hlen1 := (flatNode_len isBG3 im c base par
      (if rest.length = 0 then -1 else ((base + LsfWriter.nodeCount c : Nat) : Int)) ab).1
    by_cases hjc : j < LsfWriter.nodeCount c
    · rw [LsfWriter.getD_append_lt _ _ _ _ (by rw [hlen1]; exact hjc)]
      have hn := flatNode_parent isBG3 im c base par
        (if rest.length = 0 then -1 else ((base + LsfWriter.nodeCount c : Nat) : Int)) ab
        hpar j hjc
      constructor
      · rw [hn.1]
        constructor
        · intro h0
          subst h0
          rw [childOffsets]
          exact List.mem_cons_self _ _
        · intro hmem
          rw [childOffsets] at hmem
          rcases List.mem_cons.mp hmem with he | ht
          · omega
          · have := childOffsets_mem_bounds rest _ _ ht
            omega
      · rcases hn.2 with h0 | ⟨h1, h2⟩
        · subst h0
          exact Or.inl ((hn.1).mpr rfl)
        · right
          rw [hcnt]
          push_cast at h1 h2 ⊢
          omega
    · rw [getD_append_ge _ _ _ (by rw [hlen1]; omega), hlen1]
      have hr := flatChildren_parent isBG3 im rest (base + LsfWriter.nodeCount c) par
        (ab + LsfWriter.attrTotal c) (by push_cast at hpar ⊢; omega)
        (j - LsfWriter.nodeCount c) (by rw [hcnt] at hj; omega)
      have hidx : base + LsfWriter.nodeCount c + (j - LsfWriter.nodeCount c) = base + j := by
        omega
      rw [hidx] at hr
      constructor
      · rw [hr.1, childOffsets]
        constructor
        · intro ht
          exact List.mem_cons_of_mem _ ht
        · intro hmem
          rcases List.mem_cons.mp hmem with he | ht
          · omega
          · exact ht
      · rcases hr.2 with h0 | ⟨h1, h2⟩
        · exact Or.inl h0
        · right
          rw [hcnt]
          push_cast at h1 h2 ⊢
          omega
end

mutual
/-- Attribute records of one flattened subtree block: the node's own
attributes come first (owned by `self`), the rest belong to strictly
deeper preorder indices. -/
theorem flatNode_attrs (isBG3 : Bool) (im : String → Nat) (t : LSFNode) (self : Nat)
    (par ns : Int) (ab : Nat) :
    (∀ k, k < t.attributes.length →
      (LsfWriter.flatNode isBG3 im t self par ns ab).2.getD k default =
        ⟨im (t.attributes.getD k default).name, (t.attributes.getD k default).type,
          LsfWriter.serializeAttributeValue isBG3 (t.attributes.getD k default).type
            (t.attributes.getD k default).value, self⟩) ∧
    (∀ k, k < LsfWriter.attrTotal t →
      self ≤ ((LsfWriter.flatNode isBG3 im t self par ns ab).2.getD k default).nodeIdx ∧
      ((LsfWriter.flatNode isBG3 im t self par ns ab).2.getD k default).nodeIdx <
        self + LsfWriter.nodeCount t) ∧
    (∀ k, k < LsfWriter.attrTotal t →
      (((LsfWriter.flatNode isBG3 im t self par ns ab).2.getD k default).nodeIdx = self ↔
        k < t.attributes.length)) := by
  cases t with
  | mk name attrs cs key =>
    have hat : LsfWriter.attrTotal (.mk name attrs cs key) =
        attrs.length + LsfWriter.attrListTotal cs := rfl
    have hnc : LsfWriter.nodeCount (.mk name attrs cs key) =
        1 + LsfWriter.nodeListCount cs := rfl
    have hattrs : (LSFNode.mk name attrs cs key).attributes = attrs := rfl
    have hch := flatChildren_attrs isBG3 im cs (self + 1) (self : Int) (ab + attrs.length)
    rw [flatNode_eq]
    have hmaplen : ((attrs.map fun a =>
        (⟨im a.name, a.type, LsfWriter.serializeAttributeValue isBG3 a.type a.value, self⟩ :
          LsfWriter.WAttr)).length) = attrs.length := List.length_map _ _
    refine ⟨?_, ?_, ?_⟩
    · intro k hk
      rw [hattrs] at hk
      rw [hattrs, LsfWriter.getD_append_lt _ _ _ _ (by rw [hmaplen]; exact hk)]
      rw [getD_map_lt _ _ _ hk]
    · intro k hk
      rw [hat] at hk
      by_cases hkl : k < attrs.length
      · rw [LsfWriter.getD_append_lt _ _ _ _ (by rw [hmaplen]; exact hkl)]
        rw [getD_map_lt _ _ _ hkl]
        rw [hnc]
        show self ≤ self ∧ self < self + (1 + LsfWriter.nodeListCount cs)
        omega
      · rw [getD_append_ge _ _ _ (by rw [hmaplen]; omega), hmaplen]
        have := (hch.1) (k - attrs.length) (by omega)
        rw [hnc]
        omega
    · intro k hk
      rw [hat] at hk
      rw [hattrs]
      by_cases hkl : k < attrs.length
      · rw [LsfWriter.getD_append_lt _ _ _ _ (by rw [hmaplen]; exact hkl)]
        rw [getD_map_lt _ _ _ hkl]
        exact ⟨fun _ => hkl, fun _ => rfl⟩
      · rw [getD_append_ge _ _ _ (by rw [hmaplen]; omega), hmaplen]
        have := (hch.1) (k - attrs.length) (by omega)
        exact ⟨fun he => absurd he (by omega), fun hc => absurd hc hkl⟩
theorem flatChildren_attrs (isBG3 : Bool) (im : String → Nat) (cs : List LSFNode)
    (base : Nat) (par : Int) (ab : Nat) :
    (∀ k, k < LsfWriter.attrListTotal cs →
      base ≤ ((LsfWriter.flatChildren isBG3 im cs base par ab).2.getD k default).nodeIdx ∧
      ((LsfWriter.flatChildren isBG3 im cs base par ab).2.getD k default).nodeIdx <
        base + LsfWriter.nodeListCount cs) ∧ True := by
  cases cs with
  | nil =>
    refine ⟨?_, trivial⟩
    intro k hk
    rw [show LsfWriter.attrListTotal [] = 0 from rfl] at hk
    omega
  | cons c rest =>
    have hat : LsfWriter.attrListTotal (c :: rest) =
        LsfWriter.attrTotal c + LsfWriter.attrListTotal rest := rfl
    have hcnt : LsfWriter.nodeListCount (c :: rest) =
        LsfWriter.nodeCount c + LsfWriter.nodeListCount rest := rfl
    have hszc := nodeCount_pos c
    have hlen2 := (flatNode_len isBG3 im c base par
      (if rest.length = 0 then -1 else ((base + LsfWriter.nodeCount c : Nat) : Int)) ab).2
    have hn := (flatNode_attrs isBG3 im c base par
      (if rest.length = 0 then -1 else ((base + LsfWriter.nodeCount c : Nat) : Int)) ab).2.1
    have hr := (flatChildren_attrs isBG3 im rest (base + LsfWriter.nodeCount c) par
      (ab + LsfWriter.attrTotal c)).1
    refine ⟨?_, trivial⟩
    intro k hk
    rw [hat] at hk
    rw [flatChildren_cons]
    by_cases hkc : k < LsfWriter.attrTotal c
    · rw [LsfWriter.getD_append_lt _ _ _ _ (by rw [hlen2]; exact hkc)]
      have := hn k hkc
      rw [hcnt]
      omega
    · rw [getD_append_ge _ _ _ (by rw [hlen2]; omega), hlen2]
      have := hr (k - LsfWriter.attrTotal c) (by omega)
      rw [hcnt]
      omega
end

/-- Parent pointers across the whole flattened forest. -/
theorem flatForest_parent (isBG3 : Bool) (im : String → Nat) (rs : List LSFNode)
    (base ab : Nat) :
    ∀ j, j < LsfWriter.nodeListCount rs →
      ((((LsfWriter.flatForest isBG3 im rs base ab).1.getD j default).parentIndex = -1 ↔
        base + j ∈ childOffsets rs base) ∧
       (((LsfWriter.flatForest isBG3 im rs base ab).1.getD j default).parentIndex = -1 ∨
        ((base : Int) ≤
          ((LsfWriter.flatForest isBG3 im rs base ab).1.getD j default).parentIndex ∧
         ((LsfWriter.flatForest isBG3 im rs base ab).1.getD j default).parentIndex <
          ((base + LsfWriter.nodeListCount rs : Nat) : Int)))) := by
  induction rs generalizing base ab with
  | nil =>
    intro j hj
    rw [show LsfWriter.nodeListCount [] = 0 from rfl] at hj
    omega
  | cons r rest ih =>
    intro j hj
    have hcnt : LsfWriter.nodeListCount (r :: rest) =
        LsfWriter.nodeCount r + LsfWriter.nodeListCount rest := rfl
    have hszc := nodeCount_pos r
    rw [flatForest_cons]
    have hlen1 := (flatNode_len isBG3 im r base (-1) (-1) ab).1
    by_cases hjc : j < LsfWriter.nodeCount r
    · rw [LsfWriter.getD_append_lt _ _ _ _ (by rw [hlen1]; exact hjc)]
      have hn := flatNode_parent isBG3 im r base (-1) (-1) ab (by push_cast; omega) j hjc
      constructor
      · rw [hn.1]
        constructor
        · intro h0
          subst h0
          rw [childOffsets]
          exact List.mem_cons_self _ _
        · intro hmem
          rw [childOffsets] at hmem
          rcases List.mem_cons.mp hmem with he | ht
          · omega
          · have := childOffsets_mem_bounds rest _ _ ht
            omega
      · rcases hn.2 with h0 | ⟨h1, h2⟩
        · subst h0
          exact Or.inl ((hn.1).mpr rfl)
        · right
          rw [hcnt]
          push_cast at h1 h2 ⊢
          omega
    · rw [getD_append_ge _ _ _ (by rw [hlen1]; omega), hlen1]
      have hr := ih (base + LsfWriter.nodeCount r) (ab + LsfWriter.attrTotal r)
        (j - LsfWriter.nodeCount r) (by rw [hcnt] at hj; omega)
      have hidx : base + LsfWriter.nodeCount r + (j - LsfWriter.nodeCount r) = base + j := by
        omega
      rw [hidx] at hr
      constructor
      · rw [hr.1, childOffsets]
        constructor
        · intro ht
          exact List.mem_cons_of_mem _ ht
        · intro hmem
          rcases List.mem_cons.mp hmem with he | ht
          · omega
          · exact ht
      · rcases hr.2 with h0 | ⟨h1, h2⟩
        · exact Or.inl h0
        · right
          rw [hcnt]
          push_cast at h1 h2 ⊢
          omega

/-- Attribute owners across the whole flattened forest. -/
theorem flatForest_attrs (isBG3 : Bool) (im : String → Nat) (rs : List LSFNode)
    (base ab : Nat) :
    ∀ k, k < LsfWriter.attrListTotal rs →
      base ≤ ((LsfWriter.flatForest isBG3 im rs base ab).2.getD k default).nodeIdx ∧
      ((LsfWriter.flatForest isBG3 im rs base ab).2.getD k default).nodeIdx <
        base + LsfWriter.nodeListCount rs := by
  induction rs generalizing base ab with
  | nil =>
    intro k hk
    rw [show LsfWriter.attrListTotal [] = 0 from rfl] at hk
    omega
  | cons r rest ih =>
    intro k hk
    have hat : LsfWriter.attrListTotal (r :: rest) =
        LsfWriter.attrTotal r + LsfWriter.attrListTotal rest := rfl
    have hcnt : LsfWriter.nodeListCount (r :: rest) =
        LsfWriter.nodeCount r + LsfWriter.nodeListCount rest := rfl
    have hszc := nodeCount_pos r
    rw [hat] at hk
    rw [flatForest_cons]
    have hlen2 := (flatNode_len isBG3 im r base (-1) (-1) ab).2
    by_cases hkc : k < LsfWriter.attrTotal r
    · rw [LsfWriter.getD_append_lt _ _ _ _ (by rw [hlen2]; exact hkc)]
      have := (flatNode_attrs isBG3 im r base (-1) (-1) ab).2.1 k hkc
      rw [hcnt]
      omega
    · rw [getD_append_ge _ _ _ (by rw [hlen2]; omega), hlen2]
      have := ih (base + LsfWriter.nodeCount r) (ab + LsfWriter.attrTotal r)
        (k - LsfWriter.attrTotal r) (by omega)
      rw [hcnt]
      omega

theorem chain_from_first (strings : List (List String)) (values : List Nat) (version : Nat)
    (FA : List LsfWriter.WAttr) (A : List LSFAttributeEntry) (nf : Nat → Int)
    (isBG3 : Bool) (im : String → Nat) (ab self : Nat) (attrs : List LSFAttribute)
    (hAeq : A = (List.range FA.length).map (expectedAttrEntry FA nf))
    (hblk : ∀ m, m < attrs.length →
      FA.getD (ab + m) default =
        ⟨im (attrs.getD m default).name, (attrs.getD m default).type,
          LsfWriter.serializeAttributeValue isBG3 (attrs.getD m default).type
            (attrs.getD m default).value, self⟩)
    (hblkend : ab + attrs.length ≤ FA.length)
    (hafter : ∀ j, ab + attrs.length ≤ j → j < FA.length →
      (FA.getD j default).nodeIdx ≠ self)
    (hvalues : values = (FA.map LsfWriter.WAttr.bytes).flatten)
    (hcan : ∀ m, m < attrs.length →
      canonicalValue (attrs.getD m default).type (attrs.getD m default).value = true)
    (hresm : ∀ m, m < attrs.length →
      LSFReader.resolveName strings (im (attrs.getD m default).name) =
        (attrs.getD m default).name) :
    LSFReader.readAttrChain strings A values version (A.length + 1) []
      (if attrs.length = 0 then -1 else (ab : Int)) 0 = attrs := by
  by_cases hz : attrs.length = 0
  · rw [if_pos hz, readAttrChain_neg]
    exact (List.length_eq_zero.mp hz).symm
  · rw [if_neg hz]
    have h := chain_walk strings values version FA A nf isBG3 im ab self attrs hAeq hblk
      hblkend hafter hvalues hcan hresm attrs.length 0 rfl (by omega) A.length
      (by rw [hAeq, List.length_map, List.length_range]; omega) [] 0 (by simp)
      (fun hoz => by
        have : (expectedAttrEntry FA nf (ab + 0)).offset = vOffStart FA (ab + 0) := rfl
        omega)
    rw [show ((ab + 0 : Nat) : Int) = (ab : Int) from by norm_num] at h
    rw [h, List.drop_zero]

theorem childIdxs_eq (G : List LSFNodeEntry) (self size : Nat) (cs : List LSFNode)
    (hsz : self + size ≤ G.length)
    (hsize : LsfWriter.nodeListCount cs + 1 = size)
    (hself : (G.getD self default).parentIndex ≠ (self : Int))
    (hin : ∀ j, 1 ≤ j → j < size →
      ((G.getD (self + j) default).parentIndex = (self : Int) ↔
        self + j ∈ childOffsets cs (self + 1)))
    (hout : ∀ j, j < G.length → (j < self ∨ self + size ≤ j) →
      ¬(((self : Nat) : Int) ≤ (G.getD j default).parentIndex ∧
        (G.getD j default).parentIndex < ((self + size : Nat) : Int))) :
    (List.range G.length).filter
      (fun i => decide ((G.getD i default).parentIndex = (self : Int)) &&
        decide (i ≠ self)) = childOffsets cs (self + 1) := by
  refine List.eq_of_perm_of_sorted ?_ ((List.sorted_lt_range _).filter _)
    (childOffsets_sorted cs (self + 1))
  · apply (List.perm_ext_iff_of_nodup ((List.nodup_range _).filter _)
      (childOffsets_sorted cs (self + 1)).nodup).mpr
    intro x
    rw [List.mem_filter, List.mem_range]
    constructor
    · rintro ⟨hxr, hq⟩
      simp only [Bool.and_eq_true, decide_eq_true_eq] at hq
      obtain ⟨hp, hne⟩ := hq
      by_cases hx1 : x < self
      · exact absurd (by rw [hp]; constructor <;> (push_cast; omega)) (hout x hxr (Or.inl hx1))
      · by_cases hx2 : self + size ≤ x
        · exact absurd (by rw [hp]; constructor <;> (push_cast; omega))
            (hout x hxr (Or.inr hx2))
        · have hj1 : 1 ≤ x - self := by
            rcases Nat.lt_or_ge self x with hc | hc
            · omega
            · have : x = self := by omega
              exact absurd this hne
          have := (hin (x - self) hj1 (by omega)).mp
            (by rw [show self + (x - self) = x from by omega]; exact hp)
          rw [show self + (x - self) = x from by omega] at this
          exact this
    · intro hmem
      have hb := childOffsets_mem_bounds cs (self + 1) x hmem
      refine ⟨by omega, ?_⟩
      simp only [Bool.and_eq_true, decide_eq_true_eq]
      constructor
      · have := (hin (x - self) (by omega) (by omega)).mpr
          (by rw [show self + (x - self) = x from by omega]; exact hmem)
        rw [show self + (x - self) = x from by omega] at this
        exact this
      · omega

theorem rootIdxs_eq (isBG3 : Bool) (im : String → Nat) (rs : List LSFNode) :
    (List.range (LsfWriter.flatForest isBG3 im rs 0 0).1.length).filter
      (fun i => decide (((LsfWriter.flatForest isBG3 im rs 0 0).1.getD i
        default).parentIndex = (-1 : Int))) = childOffsets rs 0 := by
  have hlen := (flatForest_len isBG3 im rs 0 0).1
  refine List.eq_of_perm_of_sorted ?_ ((List.sorted_lt_range _).filter _)
    (childOffsets_sorted rs 0)
  · apply (List.perm_ext_iff_of_nodup ((List.nodup_range _).filter _)
      (childOffsets_sorted rs 0).nodup).mpr
    intro x
    rw [List.mem_filter, List.mem_range]
    constructor
    · rintro ⟨hxr, hq⟩
      simp only [decide_eq_true_eq] at hq
      have := (flatForest_parent isBG3 im rs 0 0 x (by omega)).1.mp hq
      simpa using this
    · intro hmem
      have hb := childOffsets_mem_bounds rs 0 x hmem
      refine ⟨by omega, ?_⟩
      simp only [decide_eq_true_eq]
      exact (flatForest_parent isBG3 im rs 0 0 x (by omega)).1.mpr (by simpa using hmem)

theorem getD_middle {α : Type} [Inhabited α] (pre mid post : List α) (i j : Nat)
    (hi : i = pre.length + j) (hj : j < mid.length) :
    (pre ++ mid ++ post).getD i default = mid.getD j default := by
  subst hi
  rw [List.append_assoc, getD_append_ge pre (mid ++ post) _ (by omega),
    show pre.length + j - pre.length = j from by omega]
  exact LsfWriter.getD_append_lt mid post j default hj

theorem getD_mem {α : Type} [Inhabited α] (l : List α) (m : Nat) (hm : m < l.length) :
    l.getD m default ∈ l := by
  rw [List.getD_eq_getElem?_getD, List.getElem?_eq_getElem hm]
  exact List.getElem_mem hm

theorem all_getD {α : Type} [Inhabited α] (l : List α) (p : α → Bool) (h : l.all p = true)
    (m : Nat) (hm : m < l.length) : p (l.getD m default) = true := by
  rw [List.getD_eq_getElem?_getD, List.getElem?_eq_getElem hm]
  exact List.all_eq_true.mp h _ (List.getElem_mem hm)

mutual
/-- `buildNodeRecursive` rebuilds exactly the subtree the writer
flattened: with the subtree's node and attribute blocks embedded at
matching positions of the global tables, the reader reconstructs the
node verbatim. -/
theorem buildNode_flat (strings : List (List String)) (values : List Nat) (version : Nat)
    (G : List LSFNodeEntry) (A : List LSFAttributeEntry) (FA : List LsfWriter.WAttr)
    (nf : Nat → Int) (isBG3 : Bool) (im : String → Nat)
    (t : LSFNode) (self : Nat) (par ns : Int) (ab : Nat)
    (pre post : List LSFNodeEntry) (preA postA : List LsfWriter.WAttr)
    (hG : G = pre ++ (LsfWriter.flatNode isBG3 im t self par ns ab).1 ++ post)
    (hpre : pre.length = self)
    (hFA : FA = preA ++ (LsfWriter.flatNode isBG3 im t self par ns ab).2 ++ postA)
    (hpreA : preA.length = ab)
    (hpar : par < (self : Int))
    (hAeq : A = (List.range FA.length).map (expectedAttrEntry FA nf))
    (hvalues : values = (FA.map LsfWriter.WAttr.bytes).flatten)
    (hout : ∀ j, j < G.length → (j < self ∨ self + LsfWriter.nodeCount t ≤ j) →
      ¬(((self : Nat) : Int) ≤ (G.getD j default).parentIndex ∧
        (G.getD j default).parentIndex < ((self + LsfWriter.nodeCount t : Nat) : Int)))
    (houtA : ∀ k, k < FA.length → (k < ab ∨ ab + LsfWriter.attrTotal t ≤ k) →
      ¬(self ≤ (FA.getD k default).nodeIdx ∧
        (FA.getD k default).nodeIdx < self + LsfWriter.nodeCount t))
    (hcan : canonicalNode t = true)
    (hres : ∀ s ∈ LsfWriter.collectStrings t, LSFReader.resolveName strings (im s) = s)
    (fuel : Nat) (hfuel : heightN t ≤ fuel) :
    LSFReader.buildNode strings G A values version fuel self = Except.ok t := by
  cases t with
  | mk name attrs cs key =>
    have hh : heightN (.mk name attrs cs key) = 1 + heightList cs := rfl
    have hcan2 : (key.isNone && (attrs.all fun a => canonicalValue a.type a.value) &&
        decide (attrs.map LSFAttribute.name).Nodup && canonicalForest cs) = true := hcan
    simp only [Bool.and_eq_true] at hcan2
    obtain ⟨⟨⟨hkey, hvals⟩, hnodup⟩, hforest⟩ := hcan2
    have hkey2 : key = none := Option.isNone_iff_eq_none.mp hkey
    subst hkey2
    cases fuel with
    | zero => rw [hh] at hfuel; omega
    | succ f =>
    have hnc : LsfWriter.nodeCount (.mk name attrs cs none) =
        1 + LsfWriter.nodeListCount cs := rfl
    have hat : LsfWriter.attrTotal (.mk name attrs cs none) =
        attrs.length + LsfWriter.attrListTotal cs := rfl
    rw [flatNode_eq] at hG hFA
    dsimp only at hG hFA
    rw [hnc] at hout
    rw [hnc, hat] at houtA
    set E0 : LSFNodeEntry := ⟨im name, par, ns, if attrs.length = 0 then -1 else (ab : Int)⟩
      with hE0
    set CH1 := (LsfWriter.flatChildren isBG3 im cs (self + 1) (self : Int)
      (ab + attrs.length)).1 with hCH1
    set CH2 := (LsfWriter.flatChildren isBG3 im cs (self + 1) (self : Int)
      (ab + attrs.length)).2 with hCH2
    set WA := attrs.map (fun a => (⟨im a.name, a.type,
      LsfWriter.serializeAttributeValue isBG3 a.type a.value, self⟩ : LsfWriter.WAttr))
      with hWA
    have hcl1 : CH1.length = LsfWriter.nodeListCount cs :=
      (flatChildren_len isBG3 im cs (self + 1) (self : Int) (ab + attrs.length)).1
    have hcl2 : CH2.length = LsfWriter.attrListTotal cs :=
      (flatChildren_len isBG3 im cs (self + 1) (self : Int) (ab + attrs.length)).2
    have hWAlen : WA.length = attrs.length := by
      rw [hWA]; exact List.length_map _ _
    have hGlen : G.length = self + (1 + LsfWriter.nodeListCount cs) + post.length := by
      rw [hG]
      simp only [List.length_append, List.length_cons, hcl1, hpre]
      omega
    have hFAlen : FA.length =
        ab + (attrs.length + LsfWriter.attrListTotal cs) + postA.length := by
      rw [hFA]
      simp only [List.length_append, hWAlen, hcl2]
      omega
    have he : G.getD self default = E0 := by
      rw [hG, getD_middle pre (E0 :: CH1) post self 0 (by omega) (by simp),
        List.getD_cons_zero]
    have hgFA : ∀ k, k < attrs.length + LsfWriter.attrListTotal cs →
        FA.getD (ab + k) default = (WA ++ CH2).getD k default := by
      intro k hk
      rw [hFA]
      exact getD_middle preA (WA ++ CH2) postA (ab + k) k (by omega)
        (by simp only [List.length_append, hWAlen, hcl2]; omega)
    have hattr1 : ∀ k, k < attrs.length →
        (WA ++ CH2).getD k default =
          ⟨im (attrs.getD k default).name, (attrs.getD k default).type,
            LsfWriter.serializeAttributeValue isBG3 (attrs.getD k default).type
              (attrs.getD k default).value, self⟩ :=
      (flatNode_attrs isBG3 im (.mk name attrs cs none) self par ns ab).1
    have hattr3 : ∀ k, k < attrs.length + LsfWriter.attrListTotal cs →
        (((WA ++ CH2).getD k default).nodeIdx = self ↔ k < attrs.length) :=
      (flatNode_attrs isBG3 im (.mk name attrs cs none) self par ns ab).2.2
    have hname : LSFReader.resolveName strings (im name) = name :=
      hres name (show name ∈ name :: (attrs.map LSFAttribute.name ++
        LsfWriter.collectStringsList cs) from List.mem_cons_self _ _)
    have hchain : LSFReader.readAttrChain strings A values version (A.length + 1) []
        (if attrs.length = 0 then -1 else (ab : Int)) 0 = attrs := by
      apply chain_from_first strings values version FA A nf isBG3 im ab self attrs hAeq
      · intro m hm
        rw [hgFA m (by omega)]
        exact hattr1 m hm
      · omega
      · intro j hj1 hj2
        by_cases hjb : j < ab + (attrs.length + LsfWriter.attrListTotal cs)
        · rw [show j = ab + (j - ab) from by omega, hgFA (j - ab) (by omega)]
          intro hcontra
          have := (hattr3 (j - ab) (by omega)).mp hcontra
          omega
        · intro hcontra
          exact houtA j hj2 (Or.inr (by omega)) ⟨by rw [hcontra], by rw [hcontra]; omega⟩
      · exact hvalues
      · intro m hm
        exact all_getD attrs _ hvals m hm
      · intro m hm
        exact hres (attrs.getD m default).name
          (show (attrs.getD m default).name ∈ name :: (attrs.map LSFAttribute.name ++
              LsfWriter.collectStringsList cs) from
            List.mem_cons_of_mem _ (List.mem_append_left _
              (List.mem_map.mpr ⟨attrs.getD m default, getD_mem attrs m hm, rfl⟩)))
    have hself2 : (G.getD self default).parentIndex ≠ ((self : Nat) : Int) := by
      rw [he, hE0]
      dsimp only
      omega
    have hchild : (List.range G.length).filter
        (fun i => decide ((G.getD i default).parentIndex = ((self : Nat) : Int)) &&
          decide (i ≠ self)) = childOffsets cs (self + 1) := by
      apply childIdxs_eq G self (1 + LsfWriter.nodeListCount cs) cs (by omega) (by omega)
        hself2
      · intro j hj1 hj2
        cases j with
        | zero => omega
        | succ jp =>
          have hg : G.getD (self + (jp + 1)) default = CH1.getD jp default := by
            rw [hG, getD_middle pre (E0 :: CH1) post (self + (jp + 1)) (jp + 1) (by omega)
              (by simp only [List.length_cons, hcl1]; omega), List.getD_cons_succ]
          have hcp : ((CH1.getD jp default).parentIndex = ((self : Nat) : Int) ↔
              self + 1 + jp ∈ childOffsets cs (self + 1)) :=
            (flatChildren_parent isBG3 im cs (self + 1) (self : Int) (ab + attrs.length)
              (by push_cast; omega) jp (by omega)).1
          rw [hg, show self + (jp + 1) = self + 1 + jp from by omega]
          exact hcp
      · exact hout
    have hmap : (childOffsets cs (self + 1)).mapM
        (fun i => LSFReader.buildNode strings G A values version f i) = Except.ok cs := by
      refine buildChildren_flat strings values version G A FA nf isBG3 im cs (self + 1)
        (self : Int) (ab + attrs.length) (pre ++ [E0]) post (preA ++ WA) postA
        ?_ ?_ ?_ ?_ (by push_cast; omega) hAeq hvalues ?_ ?_ hforest ?_ f ?_
      · rw [hG]
        show pre ++ (E0 :: CH1) ++ post = (pre ++ [E0]) ++ CH1 ++ post
        simp only [List.append_assoc, List.singleton_append, List.cons_append,
          List.nil_append]
      · simp only [List.length_append, List.length_cons, List.length_nil, hpre]
      · rw [hFA]
        show preA ++ (WA ++ CH2) ++ postA = (preA ++ WA) ++ CH2 ++ postA
        simp only [List.append_assoc]
      · simp only [List.length_append, hWAlen, hpreA]
      · intro j hj hcases
        rintro ⟨h1, h2⟩
        rcases hcases with hlt | hge
        · by_cases hjs : j < self
          · exact hout j hj (Or.inl hjs) ⟨by push_cast at h1 ⊢; omega,
              by push_cast at h2 ⊢; omega⟩
          · have hj0 : j = self := by omega
            subst hj0
            rw [he, hE0] at h1
            dsimp only at h1
            push_cast at h1
            omega
        · exact hout j hj (Or.inr (by omega)) ⟨by push_cast at h1 ⊢; omega,
            by push_cast at h2 ⊢; omega⟩
      · intro k hk hcases
        rintro ⟨h1, h2⟩
        rcases hcases with hlt | hge
        · by_cases hkb : k < ab
          · exact houtA k hk (Or.inl hkb) ⟨by omega, by omega⟩
          · have hni : (FA.getD k default).nodeIdx = self := by
              rw [show k = ab + (k - ab) from by omega, hgFA (k - ab) (by omega),
                hattr1 (k - ab) (by omega)]
            omega
        · exact houtA k hk (Or.inr (by omega)) ⟨by omega, by omega⟩
      · intro s hs
        exact hres s (show s ∈ name :: (attrs.map LSFAttribute.name ++
            LsfWriter.collectStringsList cs) from
          List.mem_cons_of_mem _ (List.mem_append_right _ hs))
      · rw [hh] at hfuel
        omega
    rw [LSFReader.buildNode]
    rw [he, hE0]
    dsimp only
    rw [hname, hchain, hchild, hmap]
/-- The child-collection loop of `buildNodeRecursive` over the writer's
flattened child blocks. -/
theorem buildChildren_flat (strings : List (List String)) (values : List Nat) (version : Nat)
    (G : List LSFNodeEntry) (A : List LSFAttributeEntry) (FA : List LsfWriter.WAttr)
    (nf : Nat → Int) (isBG3 : Bool) (im : String → Nat)
    (cs : List LSFNode) (b : Nat) (par : Int) (abc : Nat)
    (pre post : List LSFNodeEntry) (preA postA : List LsfWriter.WAttr)
    (hG : G = pre ++ (LsfWriter.flatChildren isBG3 im cs b par abc).1 ++ post)
    (hpre : pre.length = b)
    (hFA : FA = preA ++ (LsfWriter.flatChildren isBG3 im cs b par abc).2 ++ postA)
    (hpreA : preA.length = abc)
    (hpar : par < (b : Int))
    (hAeq : A = (List.range FA.length).map (expectedAttrEntry FA nf))
    (hvalues : values = (FA.map LsfWriter.WAttr.bytes).flatten)
    (hout : ∀ j, j < G.length → (j < b ∨ b + LsfWriter.nodeListCount cs ≤ j) →
      ¬(((b : Nat) : Int) ≤ (G.getD j default).parentIndex ∧
        (G.getD j default).parentIndex < ((b + LsfWriter.nodeListCount cs : Nat) : Int)))
    (houtA : ∀ k, k < FA.length → (k < abc ∨ abc + LsfWriter.attrListTotal cs ≤ k) →
      ¬(b ≤ (FA.getD k default).nodeIdx ∧
        (FA.getD k default).nodeIdx < b + LsfWriter.nodeListCount cs))
    (hcan : canonicalForest cs = true)
    (hres : ∀ s ∈ LsfWriter.collectStringsList cs, LSFReader.resolveName strings (im s) = s)
    (fuel : Nat) (hfuel : heightList cs ≤ fuel) :
    (childOffsets cs b).mapM
      (fun i => LSFReader.buildNode strings G A values version fuel i) = Except.ok cs := by
  cases cs with
  | nil => rfl
  | cons c rest =>
    have hszc := nodeCount_pos c
    have hcnt : LsfWriter.nodeListCount (c :: rest) =
        LsfWriter.nodeCount c + LsfWriter.nodeListCount rest := rfl
    have hatl : LsfWriter.attrListTotal (c :: rest) =
        LsfWriter.attrTotal c + LsfWriter.attrListTotal rest := rfl
    have hht : heightList (c :: rest) = max (heightN c) (heightList rest) := rfl
    have hcan2 : (canonicalNode c && canonicalForest rest) = true := hcan
    simp only [Bool.and_eq_true] at hcan2
    rw [flatChildren_cons] at hG hFA
    dsimp only at hG hFA
    rw [hcnt] at hout
    rw [hcnt, hatl] at houtA
    set ns1 : Int := if rest.length = 0 then -1 else ((b + LsfWriter.nodeCount c : Nat) : Int)
      with hns1
    set B1 := (LsfWriter.flatNode isBG3 im c b par ns1 abc).1 with hB1
    set B2 := (LsfWriter.flatNode isBG3 im c b par ns1 abc).2 with hB2
    set R1 := (LsfWriter.flatChildren isBG3 im rest (b + LsfWriter.nodeCount c) par
      (abc + LsfWriter.attrTotal c)).1 with hR1
    set R2 := (LsfWriter.flatChildren isBG3 im rest (b + LsfWriter.nodeCount c) par
      (abc + LsfWriter.attrTotal c)).2 with hR2
    have hl1 : B1.length = LsfWriter.nodeCount c :=
      (flatNode_len isBG3 im c b par ns1 abc).1
    have hl2 : B2.length = LsfWriter.attrTotal c :=
      (flatNode_len isBG3 im c b par ns1 abc).2
    have hrl1 : R1.length = LsfWriter.nodeListCount rest :=
      (flatChildren_len isBG3 im rest (b + LsfWriter.nodeCount c) par
        (abc + LsfWriter.attrTotal c)).1
    have hrl2 : R2.length = LsfWriter.attrListTotal rest :=
      (flatChildren_len isBG3 im rest (b + LsfWriter.nodeCount c) par
        (abc + LsfWriter.attrTotal c)).2
    have hGa : G = pre ++ B1 ++ (R1 ++ post) := by
      rw [hG]
      simp only [List.append_assoc]
    have hGb : G = (pre ++ B1) ++ R1 ++ post := by
      rw [hG]
      simp only [List.append_assoc]
    have hFAa : FA = preA ++ B2 ++ (R2 ++ postA) := by
      rw [hFA]
      simp only [List.append_assoc]
    have hFAb : FA = (preA ++ B2) ++ R2 ++ postA := by
      rw [hFA]
      simp only [List.append_assoc]
    have hGlen : G.length = b + (LsfWriter.nodeCount c + LsfWriter.nodeListCount rest)
        + post.length := by
      rw [hGa]
      simp only [List.length_append, hl1, hrl1, hpre]
      omega
    have hFAlen : FA.length = abc + (LsfWriter.attrTotal c + LsfWriter.attrListTotal rest)
        + postA.length := by
      rw [hFAa]
      simp only [List.length_append, hl2, hrl2, hpreA]
      omega
    have hgHead : ∀ j, j < LsfWriter.nodeCount c →
        G.getD (b + j) default = B1.getD j default := by
      intro j hj
      rw [hGa]
      exact getD_middle pre B1 (R1 ++ post) (b + j) j (by omega) (by rw [hl1]; exact hj)
    have hgRest : ∀ j, j < LsfWriter.nodeListCount rest →
        G.getD (b + LsfWriter.nodeCount c + j) default = R1.getD j default := by
      intro j hj
      rw [hGb]
      exact getD_middle (pre ++ B1) R1 post _ j
        (by simp only [List.length_append, hl1]; omega) (by rw [hrl1]; exact hj)
    have hfHead : ∀ k, k < LsfWriter.attrTotal c →
        FA.getD (abc + k) default = B2.getD k default := by
      intro k hk
      rw [hFAa]
      exact getD_middle preA B2 (R2 ++ postA) (abc + k) k (by omega) (by rw [hl2]; exact hk)
    have hfRest : ∀ k, k < LsfWriter.attrListTotal rest →
        FA.getD (abc + LsfWriter.attrTotal c + k) default = R2.getD k default := by
      intro k hk
      rw [hFAb]
      exact getD_middle (preA ++ B2) R2 postA _ k
        (by simp only [List.length_append, hl2]; omega) (by rw [hrl2]; exact hk)
    have hhead : LSFReader.buildNode strings G A values version fuel b = Except.ok c := by
      refine buildNode_flat strings values version G A FA nf isBG3 im c b par ns1 abc
        pre (R1 ++ post) preA (R2 ++ postA) hGa hpre hFAa hpreA hpar hAeq hvalues
        ?_ ?_ hcan2.1 ?_ fuel ?_
      · intro j hj hcases
        rintro ⟨h1, h2⟩
        rcases hcases with hlt | hge
        · exact hout j hj (Or.inl hlt) ⟨h1, by push_cast at h2 ⊢; omega⟩
        · by_cases hjr : j < b + (LsfWriter.nodeCount c + LsfWriter.nodeListCount rest)
          · have hjd : j - (b + LsfWriter.nodeCount c) < LsfWriter.nodeListCount rest := by
              omega
            have hgj : G.getD j default =
                R1.getD (j - (b + LsfWriter.nodeCount c)) default := by
              have hx := hgRest (j - (b + LsfWriter.nodeCount c)) hjd
              rw [show b + LsfWriter.nodeCount c + (j - (b + LsfWriter.nodeCount c)) = j
                from by omega] at hx
              exact hx
            rw [hgj] at h1 h2
            have hcp := (flatChildren_parent isBG3 im rest (b + LsfWriter.nodeCount c) par
              (abc + LsfWriter.attrTotal c) (by push_cast at hpar ⊢; omega) _ hjd).2
            rw [← hR1] at hcp
            rcases hcp with hp | ⟨hp1, hp2⟩
            · rw [hp] at h1
              push_cast at h1 hpar
              omega
            · push_cast at hp1 h2
              omega
          · exact hout j hj (Or.inr (by omega)) ⟨h1, by push_cast at h2 ⊢; omega⟩
      · intro k hk hcases
        rintro ⟨h1, h2⟩
        rcases hcases with hlt | hge
        · exact houtA k hk (Or.inl hlt) ⟨h1, by omega⟩
        · by_cases hkr : k < abc + (LsfWriter.attrTotal c + LsfWriter.attrListTotal rest)
          · have hkd : k - (abc + LsfWriter.attrTotal c) < LsfWriter.attrListTotal rest := by
              omega
            have hfj : FA.getD k default =
                R2.getD (k - (abc + LsfWriter.attrTotal c)) default := by
              have hx := hfRest (k - (abc + LsfWriter.attrTotal c)) hkd
              rw [show abc + LsfWriter.attrTotal c + (k - (abc + LsfWriter.attrTotal c)) = k
                from by omega] at hx
              exact hx
            rw [hfj] at h1 h2
            have hca := (flatChildren_attrs isBG3 im rest (b + LsfWriter.nodeCount c) par
              (abc + LsfWriter.attrTotal c)).1 _ hkd
            rw [← hR2] at hca
            omega
          · exact houtA k hk (Or.inr (by omega)) ⟨h1, by omega⟩
      · intro s hs
        exact hres s (show s ∈ LsfWriter.collectStrings c ++
            LsfWriter.collectStringsList rest from List.mem_append_left _ hs)
      · rw [hht] at hfuel
        exact le_trans (le_max_left _ _) hfuel
    have htail : (childOffsets rest (b + LsfWriter.nodeCount c)).mapM
        (fun i => LSFReader.buildNode strings G A values version fuel i) =
          Except.ok rest := by
      refine buildChildren_flat strings values version G A FA nf isBG3 im rest
        (b + LsfWriter.nodeCount c) par (abc + LsfWriter.attrTotal c)
        (pre ++ B1) post (preA ++ B2) postA hGb ?_ hFAb ?_
        (by push_cast at hpar ⊢; omega) hAeq hvalues ?_ ?_ hcan2.2 ?_ fuel ?_
      · simp only [List.length_append, hl1, hpre]
      · simp only [List.length_append, hl2, hpreA]
      · intro j hj hcases
        rintro ⟨h1, h2⟩
        rcases hcases with hlt | hge
        · by_cases hjb : j < b
          · exact hout j hj (Or.inl hjb) ⟨by push_cast at h1 ⊢; omega,
              by push_cast at h2 ⊢; omega⟩
          · have hjd : j - b < LsfWriter.nodeCount c := by omega
            have hgj : G.getD j default = B1.getD (j - b) default := by
              have hx := hgHead (j - b) hjd
              rw [show b + (j - b) = j from by omega] at hx
              exact hx
            rw [hgj] at h1 h2
            have hnp := (flatNode_parent isBG3 im c b par ns1 abc hpar _ hjd).2
            rw [← hB1] at hnp
            rcases hnp with hj0 | ⟨hp1, hp2⟩
            · have hpp := ((flatNode_parent isBG3 im c b par ns1 abc hpar _ hjd).1).mpr hj0
              rw [← hB1] at hpp
              rw [hpp] at h1
              push_cast at h1 hpar
              omega
            · push_cast at hp2 h1
              omega
        · exact hout j hj (Or.inr (by omega)) ⟨by push_cast at h1 ⊢; omega,
            by push_cast at h2 ⊢; omega⟩
      · intro k hk hcases
        rintro ⟨h1, h2⟩
        rcases hcases with hlt | hge
        · by_cases hkb : k < abc
          · exact houtA k hk (Or.inl hkb) ⟨by omega, by omega⟩
          · have hkd : k - abc < LsfWriter.attrTotal c := by omega
            have hfj : FA.getD k default = B2.getD (k - abc) default := by
              have hx := hfHead (k - abc) hkd
              rw [show abc + (k - abc) = k from by omega] at hx
              exact hx
            rw [hfj] at h1 h2
            have hna := (flatNode_attrs isBG3 im c b par ns1 abc).2.1 _ hkd
            rw [← hB2] at hna
            omega
        · exact houtA k hk (Or.inr (by omega)) ⟨by omega, by omega⟩
      · intro s hs
        exact hres s (show s ∈ LsfWriter.collectStrings c ++
            LsfWriter.collectStringsList rest from List.mem_append_right _ hs)
      · rw [hht] at hfuel
        exact le_trans (le_max_right _ _) hfuel
    rw [show childOffsets (c :: rest) b = b :: childOffsets rest (b + LsfWriter.nodeCount c)
      from rfl]
    simp only [List.mapM_cons, hhead, htail]
    rfl
end

theorem canonicalValue_type_lt (ty : Nat) (v : JSValue) (h : canonicalValue ty v = true) :
    ty < 64 := by
  unfold canonicalValue at h
  split_ifs at h <;> omega

theorem im_lt (strs : List String) (hcnt : strs.length < 65536) (s : String)
    (hs : s ∈ strs) :
    (LsfWriter.lookupIM (LsfWriter.buildStringTableState strs).indexMap s).getD 0 <
      4294967296 := by
  obtain ⟨hinv, hmap, hall⟩ := LsfWriter.buildStringTableState_spec strs
  obtain ⟨i, hlook, hchain, hilt⟩ := hall s hs
  rw [hlook, Option.getD_some, lorSplit _ _ (by omega)]
  have hb : LsfWriter.bucketOf s < 512 := LsfWriter.hashToBucket_lt _
  omega

theorem childOffsets_length (cs : List LSFNode) (b : Nat) :
    (childOffsets cs b).length = cs.length := by
  induction cs generalizing b with
  | nil => rfl
  | cons c rest ih =>
    rw [childOffsets, List.length_cons, List.length_cons, ih]

mutual
/-- Size bounds on the entries of one flattened subtree block. -/
theorem flatNode_bounds (isBG3 : Bool) (im : String → Nat) (t : LSFNode) (self : Nat)
    (par ns : Int) (ab : Nat) (NN MM : Nat)
    (him : ∀ s ∈ LsfWriter.collectStrings t, im s < 4294967296)
    (hcan : canonicalNode t = true)
    (hself : self + LsfWriter.nodeCount t ≤ NN) (hNN : NN < 2147483648)
    (hab : ab + LsfWriter.attrTotal t ≤ MM) (hMM : MM < 2147483648)
    (hpar1 : -1 ≤ par) (hpar2 : par < (NN : Int))
    (hns1 : -1 ≤ ns) (hns2 : ns < (NN : Int)) :
    (∀ e ∈ (LsfWriter.flatNode isBG3 im t self par ns ab).1, nodeEntryBounds e) ∧
    (∀ a ∈ (LsfWriter.flatNode isBG3 im t self par ns ab).2,
      a.nameIndex < 4294967296 ∧ a.type < 64 ∧ a.nodeIdx < 2147483648) := by
  cases t with
  | mk name attrs cs key =>
    have hcan2 : (key.isNone && (attrs.all fun a => canonicalValue a.type a.value) &&
        decide (attrs.map LSFAttribute.name).Nodup && canonicalForest cs) = true := hcan
    simp only [Bool.and_eq_true] at hcan2
    obtain ⟨⟨⟨hkey, hvals⟩, hnodup⟩, hforest⟩ := hcan2
    have hnc : LsfWriter.nodeCount (.mk name attrs cs key) =
        1 + LsfWriter.nodeListCount cs := rfl
    have hat : LsfWriter.attrTotal (.mk name attrs cs key) =
        attrs.length + LsfWriter.attrListTotal cs := rfl
    rw [hnc] at hself
    rw [hat] at hab
    have hch := flatChildren_bounds isBG3 im cs (self + 1) (self : Int)
      (ab + attrs.length) NN MM
      (fun s hs => him s (show s ∈ name :: (attrs.map LSFAttribute.name ++
          LsfWriter.collectStringsList cs) from
        List.mem_cons_of_mem _ (List.mem_append_right _ hs)))
      hforest (by omega) hNN (by omega) hMM (by push_cast; omega) (by push_cast; omega)
    rw [flatNode_eq]
    constructor
    · intro e he
      rcases List.mem_cons.mp he with he0 | hech
      · subst he0
        show im name < 4294967296 ∧ -2147483648 ≤ par ∧ par < 2147483648 ∧
          -2147483648 ≤ ns ∧ ns < 2147483648 ∧
          -2147483648 ≤ (if attrs.length = 0 then -1 else (ab : Int)) ∧
          (if attrs.length = 0 then -1 else (ab : Int)) < 2147483648
        refine ⟨him name (show name ∈ name :: (attrs.map LSFAttribute.name ++
            LsfWriter.collectStringsList cs) from List.mem_cons_self _ _),
          by omega, by omega, by omega, by omega, ?_, ?_⟩
        · split <;> omega
        · split <;> [omega; (push_cast; omega)]
      · exact hch.1 e hech
    · intro a ha
      rcases List.mem_append.mp ha with haw | hach
      · obtain ⟨attr, hattr, rfl⟩ := List.mem_map.mp haw
        refine ⟨him attr.name (show attr.name ∈ name :: (attrs.map LSFAttribute.name ++
            LsfWriter.collectStringsList cs) from
          List.mem_cons_of_mem _ (List.mem_append_left _
            (List.mem_map_of_mem _ hattr))), ?_, by show self < 2147483648; omega⟩
        exact canonicalValue_type_lt _ _ (List.all_eq_true.mp hvals attr hattr)
      · exact hch.2 a hach
/-- Size bounds on the entries of a flattened child list. -/
theorem flatChildren_bounds (isBG3 : Bool) (im : String → Nat) (cs : List LSFNode)
    (base : Nat) (par : Int) (ab : Nat) (NN MM : Nat)
    (him : ∀ s ∈ LsfWriter.collectStringsList cs, im s < 4294967296)
    (hcan : canonicalForest cs = true)
    (hbase : base + LsfWriter.nodeListCount cs ≤ NN) (hNN : NN < 2147483648)
    (hab : ab + LsfWriter.attrListTotal cs ≤ MM) (hMM : MM < 2147483648)
    (hpar1 : -1 ≤ par) (hpar2 : par < (NN : Int)) :
    (∀ e ∈ (LsfWriter.flatChildren isBG3 im cs base par ab).1, nodeEntryBounds e) ∧
    (∀ a ∈ (LsfWriter.flatChildren isBG3 im cs base par ab).2,
      a.nameIndex < 4294967296 ∧ a.type < 64 ∧ a.nodeIdx < 2147483648) := by
  cases cs with
  | nil =>
    constructor
    · intro e he
      rw [show (LsfWriter.flatChildren isBG3 im [] base par ab).1 = [] from rfl] at he
      exact absurd he (List.not_mem_nil e)
    · intro a ha
      rw [show (LsfWriter.flatChildren isBG3 im [] base par ab).2 = [] from rfl] at ha
      exact absurd ha (List.not_mem_nil a)
  | cons c rest =>
    have hcan2 : (canonicalNode c && canonicalForest rest) = true := hcan
    simp only [Bool.and_eq_true] at hcan2
    have hcnt : LsfWriter.nodeListCount (c :: rest) =
        LsfWriter.nodeCount c + LsfWriter.nodeListCount rest := rfl
    have hatl : LsfWriter.attrListTotal (c :: rest) =
        LsfWriter.attrTotal c + LsfWriter.attrListTotal rest := rfl
    rw [hcnt] at hbase
    rw [hatl] at hab
    have hszc := nodeCount_pos c
    have hnsb : -1 ≤ (if rest.length = 0 then -1
        else ((base + LsfWriter.nodeCount c : Nat) : Int)) ∧
        (if rest.length = 0 then -1
          else ((base + LsfWriter.nodeCount c : Nat) : Int)) < (NN : Int) := by
      split
      · constructor
        · omega
        · have : (0 : Int) ≤ (NN : Int) := by positivity
          omega
      · rename_i hrne
        cases rest with
        | nil => exact absurd rfl hrne
        | cons r2 rest2 =>
          have : 1 ≤ LsfWriter.nodeListCount (r2 :: rest2) := by
            have := nodeCount_pos r2
            show 1 ≤ LsfWriter.nodeCount r2 + LsfWriter.nodeListCount rest2
            omega
          constructor
          · push_cast; omega
          · push_cast; omega
    have hn := flatNode_bounds isBG3 im c base par
      (if rest.length = 0 then -1 else ((base + LsfWriter.nodeCount c : Nat) : Int)) ab NN MM
      (fun s hs => him s (show s ∈ LsfWriter.collectStrings c ++
          LsfWriter.collectStringsList rest from List.mem_append_left _ hs))
      hcan2.1 (by omega) hNN (by omega) hMM hpar1 hpar2 hnsb.1 hnsb.2
    have hr := flatChildren_bounds isBG3 im rest (base + LsfWriter.nodeCount c) par
      (ab + LsfWriter.attrTotal c) NN MM
      (fun s hs => him s (show s ∈ LsfWriter.collectStrings c ++
          LsfWriter.collectStringsList rest from List.mem_append_right _ hs))
      hcan2.2 (by omega) hNN (by omega) hMM hpar1 hpar2
    rw [flatChildren_cons]
    constructor
    · intro e he
      rcases List.mem_append.mp he with h1 | h2
      · exact hn.1 e h1
      · exact hr.1 e h2
    · intro a ha
      rcases List.mem_append.mp ha with h1 | h2
      · exact hn.2 a h1
      · exact hr.2 a h2
end

/-- Size bounds across the whole flattened forest. -/
theorem flatForest_bounds (isBG3 : Bool) (im : String → Nat) (rs : List LSFNode)
    (base ab : Nat) (NN MM : Nat)
    (him : ∀ s ∈ LsfWriter.collectStringsList rs, im s < 4294967296)
    (hcan : canonicalForest rs = true)
    (hbase : base + LsfWriter.nodeListCount rs ≤ NN) (hNN : NN < 2147483648)
    (hab : ab + LsfWriter.attrListTotal rs ≤ MM) (hMM : MM < 2147483648) :
    (∀ e ∈ (LsfWriter.flatForest isBG3 im rs base ab).1, nodeEntryBounds e) ∧
    (∀ a ∈ (LsfWriter.flatForest isBG3 im rs base ab).2,
      a.nameIndex < 4294967296 ∧ a.type < 64 ∧ a.nodeIdx < 2147483648) := by
  induction rs generalizing base ab with
  | nil =>
    constructor
    · intro e he
      rw [show (LsfWriter.flatForest isBG3 im [] base ab).1 = [] from rfl] at he
      exact absurd he (List.not_mem_nil e)
    · intro a ha
      rw [show (LsfWriter.flatForest isBG3 im [] base ab).2 = [] from rfl] at ha
      exact absurd ha (List.not_mem_nil a)
  | cons r rest ih =>
    have hcan2 : (canonicalNode r && canonicalForest rest) = true := hcan
    simp only [Bool.and_eq_true] at hcan2
    have hcnt : LsfWriter.nodeListCount (r :: rest) =
        LsfWriter.nodeCount r + LsfWriter.nodeListCount rest := rfl
    have hatl : LsfWriter.attrListTotal (r :: rest) =
        LsfWriter.attrTotal r + LsfWriter.attrListTotal rest := rfl
    rw [hcnt] at hbase
    rw [hatl] at hab
    have hn := flatNode_bounds isBG3 im r base (-1) (-1) ab NN MM
      (fun s hs => him s (show s ∈ LsfWriter.collectStrings r ++
          LsfWriter.collectStringsList rest from List.mem_append_left _ hs))
      hcan2.1 (by omega) hNN (by omega) hMM (by omega) (by push_cast; omega)
      (by omega) (by push_cast; omega)
    have hr := ih (base + LsfWriter.nodeCount r) (ab + LsfWriter.attrTotal r)
      (fun s hs => him s (show s ∈ LsfWriter.collectStrings r ++
        LsfWriter.collectStringsList rest from List.mem_append_right _ hs))
      hcan2.2 (by omega) (by omega)
    rw [flatForest_cons]
    constructor
    · intro e he
      rcases List.mem_append.mp he with h1 | h2
      · exact hn.1 e h1
      · exact hr.1 e h2
    · intro a ha
      rcases List.mem_append.mp ha with h1 | h2
      · exact hn.2 a h1
      · exact hr.2 a h2

/-- The root-collection loop of `reconstructTree` over the writer's
flattened region blocks. -/
theorem buildForest_flat (strings : List (List String)) (values : List Nat) (version : Nat)
    (G : List LSFNodeEntry) (A : List LSFAttributeEntry) (FA : List LsfWriter.WAttr)
    (nf : Nat → Int) (isBG3 : Bool) (im : String → Nat)
    (rs : List LSFNode) (b : Nat) (abf : Nat)
    (pre post : List LSFNodeEntry) (preA postA : List LsfWriter.WAttr)
    (hG : G = pre ++ (LsfWriter.flatForest isBG3 im rs b abf).1 ++ post)
    (hpre : pre.length = b)
    (hFA : FA = preA ++ (LsfWriter.flatForest isBG3 im rs b abf).2 ++ postA)
    (hpreA : preA.length = abf)
    (hAeq : A = (List.range FA.length).map (expectedAttrEntry FA nf))
    (hvalues : values = (FA.map LsfWriter.WAttr.bytes).flatten)
    (hout : ∀ j, j < G.length → (j < b ∨ b + LsfWriter.nodeListCount rs ≤ j) →
      ¬(((b : Nat) : Int) ≤ (G.getD j default).parentIndex ∧
        (G.getD j default).parentIndex < ((b + LsfWriter.nodeListCount rs : Nat) : Int)))
    (houtA : ∀ k, k < FA.length → (k < abf ∨ abf + LsfWriter.attrListTotal rs ≤ k) →
      ¬(b ≤ (FA.getD k default).nodeIdx ∧
        (FA.getD k default).nodeIdx < b + LsfWriter.nodeListCount rs))
    (hcan : canonicalForest rs = true)
    (hres : ∀ s ∈ LsfWriter.collectStringsList rs, LSFReader.resolveName strings (im s) = s)
    (fuel : Nat) (hfuel : heightList rs ≤ fuel) :
    (childOffsets rs b).mapM
      (fun i => LSFReader.buildNode strings G A values version fuel i) = Except.ok rs := by
  induction rs generalizing b abf pre post preA postA with
  | nil => rfl
  | cons c rest ih =>
    have hszc := nodeCount_pos c
    have hcnt : LsfWriter.nodeListCount (c :: rest) =
        LsfWriter.nodeCount c + LsfWriter.nodeListCount rest := rfl
    have hatl : LsfWriter.attrListTotal (c :: rest) =
        LsfWriter.attrTotal c + LsfWriter.attrListTotal rest := rfl
    have hht : heightList (c :: rest) = max (heightN c) (heightList rest) := rfl
    have hcan2 : (canonicalNode c && canonicalForest rest) = true := hcan
    simp only [Bool.and_eq_true] at hcan2
    rw [flatForest_cons] at hG hFA
    dsimp only at hG hFA
    rw [hcnt] at hout
    rw [hcnt, hatl] at houtA
    set B1 := (LsfWriter.flatNode isBG3 im c b (-1) (-1) abf).1 with hB1
    set B2 := (LsfWriter.flatNode isBG3 im c b (-1) (-1) abf).2 with hB2
    set R1 := (LsfWriter.flatForest isBG3 im rest (b + LsfWriter.nodeCount c)
      (abf + LsfWriter.attrTotal c)).1 with hR1
    set R2 := (LsfWriter.flatForest isBG3 im rest (b + LsfWriter.nodeCount c)
      (abf + LsfWriter.attrTotal c)).2 with hR2
    have hl1 : B1.length = LsfWriter.nodeCount c :=
      (flatNode_len isBG3 im c b (-1) (-1) abf).1
    have hl2 : B2.length = LsfWriter.attrTotal c :=
      (flatNode_len isBG3 im c b (-1) (-1) abf).2
    have hrl1 : R1.length = LsfWriter.nodeListCount rest :=
      (flatForest_len isBG3 im rest (b + LsfWriter.nodeCount c)
        (abf + LsfWriter.attrTotal c)).1
    have hrl2 : R2.length = LsfWriter.attrListTotal rest :=
      (flatForest_len isBG3 im rest (b + LsfWriter.nodeCount c)
        (abf + LsfWriter.attrTotal c)).2
    have hGa : G = pre ++ B1 ++ (R1 ++ post) := by
      rw [hG]
      simp only [List.append_assoc]
    have hGb : G = (pre ++ B1) ++ R1 ++ post := by
      rw [hG]
      simp only [List.append_assoc]
    have hFAa : FA = preA ++ B2 ++ (R2 ++ postA) := by
      rw [hFA]
      simp only [List.append_assoc]
    have hFAb : FA = (preA ++ B2) ++ R2 ++ postA := by
      rw [hFA]
      simp only [List.append_assoc]
    have hGlen : G.length = b + (LsfWriter.nodeCount c + LsfWriter.nodeListCount rest)
        + post.length := by
      rw [hGa]
      simp only [List.length_append, hl1, hrl1, hpre]
      omega
    have hFAlen : FA.length = abf + (LsfWriter.attrTotal c + LsfWriter.attrListTotal rest)
        + postA.length := by
      rw [hFAa]
      simp only [List.length_append, hl2, hrl2]
      omega
    have hgHead : ∀ j, j < LsfWriter.nodeCount c →
        G.getD (b + j) default = B1.getD j default := by
      intro j hj
      rw [hGa]
      exact getD_middle pre B1 (R1 ++ post) (b + j) j (by omega) (by rw [hl1]; exact hj)
    have hgRest : ∀ j, j < LsfWriter.nodeListCount rest →
        G.getD (b + LsfWriter.nodeCount c + j) default = R1.getD j default := by
      intro j hj
      rw [hGb]
      exact getD_middle (pre ++ B1) R1 post _ j
        (by simp only [List.length_append, hl1]; omega) (by rw [hrl1]; exact hj)
    have hfHead : ∀ k, k < LsfWriter.attrTotal c →
        FA.getD (abf + k) default = B2.getD k default := by
      intro k hk
      rw [hFAa]
      exact getD_middle preA B2 (R2 ++ postA) (abf + k) k (by omega) (by rw [hl2]; exact hk)
    have hhead : LSFReader.buildNode strings G A values version fuel b = Except.ok c := by
      refine buildNode_flat strings values version G A FA nf isBG3 im c b (-1) (-1) abf
        pre (R1 ++ post) preA (R2 ++ postA) hGa hpre hFAa hpreA (by push_cast; omega)
        hAeq hvalues ?_ ?_ hcan2.1 ?_ fuel ?_
      · intro j hj hcases
        rintro ⟨h1, h2⟩
        rcases hcases with hlt | hge
        · exact hout j hj (Or.inl hlt) ⟨h1, by push_cast at h2 ⊢; omega⟩
        · by_cases hjr : j < b + (LsfWriter.nodeCount c + LsfWriter.nodeListCount rest)
          · have hjd : j - (b + LsfWriter.nodeCount c) < LsfWriter.nodeListCount rest := by
              omega
            have hgj : G.getD j default =
                R1.getD (j - (b + LsfWriter.nodeCount c)) default := by
              have hx := hgRest (j - (b + LsfWriter.nodeCount c)) hjd
              rw [show b + LsfWriter.nodeCount c + (j - (b + LsfWriter.nodeCount c)) = j
                from by omega] at hx
              exact hx
            rw [hgj] at h1 h2
            have hcp := (flatForest_parent isBG3 im rest (b + LsfWriter.nodeCount c)
              (abf + LsfWriter.attrTotal c) _ hjd).2
            rw [← hR1] at hcp
            rcases hcp with hp | ⟨hp1, hp2⟩
            · rw [hp] at h1
              push_cast at h1
              omega
            · push_cast at hp1 h2
              omega
          · exact hout j hj (Or.inr (by omega)) ⟨h1, by push_cast at h2 ⊢; omega⟩
      · intro k hk hcases
        rintro ⟨h1, h2⟩
        rcases hcases with hlt | hge
        · exact houtA k hk (Or.inl hlt) ⟨h1, by omega⟩
        · by_cases hkr : k < abf + (LsfWriter.attrTotal c + LsfWriter.attrListTotal rest)
          · have hkd : k - (abf + LsfWriter.attrTotal c) < LsfWriter.attrListTotal rest := by
              omega
            have hfj : FA.getD k default =
                R2.getD (k - (abf + LsfWriter.attrTotal c)) default := by
              have hx : FA.getD (abf + LsfWriter.attrTotal c +
                  (k - (abf + LsfWriter.attrTotal c))) default =
                  R2.getD (k - (abf + LsfWriter.attrTotal c)) default := by
                rw [hFAb]
                exact getD_middle (preA ++ B2) R2 postA _ _
                  (by simp only [List.length_append, hl2]; omega)
                  (by rw [hrl2]; exact hkd)
              rw [show abf + LsfWriter.attrTotal c + (k - (abf + LsfWriter.attrTotal c)) = k
                from by omega] at hx
              exact hx
            rw [hfj] at h1 h2
            have hca := flatForest_attrs isBG3 im rest (b + LsfWriter.nodeCount c)
              (abf + LsfWriter.attrTotal c) _ hkd
            rw [← hR2] at hca
            omega
          · exact houtA k hk (Or.inr (by omega)) ⟨h1, by omega⟩
      · intro s hs
        exact hres s (show s ∈ LsfWriter.collectStrings c ++
            LsfWriter.collectStringsList rest from List.mem_append_left _ hs)
      · rw [hht] at hfuel
        exact le_trans (le_max_left _ _) hfuel
    have htail : (childOffsets rest (b + LsfWriter.nodeCount c)).mapM
        (fun i => LSFReader.buildNode strings G A values version fuel i) =
          Except.ok rest := by
      refine ih (b + LsfWriter.nodeCount c) (abf + LsfWriter.attrTotal c)
        (pre ++ B1) post (preA ++ B2) postA hGb ?_ hFAb ?_ ?_ ?_ hcan2.2
        (fun s hs => hres s (show s ∈ LsfWriter.collectStrings c ++
          LsfWriter.collectStringsList rest from List.mem_append_right _ hs))
        (by rw [hht] at hfuel; exact le_trans (le_max_right _ _) hfuel)
      · simp only [List.length_append, hl1, hpre]
      · simp only [List.length_append, hl2, hpreA]
      · intro j hj hcases
        rintro ⟨h1, h2⟩
        rcases hcases with hlt | hge
        · by_cases hjb : j < b
          · exact hout j hj (Or.inl hjb) ⟨by push_cast at h1 ⊢; omega,
              by push_cast at h2 ⊢; omega⟩
          · have hjd : j - b < LsfWriter.nodeCount c := by omega
            have hgj : G.getD j default = B1.getD (j - b) default := by
              have hx := hgHead (j - b) hjd
              rw [show b + (j - b) = j from by omega] at hx
              exact hx
            rw [hgj] at h1 h2
            have hnp := (flatNode_parent isBG3 im c b (-1) (-1) abf
              (by push_cast; omega) _ hjd).2
            rw [← hB1] at hnp
            rcases hnp with hj0 | ⟨hp1, hp2⟩
            · have hpp := ((flatNode_parent isBG3 im c b (-1) (-1) abf
                (by push_cast; omega) _ hjd).1).mpr hj0
              rw [← hB1] at hpp
              rw [hpp] at h1
              push_cast at h1
              omega
            · push_cast at hp2 h1
              omega
        · exact hout j hj (Or.inr (by omega)) ⟨by push_cast at h1 ⊢; omega,
            by push_cast at h2 ⊢; omega⟩
      · intro k hk hcases
        rintro ⟨h1, h2⟩
        rcases hcases with hlt | hge
        · by_cases hkb : k < abf
          · exact houtA k hk (Or.inl hkb) ⟨by omega, by omega⟩
          · have hkd : k - abf < LsfWriter.attrTotal c := by omega
            have hfj : FA.getD k default = B2.getD (k - abf) default := by
              have hx := hfHead (k - abf) hkd
              rw [show abf + (k - abf) = k from by omega] at hx
              exact hx
            rw [hfj] at h1 h2
            have hna := (flatNode_attrs isBG3 im c b (-1) (-1) abf).2.1 _ hkd
            rw [← hB2] at hna
            omega
        · exact houtA k hk (Or.inr (by omega)) ⟨by omega, by omega⟩
    rw [show childOffsets (c :: rest) b = b :: childOffsets rest (b + LsfWriter.nodeCount c)
      from rfl]
    simp only [List.mapM_cons, hhead, htail]
    rfl

theorem mapM_congr_except {α β : Type} (l : List α) (f g : α → Except String β)
    (h : ∀ x ∈ l, f x = g x) : l.mapM f = l.mapM g := by
  induction l with
  | nil => rfl
  | cons a t iht =>
    rw [List.mapM_cons, List.mapM_cons, h a (List.mem_cons_self _ _),
      iht fun x hx => h x (List.mem_cons_of_mem _ hx)]

/-- `buildNodeRecursive` never reads `nextSiblingIndex`: clearing it in
every node entry does not change the result. -/
theorem buildNode_sib (strings : List (List String)) (G : List LSFNodeEntry)
    (A : List LSFAttributeEntry) (values : List Nat) (version : Nat) :
    ∀ fuel i, LSFReader.buildNode strings
        (G.map fun e : LSFNodeEntry => { e with nextSiblingIndex := -1 }) A values version fuel i =
      LSFReader.buildNode strings G A values version fuel i := by
  have hname : ∀ j, (((G.map fun e : LSFNodeEntry => { e with nextSiblingIndex := -1 }).getD j
      default).nameIndex) = (G.getD j default).nameIndex := by
    intro j
    by_cases hj : j < G.length
    · rw [getD_map_lt _ _ _ hj]
    · rw [List.getD_eq_default _ _ (by rw [List.length_map]; omega),
        List.getD_eq_default _ _ (by omega)]
  have hparent : ∀ j, (((G.map fun e : LSFNodeEntry => { e with nextSiblingIndex := -1 }).getD j
      default).parentIndex) = (G.getD j default).parentIndex := by
    intro j
    by_cases hj : j < G.length
    · rw [getD_map_lt _ _ _ hj]
    · rw [List.getD_eq_default _ _ (by rw [List.length_map]; omega),
        List.getD_eq_default _ _ (by omega)]
  have hfa : ∀ j, (((G.map fun e : LSFNodeEntry => { e with nextSiblingIndex := -1 }).getD j
      default).firstAttributeIndex) = (G.getD j default).firstAttributeIndex := by
    intro j
    by_cases hj : j < G.length
    · rw [getD_map_lt _ _ _ hj]
    · rw [List.getD_eq_default _ _ (by rw [List.length_map]; omega),
        List.getD_eq_default _ _ (by omega)]
  intro fuel
  induction fuel with
  | zero => intro i; rfl
  | succ f ih =>
    intro i
    rw [LSFReader.buildNode, LSFReader.buildNode]
    rw [hname i, hfa i]
    have hfilter : (List.range (G.map fun e =>
          { e with nextSiblingIndex := -1 }).length).filter
        (fun x => decide (((G.map fun e : LSFNodeEntry => { e with nextSiblingIndex := -1 }).getD x
          default).parentIndex = (i : Int)) && decide (x ≠ i)) =
        (List.range G.length).filter
          (fun x => decide ((G.getD x default).parentIndex = (i : Int)) &&
            decide (x ≠ i)) := by
      rw [List.length_map]
      exact List.filter_congr fun x _ => by rw [hparent x]
    rw [hfilter]
    rw [mapM_congr_except _ _ _ fun x _ => ih x]

/-- `reconstructTree` never reads `nextSiblingIndex` either. -/
theorem reconstructTree_sib (strings : List (List String)) (G : List LSFNodeEntry)
    (A : List LSFAttributeEntry) (values : List Nat) (version : Nat) :
    LSFReader.reconstructTree strings (G.map fun e : LSFNodeEntry => { e with nextSiblingIndex := -1 })
        A values version =
      LSFReader.reconstructTree strings G A values version := by
  rw [LSFReader.reconstructTree, LSFReader.reconstructTree]
  have hparent : ∀ j, (((G.map fun e : LSFNodeEntry => { e with nextSiblingIndex := -1 }).getD j
      default).parentIndex) = (G.getD j default).parentIndex := by
    intro j
    by_cases hj : j < G.length
    · rw [getD_map_lt _ _ _ hj]
    · rw [List.getD_eq_default _ _ (by rw [List.length_map]; omega),
        List.getD_eq_default _ _ (by omega)]
  have hfilter : (List.range (G.map fun e =>
        { e with nextSiblingIndex := -1 }).length).filter
      (fun x => decide (((G.map fun e : LSFNodeEntry => { e with nextSiblingIndex := -1 }).getD x
        default).parentIndex = (-1 : Int))) =
      (List.range G.length).filter
        (fun x => decide ((G.getD x default).parentIndex = (-1 : Int))) := by
    rw [List.length_map]
    exact List.filter_congr fun x _ => by rw [hparent x]
  rw [hfilter]
  rw [List.length_map]
  simp only [buildNode_sib strings G A values version 101]

theorem nodeListCount_ge (cs : List LSFNode) : cs.length ≤ LsfWriter.nodeListCount cs := by
  induction cs with
  | nil => exact Nat.le_refl 0
  | cons c rest ih =>
    have := nodeCount_pos c
    show rest.length + 1 ≤ LsfWriter.nodeCount c + LsfWriter.nodeListCount rest
    omega

/-- `reconstructTree` applied to the writer's flattened region tables
returns the original root: a single region is returned unwrapped, a
multi-region `save` root is rebuilt from its regions. -/
theorem reconstructTree_regions (strings : List (List String)) (values : List Nat)
    (version : Nat) (root : LSFNode) (isBG3 : Bool) (im : String → Nat) (nf : Nat → Int)
    (G : List LSFNodeEntry) (A : List LSFAttributeEntry) (FA : List LsfWriter.WAttr)
    (hG : G = (LsfWriter.flatForest isBG3 im (LsfWriter.regionsOf root) 0 0).1)
    (hFA : FA = (LsfWriter.flatForest isBG3 im (LsfWriter.regionsOf root) 0 0).2)
    (hAeq : A = (List.range FA.length).map (expectedAttrEntry FA nf))
    (hvalues : values = (FA.map LsfWriter.WAttr.bytes).flatten)
    (hres : ∀ s ∈ LsfWriter.collectStringsList (LsfWriter.regionsOf root),
      LSFReader.resolveName strings (im s) = s)
    (hg : goodTree root = true) :
    LSFReader.reconstructTree strings G A values version = Except.ok root := by
  have hg2 : (canonicalForest (LsfWriter.regionsOf root) &&
      decide (heightList (LsfWriter.regionsOf root) ≤ 101) &&
      (if root.name == "save" && root.children.length != 0 then
        root.attributes.isEmpty && root.key.isNone && decide (2 ≤ root.children.length)
      else true)) = true := hg
  simp only [Bool.and_eq_true, decide_eq_true_eq] at hg2
  obtain ⟨⟨hcan, hh⟩, hcond⟩ := hg2
  subst hAeq hvalues hG hFA
  by_cases hP : root.name = "save" ∧ root.children.length ≠ 0
  · -- multi-region save root
    have hreg : LsfWriter.regionsOf root = root.children := by
      rw [LsfWriter.regionsOf, if_pos hP]
    have hbc : ((root.name == "save") = true ∧ (root.children.length != 0) = true) :=
      ⟨beq_iff_eq.mpr hP.1, bne_iff_ne.mpr hP.2⟩
    rw [if_pos hbc] at hcond
    simp only [Bool.and_eq_true, decide_eq_true_eq] at hcond
    obtain ⟨⟨hae, hke⟩, h2⟩ := hcond
    have haeq : root.attributes = [] := List.isEmpty_iff.mp hae
    have hkeq : root.key = none := Option.isNone_iff_eq_none.mp hke
    rw [hreg] at hcan hh hres ⊢
    have hGlen : (LsfWriter.flatForest isBG3 im root.children 0 0).1.length =
        LsfWriter.nodeListCount root.children :=
      (flatForest_len isBG3 im root.children 0 0).1
    have hFAlen : (LsfWriter.flatForest isBG3 im root.children 0 0).2.length =
        LsfWriter.attrListTotal root.children :=
      (flatForest_len isBG3 im root.children 0 0).2
    have hcg := nodeListCount_ge root.children
    rw [LSFReader.reconstructTree]
    rw [if_neg (by omega)]
    dsimp only
    rw [rootIdxs_eq isBG3 im root.children]
    rw [childOffsets_length]
    rw [if_neg (by omega), if_neg (by omega)]
    have hmap : (childOffsets root.children 0).mapM
        (fun i => LSFReader.buildNode strings
          (LsfWriter.flatForest isBG3 im root.children 0 0).1
          ((List.range (LsfWriter.flatForest isBG3 im root.children 0 0).2.length).map
            (expectedAttrEntry (LsfWriter.flatForest isBG3 im root.children 0 0).2 nf))
          (((LsfWriter.flatForest isBG3 im root.children 0 0).2.map
            LsfWriter.WAttr.bytes).flatten) version 101 i) = Except.ok root.children := by
      refine buildForest_flat strings _ version _ _ _ nf isBG3 im root.children 0 0
        [] [] [] [] (by simp) rfl (by simp) rfl rfl rfl ?_ ?_ hcan hres 101 hh
      · intro j hj hc
        rintro ⟨hc1, hc2⟩
        rcases hc with hc | hc
        · omega
        · rw [hGlen] at hj
          omega
      · intro k hk hc
        rintro ⟨hc1, hc2⟩
        rcases hc with hc | hc
        · omega
        · rw [hFAlen] at hk
          omega
    rw [hmap]
    cases root with
    | mk n a c k =>
      have hn : n = "save" := hP.1
      have ha : a = [] := haeq
      have hk2 : k = none := hkeq
      subst hn ha hk2
      rfl
  · -- single region
    have hreg : LsfWriter.regionsOf root = [root] := by
      rw [LsfWriter.regionsOf, if_neg hP]
    rw [hreg] at hcan hh hres ⊢
    have hcan2 : (canonicalNode root && canonicalForest []) = true := hcan
    simp only [Bool.and_eq_true] at hcan2
    have hhr : heightN root ≤ 101 := by
      rw [show heightList [root] = max (heightN root) 0 from rfl, Nat.max_zero] at hh
      exact hh
    have hszr := nodeCount_pos root
    have hGlen : (LsfWriter.flatForest isBG3 im [root] 0 0).1.length =
        LsfWriter.nodeListCount [root] :=
      (flatForest_len isBG3 im [root] 0 0).1
    have hFAlen : (LsfWriter.flatForest isBG3 im [root] 0 0).2.length =
        LsfWriter.attrListTotal [root] :=
      (flatForest_len isBG3 im [root] 0 0).2
    have hcnt1 : LsfWriter.nodeListCount [root] = LsfWriter.nodeCount root + 0 := rfl
    have hatl1 : LsfWriter.attrListTotal [root] = LsfWriter.attrTotal root + 0 := rfl
    rw [LSFReader.reconstructTree]
    rw [if_neg (by omega)]
    dsimp only
    rw [rootIdxs_eq isBG3 im [root]]
    rw [show childOffsets [root] 0 = [0] from rfl]
    rw [if_neg (by simp), if_pos (show ([0] : List Nat).length = 1 from rfl)]
    rw [show ([0] : List Nat).getD 0 0 = 0 from rfl]
    refine buildNode_flat strings _ version _ _ _ nf isBG3 im root 0 (-1) (-1) 0
      [] [] [] [] ?_ rfl ?_ rfl (by omega) rfl rfl ?_ ?_ hcan2.1 ?_ 101 hhr
    · rw [flatForest_cons]
      dsimp only
      rw [show (LsfWriter.flatForest isBG3 im [] (0 + LsfWriter.nodeCount root)
        (0 + LsfWriter.attrTotal root)).1 = [] from rfl]
      simp
    · rw [flatForest_cons]
      dsimp only
      rw [show (LsfWriter.flatForest isBG3 im [] (0 + LsfWriter.nodeCount root)
        (0 + LsfWriter.attrTotal root)).2 = [] from rfl]
      simp
    · intro j hj hc
      rintro ⟨hc1, hc2⟩
      rcases hc with hc | hc
      · omega
      · rw [hGlen, hcnt1] at hj
        omega
    · intro k hk hc
      rintro ⟨hc1, hc2⟩
      rcases hc with hc | hc
      · omega
      · rw [hFAlen, hatl1] at hk
        omega
    · intro s hs
      exact hres s (show s ∈ LsfWriter.collectStrings root ++
        LsfWriter.collectStringsList [] from List.mem_append_left _ hs)

/-- C1 (amended): `readLsf(writeLsf(tree, v))` returns the tree for
canonical trees within the format's size limits, for both the BG3 (V3
tables) and DOS2 (V2 tables) layouts; node keys are not round-tripped
(the writer never emits them), so equality holds for trees whose keys
are all `none` and whose attribute values are the reader-canonical
shapes. -/
theorem readWriteLsf_ok (root : LSFNode) (vmajor : Nat) (mfOpt : Option Nat)
    (hg : goodTree root = true)
    (hmf : 4 ≤ vmajor → mfOpt = none ∨ mfOpt = some 1)
    (hcnt : (LsfWriter.collectStringsList (LsfWriter.regionsOf root)).length < 65536)
    (hslen : ∀ s ∈ LsfWriter.collectStringsList (LsfWriter.regionsOf root),
      (utf8Encode s).length < 65536)
    (hnodes : LsfWriter.nodeListCount (LsfWriter.regionsOf root) < 2147483648)
    (hattrs : LsfWriter.attrListTotal (LsfWriter.regionsOf root) < 2147483648)
    (hbytes : ∀ a ∈ (writerFlat root vmajor).2, a.bytes.length < 33554432)
    (hsum : ((writerFlat root vmajor).2.map fun a => a.bytes.length).sum < 4294967296) :
    readWriteLsf root vmajor mfOpt = Except.ok root := by
  have hg2 : (canonicalForest (LsfWriter.regionsOf root) &&
      decide (heightList (LsfWriter.regionsOf root) ≤ 101) &&
      (if root.name == "save" && root.children.length != 0 then
        root.attributes.isEmpty && root.key.isNone && decide (2 ≤ root.children.length)
      else true)) = true := hg
  simp only [Bool.and_eq_true] at hg2
  have hcanF : canonicalForest (LsfWriter.regionsOf root) = true := hg2.1.1
  unfold readWriteLsf LsfWriter.writeLsf LSFReader.readLsfBlocks
  dsimp only
  set strs := LsfWriter.collectStringsList (LsfWriter.regionsOf root) with hstrs
  set im : String → Nat := fun s =>
    (LsfWriter.lookupIM (LsfWriter.buildStringTableState strs).indexMap s).getD 0 with him
  set isb : Bool := decide (4 ≤ vmajor) with hisb
  set FR := LsfWriter.flatForest isb im (LsfWriter.regionsOf root) 0 0 with hFR
  have him2 : ∀ s ∈ strs, im s < 4294967296 := fun s hs => im_lt strs hcnt s hs
  have hb := flatForest_bounds isb im (LsfWriter.regionsOf root) 0 0
    (LsfWriter.nodeListCount (LsfWriter.regionsOf root))
    (LsfWriter.attrListTotal (LsfWriter.regionsOf root)) him2 hcanF (by omega) hnodes
    (by omega) hattrs
  rw [← hFR] at hb
  have hflen2 : FR.2.length = LsfWriter.attrListTotal (LsfWriter.regionsOf root) :=
    (flatForest_len isb im (LsfWriter.regionsOf root) 0 0).2
  have hNB : ∀ e ∈ FR.1, nodeEntryBounds e := hb.1
  have hbytes2 : ∀ a ∈ FR.2, a.bytes.length < 33554432 := hbytes
  have hsum2 : ((FR.2.map fun a => a.bytes.length).sum < 4294967296) := hsum
  have hAB : attrBounds FR.2 :=
    ⟨fun a ha => ⟨(hb.2 a ha).1, (hb.2 a ha).2.1, hbytes2 a ha, (hb.2 a ha).2.2⟩,
      by rw [hflen2]; exact hattrs, hsum2⟩
  have hresolve : ∀ s ∈ strs, LSFReader.resolveName
      (LSFReader.parseStringTable
        (LsfWriter.stringTableBytes (LsfWriter.buildStringTableState strs).buckets))
      (im s) = s := fun s hs => resolve_intern strs hcnt hslen s hs
  by_cases hv : 4 ≤ vmajor
  · have hmfT : mfOpt.getD (if 4 ≤ vmajor then 1 else 0) = 1 := by
      rcases hmf hv with rfl | rfl
      · rw [Option.getD_none, if_pos hv]
      · rw [Option.getD_some]
    rw [hmfT]
    rw [show (if 4 ≤ vmajor then 1 else 1 : Nat) = 1 from if_pos hv]
    rw [if_pos (show (1 : Nat) = 1 from rfl)]
    rw [if_pos (show (1 : Nat) = 1 from rfl)]
    rw [show LSFReader.parseNodes 1 ((FR.1.map LsfWriter.nodeEntryBytesV3).flatten) =
        LSFReader.parseNodesV3 ((FR.1.map LsfWriter.nodeEntryBytesV3).flatten) from by
      rw [LSFReader.parseNodes, if_pos rfl]]
    rw [parseNodesV3_entries FR.1 hNB]
    rw [show LSFReader.parseAttributes 1 (LsfWriter.attrTableV3 FR.2) =
        LSFReader.parseAttrsV3 (LsfWriter.attrTableV3 FR.2) from by
      rw [LSFReader.parseAttributes, if_pos rfl]]
    rw [parseAttrsV3_table FR.2 hAB]
    exact reconstructTree_regions _ _ _ root isb im (fun _ => -1) _ _ FR.2
      rfl rfl rfl rfl hresolve hg
  · rw [show (if 4 ≤ vmajor then 1 else 0 : Nat) = 0 from if_neg hv]
    rw [show (if 4 ≤ vmajor then 1 else mfOpt.getD 0 : Nat) = mfOpt.getD 0 from if_neg hv]
    by_cases hm1 : mfOpt.getD 0 = 1
    · rw [hm1]
      rw [if_pos (show (1 : Nat) = 1 from rfl)]
      rw [if_pos (show (1 : Nat) = 1 from rfl)]
      rw [show LSFReader.parseNodes 1 ((FR.1.map LsfWriter.nodeEntryBytesV3).flatten) =
          LSFReader.parseNodesV3 ((FR.1.map LsfWriter.nodeEntryBytesV3).flatten) from by
        rw [LSFReader.parseNodes, if_pos rfl]]
      rw [parseNodesV3_entries FR.1 hNB]
      rw [show LSFReader.parseAttributes 1 (LsfWriter.attrTableV3 FR.2) =
          LSFReader.parseAttrsV3 (LsfWriter.attrTableV3 FR.2) from by
        rw [LSFReader.parseAttributes, if_pos rfl]]
      rw [parseAttrsV3_table FR.2 hAB]
      exact reconstructTree_regions _ _ _ root isb im (fun _ => -1) _ _ FR.2
        rfl rfl rfl rfl hresolve hg
    · rw [if_neg hm1]
      rw [if_neg hm1]
      rw [show LSFReader.parseNodes (mfOpt.getD 0)
          ((FR.1.map LsfWriter.nodeEntryBytesV2).flatten) =
          LSFReader.parseNodesV2 ((FR.1.map LsfWriter.nodeEntryBytesV2).flatten) from by
        rw [LSFReader.parseNodes, if_neg hm1]]
      rw [parseNodesV2_entries FR.1 hNB]
      rw [show LSFReader.parseAttributes (mfOpt.getD 0) (LsfWriter.attrTableV2 FR.2) =
          LSFReader.parseAttrsV2Loop (LsfWriter.attrTableV2 FR.2) [] 0 [] from by
        rw [LSFReader.parseAttributes, if_neg hm1]]
      rw [parseAttrsV2_table FR.2 hAB]
      rw [reconstructTree_sib]
      exact reconstructTree_regions _ _ _ root isb im
        (fun j => ((FR.2.getD j default).nodeIdx : Int)) _ _ FR.2
        rfl rfl rfl rfl hresolve hg

/-! ## Claim theorems -/
theorem packData_aligned (payloads : List (List Nat)) :
    ∀ st : Packer.PackState, st.offset % 64 = 0 → (∀ o ∈ st.offsets, o % 64 = 0) →
      (∀ o ∈ (payloads.foldl (Packer.packStep true) st).offsets, o % 64 = 0) ∧
      (payloads.foldl (Packer.packStep true) st).chunks =
        st.chunks ++ (payloads.map Packer.padded).flatten := by
  induction payloads with
  | nil =>
    intro st h1 h2
    exact ⟨h2, by simp⟩
  | cons p rest ih =>
    intro st h1 h2
    rw [List.foldl_cons]
    have hpad : Packer.alignTo64 (st.offset + p.length) - st.offset - p.length =
        (64 - p.length % 64) % 64 := by
      unfold Packer.alignTo64
      omega
    have hstep : Packer.packStep true st p =
        { chunks := st.chunks ++ p ++ List.replicate ((64 - p.length % 64) % 64) 173,
          offsets := st.offsets ++ [st.offset], sizes := st.sizes ++ [p.length],
          offset := Packer.alignTo64 (st.offset + p.length) } := by
      unfold Packer.packStep
      rw [if_pos rfl]
      dsimp only
      rw [hpad]
    rw [hstep]
    have h1n : Packer.alignTo64 (st.offset + p.length) % 64 = 0 := by
      unfold Packer.alignTo64
      omega
    have h2n : ∀ o ∈ st.offsets ++ [st.offset], o % 64 = 0 := by
      intro o ho
      rcases List.mem_append.mp ho with h | h
      · exact h2 o h
      · rw [List.mem_singleton.mp h]
        exact h1
    have hr := ih (⟨st.chunks ++ p ++ List.replicate ((64 - p.length % 64) % 64) 173,
      st.offsets ++ [st.offset], st.sizes ++ [p.length],
      Packer.alignTo64 (st.offset + p.length)⟩ : Packer.PackState) h1n h2n
    refine ⟨hr.1, ?_⟩
    rw [hr.2]
    show st.chunks ++ p ++ List.replicate ((64 - p.length % 64) % 64) 173 ++ _ = _
    rw [List.map_cons, List.flatten_cons]
    unfold Packer.padded
    simp only [List.append_assoc]

theorem packData_noalign (payloads : List (List Nat)) :
    ∀ st : Packer.PackState,
      (payloads.foldl (Packer.packStep false) st).chunks = st.chunks ++ payloads.flatten := by
  induction payloads with
  | nil =>
    intro st
    simp
  | cons p rest ih =>
    intro st
    rw [List.foldl_cons]
    have hstep : Packer.packStep false st p =
        { chunks := st.chunks ++ p, offsets := st.offsets ++ [st.offset],
          sizes := st.sizes ++ [p.length], offset := st.offset + p.length } := by
      unfold Packer.packStep
      rw [if_neg (by simp)]
    rw [hstep, ih]
    simp only [List.flatten_cons, List.append_assoc]

set_option maxRecDepth 100000 in
/-- C1 witness: a concrete canonical tree satisfies every size-bound
hypothesis of the round-trip theorem. -/
theorem C1_roundtrip_witness :
    goodTree (.mk "TestRegion" [⟨"val", 4, .num 7⟩] [] none) = true ∧
    readWriteLsf (.mk "TestRegion" [⟨"val", 4, .num 7⟩] [] none) 4 none =
      Except.ok (.mk "TestRegion" [⟨"val", 4, .num 7⟩] [] none) :=
  ⟨by decide, readWriteLsf_ok (.mk "TestRegion" [⟨"val", 4, .num 7⟩] [] none) 4 none
    (by decide) (fun _ => Or.inl rfl) (by decide) (by decide) (by decide) (by decide)
    (by decide) (by decide)⟩

set_option maxRecDepth 100000 in
/-- C1 counterexample: node keys are not preserved by the round trip,
so `readLsf(writeLsf(tree))` is not the identity on every tree - a tree
carrying a key comes back with `key = none` instead of its key. -/
theorem C1_key_counterexample :
    readWriteLsf (.mk "R" [] [] (some "k")) 4 none =
      Except.ok (.mk "R" [] [] none) ∧
    (LSFNode.mk "R" [] [] (some "k")).key ≠ (LSFNode.mk "R" [] [] none).key := by
  constructor
  · have h := readWriteLsf_ok (.mk "R" [] [] none) 4 none (by decide)
      (fun _ => Or.inl rfl) (by decide) (by decide) (by decide) (by decide)
      (by decide) (by decide)
    have hkey : readWriteLsf (.mk "R" [] [] (some "k")) 4 none =
        readWriteLsf (.mk "R" [] [] none) 4 none := rfl
    rw [hkey, h]
  · intro hc
    exact Option.noConfusion hc

/-- C2 (amended): the writer's string table has exactly 512 buckets and
every interned string receives the reference `(bucket << 16) | chainIndex`
where the bucket comes from `hashToBucket` - the source's fold of the
.NET hash in which each `>>` is a SIGNED 32-bit (arithmetic) shift, not
the logical u32 shift the specification describes. -/
theorem C2_string_table (strs : List String) :
    (LsfWriter.buildStringTableState strs).buckets.length = 512 ∧
    ∀ s ∈ strs, ∃ i,
      LsfWriter.lookupIM (LsfWriter.buildStringTableState strs).indexMap s =
        some ((LsfWriter.bucketOf s <<< 16) ||| i) ∧
      ((LsfWriter.buildStringTableState strs).buckets.getD
        (LsfWriter.bucketOf s) []).get? i = some s := by
  obtain ⟨hinv, _, hall⟩ := LsfWriter.buildStringTableState_spec strs
  exact ⟨hinv.blen, fun s hs => (hall s hs).imp fun i h => ⟨h.1, h.2.1⟩⟩

set_option maxRecDepth 100000 in
/-- C2 counterexample: for the string "region" the source's bucket fold
(arithmetic shifts on the signed 32-bit view) yields bucket 268, while
the specification's logical-shift formula yields 236. -/
theorem C2_bucket_counterexample :
    LsfWriter.bucketOf "region" = 268 ∧
    LsfWriter.specBucket (LsfWriter.dotNetStringHashCode "region") = 236 ∧
    LsfWriter.bucketOf "region" ≠
      LsfWriter.specBucket (LsfWriter.dotNetStringHashCode "region") := by
  refine ⟨by decide, by decide, by decide⟩

set_option maxRecDepth 100000 in
/-- C3 (amended): the writer stores a canonical UUID string as its
sixteen hex bytes with only the LAST eight bytes swapped pairwise (the
first eight bytes are kept in string order, not reversed as the claim
says); the reader inverts that swap and returns the canonical string,
and the LSX `bswap_guids` path then emits the byteswapped display form,
not the original canonical form. -/
theorem C3_uuid_bytes :
    LsfWriter.serializeAttributeValue false 31
        (.str "427baeec-054d-4354-96c1-a13b2a2f2875") =
      [0x42, 0x7b, 0xae, 0xec, 0x05, 0x4d, 0x43, 0x54,
       0xc1, 0x96, 0x3b, 0xa1, 0x2f, 0x2a, 0x75, 0x28] ∧
    (match LSFReader.readAttributeValue 6 31
        [0x42, 0x7b, 0xae, 0xec, 0x05, 0x4d, 0x43, 0x54,
         0xc1, 0x96, 0x3b, 0xa1, 0x2f, 0x2a, 0x75, 0x28] 16 with
      | JSValue.str s => s
      | _ => "") = "427baeec-054d-4354-96c1-a13b2a2f2875" ∧
    LsxWriter.formatUuidForLsx "427baeec-054d-4354-96c1-a13b2a2f2875" =
      "ecae7b42-4d05-5443-96c1-a13b2a2f2875" := by
  refine ⟨by decide, by decide, by decide⟩

set_option maxRecDepth 100000 in
/-- C3 counterexample: the stored bytes do NOT start with the claimed
`EC AE 7B 42 4D 05 54 43` (the code keeps the first eight bytes in
order), and the LSX `bswap_guids` output is not the original canonical
form. -/
theorem C3_uuid_counterexample :
    (LsfWriter.serializeAttributeValue false 31
        (.str "427baeec-054d-4354-96c1-a13b2a2f2875")).take 8 ≠
      [0xec, 0xae, 0x7b, 0x42, 0x4d, 0x05, 0x54, 0x43] ∧
    LsxWriter.formatUuidForLsx "427baeec-054d-4354-96c1-a13b2a2f2875" ≠
      "427baeec-054d-4354-96c1-a13b2a2f2875" := by
  refine ⟨by decide, by decide⟩

/-- C5 (amended): the current packer aligns every DOS2 payload to a
64-byte boundary padding with 0xAD and leaves BG3 payloads unpadded,
but the legacy packer (src/src/lsv/packer.ts) never aligns, so the
claim is false for the packages it produces. This theorem states the
current packer's behaviour: with alignment every recorded offset is
divisible by 64 and the data block is exactly the payloads each
followed by its 0xAD padding; without alignment the data block is the
plain concatenation. -/
theorem C5_pack_alignment (payloads : List (List Nat)) :
    (∀ o ∈ (Packer.packData true payloads).offsets, o % 64 = 0) ∧
    (Packer.packData true payloads).chunks = (payloads.map Packer.padded).flatten ∧
    (Packer.packData false payloads).chunks = payloads.flatten := by
  have h1 := packData_aligned payloads ⟨[], [], [], 0⟩ rfl (by simp)
  have h2 := packData_noalign payloads ⟨[], [], [], 0⟩
  refine ⟨h1.1, ?_, ?_⟩
  · show (payloads.foldl (Packer.packStep true) ⟨[], [], [], 0⟩).chunks = _
    rw [h1.2]
    rfl
  · show (payloads.foldl (Packer.packStep false) ⟨[], [], [], 0⟩).chunks = _
    rw [h2]
    rfl

set_option maxRecDepth 100000 in
/-- C5 counterexample: the legacy packer places the second of two
one-byte payloads at offset 1 - not 64-byte aligned - and inserts no
padding. -/
theorem C5_legacy_counterexample :
    (PackerLegacy.packData [[7], [8]]).offsets = [0, 1] ∧
    (1 : Nat) % 64 ≠ 0 ∧
    (PackerLegacy.packData [[7], [8]]).chunks = [7, 8] := by
  refine ⟨by decide, by decide, by decide⟩

/-- C6 (amended): a file-list entry whose offset's low 56 bits equal
0xBEEFDEADBEEF is NOT silently skipped - `extractFile` throws a
deleted-entry error, and `unpackLsv` has no catch around it, so the
error aborts the whole extraction. -/
theorem C6_deleted_throws (decode : List Nat → Int × List Nat)
    (inflate zstd : List Nat → List Nat) (data : List Nat)
    (f : Unpacker.PackagedFileInfo) (dataOffset : Nat)
    (h : f.offsetInFile % 72057594037927936 = 0xbeefdeadbeef) :
    Unpacker.extractFile decode inflate zstd data f dataOffset =
      Except.error Unpacker.XErr.deleted := by
  unfold Unpacker.extractFile
  rw [if_pos h]

set_option maxRecDepth 100000 in
/-- C6 witness: a concrete deleted entry. -/
theorem C6_deleted_witness :
    (Unpacker.PackagedFileInfo.mk "f" 0 0xbeefdeadbeef 0 0 0).offsetInFile %
        72057594037927936 = 0xbeefdeadbeef ∧
    Unpacker.extractFile (fun _ => (0, [])) id id []
        (Unpacker.PackagedFileInfo.mk "f" 0 0xbeefdeadbeef 0 0 0) 0 =
      Except.error Unpacker.XErr.deleted :=
  ⟨by decide, C6_deleted_throws (fun _ => (0, [])) id id []
    (Unpacker.PackagedFileInfo.mk "f" 0 0xbeefdeadbeef 0 0 0) 0 (by decide)⟩

set_option maxRecDepth 100000 in
/-- C6 counterexample: extraction of a package holding a good entry and
a deleted entry does not complete - the loop propagates the deleted
error instead of skipping the entry. -/
theorem C6_no_skip_counterexample :
    Unpacker.unpackLoop (fun _ => (0, [])) id id [42]
        [Unpacker.PackagedFileInfo.mk "a" 0 0 1 0 0,
         Unpacker.PackagedFileInfo.mk "b" 0 0xbeefdeadbeef 0 0 0] =
      Except.error Unpacker.XErr.deleted := by
  decide

/-- C7 (amended): the CURRENT LSX writer escapes exactly `<`, `>`, `&`
and the double quote and leaves the apostrophe verbatim - its
`escapeXml` agrees with the specification's escaping rule on every
string - but the legacy writer additionally escapes the apostrophe, so
the claim is false for legacy LSX output. -/
theorem C7_escape (s : String) : LsxWriter.escapeXml s = specEscapeXml s := by
  unfold LsxWriter.escapeXml replaceClass specEscapeXml
  congr 1
  apply List.map_congr_left
  intro c _
  by_cases h1 : c = Char.ofNat 60
  · simp [LsxWriter.escClass, LsxWriter.escSwitch, h1]
  · by_cases h2 : c = Char.ofNat 62
    · simp [LsxWriter.escClass, LsxWriter.escSwitch, h1, h2]
    · by_cases h3 : c = Char.ofNat 38
      · simp [LsxWriter.escClass, LsxWriter.escSwitch, h1, h2, h3]
      · by_cases h4 : c = Char.ofNat 34
        · simp [LsxWriter.escClass, LsxWriter.escSwitch, h1, h2, h3, h4]
        · simp [LsxWriter.escClass, LsxWriter.escSwitch, h1, h2, h3, h4]

/-- C7 counterexample: the legacy LSX writer turns an apostrophe into
its entity, so an attribute value containing one is not emitted
verbatim there. -/
theorem C7_apos_counterexample :
    LsxWriterLegacy.escapeXml (String.singleton (Char.ofNat 39)) = "&apos;" ∧
    String.singleton (Char.ofNat 39) ≠ "&apos;" := by
  refine ⟨by decide, by decide⟩

/-- C8 (amended): both `compress` and `decompress` select the method
from the low four bits of the flags - 0 passes the bytes through
(truncated to the declared size on decompress), 1 uses zlib, 2 the LZ4
block codec, 3 zstd - and any other low-nibble value raises the
unsupported-compression error; the LZ4 paths raise the corrupt-payload
error only when the block codec returns a strictly NEGATIVE result,
while a zero (non-positive) result is accepted and yields an empty
output. -/
theorem C8_compression (encode decode : List Nat → Int × List Nat)
    (deflate inflate zstdc zstd : List Nat → List Nat)
    (data compressed : List Nat) (dsz flags : Nat) :
    (flags % 16 = 0 →
      Compression.decompress decode inflate zstd compressed dsz flags =
        Except.ok (compressed.take dsz)) ∧
    (flags % 16 = 1 →
      Compression.decompress decode inflate zstd compressed dsz flags =
        Except.ok (inflate compressed)) ∧
    (flags % 16 = 2 →
      Compression.decompress decode inflate zstd compressed dsz flags =
        Compression.decompressLZ4 decode compressed dsz) ∧
    (flags % 16 = 3 →
      Compression.decompress decode inflate zstd compressed dsz flags =
        Except.ok (zstd compressed)) ∧
    (4 ≤ flags % 16 →
      Compression.decompress decode inflate zstd compressed dsz flags =
        Except.error (Compression.CErr.unsupported (flags % 16))) ∧
    (flags % 16 = 0 →
      Compression.compress encode deflate zstdc data flags = Except.ok data) ∧
    (flags % 16 = 1 →
      Compression.compress encode deflate zstdc data flags =
        Except.ok (deflate data)) ∧
    (flags % 16 = 2 →
      Compression.compress encode deflate zstdc data flags =
        Compression.compressLZ4 encode data) ∧
    (flags % 16 = 3 →
      Compression.compress encode deflate zstdc data flags =
        Except.ok (zstdc data)) ∧
    (4 ≤ flags % 16 →
      Compression.compress encode deflate zstdc data flags =
        Except.error (Compression.CErr.unsupported (flags % 16))) ∧
    ((decode compressed).1 < 0 →
      Compression.decompressLZ4 decode compressed dsz =
        Except.error (Compression.CErr.corrupt (decode compressed).1)) ∧
    (0 ≤ (decode compressed).1 →
      Compression.decompressLZ4 decode compressed dsz =
        Except.ok ((decode compressed).2.take (decode compressed).1.toNat)) ∧
    ((encode data).1 < 0 →
      Compression.compressLZ4 encode data =
        Except.error (Compression.CErr.corrupt (encode data).1)) ∧
    (0 ≤ (encode data).1 →
      Compression.compressLZ4 encode data =
        Except.ok ((encode data).2.take (encode data).1.toNat)) := by
  refine ⟨?_, ?_, ?_, ?_, ?_, ?_, ?_, ?_, ?_, ?_, ?_, ?_, ?_, ?_⟩
  · intro h
    unfold Compression.decompress Compression.getCompressionMethod
    rw [h]
  · intro h
    unfold Compression.decompress Compression.getCompressionMethod
    rw [h]
  · intro h
    unfold Compression.decompress Compression.getCompressionMethod
    rw [h]
  · intro h
    unfold Compression.decompress Compression.getCompressionMethod
    rw [h]
  · intro h4
    unfold Compression.decompress Compression.getCompressionMethod
    have h16 : flags % 16 < 16 := Nat.mod_lt _ (by omega)
    interval_cases h : flags % 16 <;> first | omega | rfl
  · intro h
    unfold Compression.compress Compression.getCompressionMethod
    rw [h]
  · intro h
    unfold Compression.compress Compression.getCompressionMethod
    rw [h]
  · intro h
    unfold Compression.compress Compression.getCompressionMethod
    rw [h]
  · intro h
    unfold Compression.compress Compression.getCompressionMethod
    rw [h]
  · intro h4
    unfold Compression.compress Compression.getCompressionMethod
    have h16 : flags % 16 < 16 := Nat.mod_lt _ (by omega)
    interval_cases h : flags % 16 <;> first | omega | rfl
  · intro hneg
    unfold Compression.decompressLZ4
    rw [if_pos hneg]
  · intro hpos
    unfold Compression.decompressLZ4
    rw [if_neg (by omega)]
  · intro hneg
    unfold Compression.compressLZ4
    rw [if_pos hneg]
  · intro hpos
    unfold Compression.compressLZ4
    rw [if_neg (by omega)]

set_option maxRecDepth 100000 in
/-- C8 witness: concrete instances of the method selection - zlib is
chosen for low nibble 1 on both sides, method 4 is rejected on both
sides, and a negative LZ4 decode result raises the corrupt error. -/
theorem C8_compression_witness :
    Compression.decompress (fun _ => ((-1 : Int), [])) List.reverse id [9, 8] 1 17 =
      Except.ok (List.reverse [9, 8]) ∧
    Compression.compress (fun _ => ((-1 : Int), [])) List.reverse id [9, 8] 17 =
      Except.ok (List.reverse [9, 8]) ∧
    Compression.decompress (fun _ => ((-1 : Int), [])) List.reverse id [9, 8] 1 4 =
      Except.error (Compression.CErr.unsupported (4 % 16)) ∧
    Compression.compress (fun _ => ((-1 : Int), [])) List.reverse id [9, 8] 4 =
      Except.error (Compression.CErr.unsupported (4 % 16)) ∧
    Compression.decompressLZ4 (fun _ => ((-1 : Int), [])) [] 0 =
      Except.error (Compression.CErr.corrupt (-1)) :=
  ⟨(C8_compression (fun _ => ((-1 : Int), [])) (fun _ => ((-1 : Int), []))
      List.reverse List.reverse id id [9, 8] [9, 8] 1 17).2.1 (by decide),
   (C8_compression (fun _ => ((-1 : Int), [])) (fun _ => ((-1 : Int), []))
      List.reverse List.reverse id id [9, 8] [9, 8] 1 17).2.2.2.2.2.2.1 (by decide),
   (C8_compression (fun _ => ((-1 : Int), [])) (fun _ => ((-1 : Int), []))
      List.reverse List.reverse id id [9, 8] [9, 8] 1 4).2.2.2.2.1 (by decide),
   (C8_compression (fun _ => ((-1 : Int), [])) (fun _ => ((-1 : Int), []))
      List.reverse List.reverse id id [9, 8] [9, 8] 1 4).2.2.2.2.2.2.2.2.2.1 (by decide),
   (C8_compression (fun _ => ((-1 : Int), [])) (fun _ => ((-1 : Int), []))
      List.reverse List.reverse id id [9, 8] [] 0 0).2.2.2.2.2.2.2.2.2.2.1 (by decide)⟩

set_option maxRecDepth 100000 in
/-- C8 counterexample: a block decoder returning the NON-POSITIVE
length 0 does not raise the corrupt-payload error - the facade returns
an empty payload. -/
theorem C8_zero_counterexample :
    Compression.decompressLZ4 (fun _ => ((0 : Int), [])) [] 5 = Except.ok [] := by
  decide

/-- C9: in both table layouts the parsed entry of every attribute
carries `length = typeAndLength >> 6` equal to the encoded value's byte
length, and its value offset is the cumulative sum of the earlier
lengths (explicit in V3, recomputed by the reader's running offset in
V2); consecutive offsets differ by exactly the entry length and the
final cumulative offset is the value block's total length, so the block
is covered exactly once with no gaps. -/
theorem C9_attr_table (all : List LsfWriter.WAttr) (hb : attrBounds all) :
    ∀ j, j < all.length →
      ((LSFReader.parseAttrsV3 (LsfWriter.attrTableV3 all)).getD j default).length =
        (all.getD j default).bytes.length ∧
      ((LSFReader.parseAttrsV3 (LsfWriter.attrTableV3 all)).getD j default).offset =
        vOffStart all j ∧
      ((LSFReader.parseAttrsV2Loop (LsfWriter.attrTableV2 all) [] 0 []).getD j
        default).length = (all.getD j default).bytes.length ∧
      ((LSFReader.parseAttrsV2Loop (LsfWriter.attrTableV2 all) [] 0 []).getD j
        default).offset = vOffStart all j ∧
      vOffStart all (j + 1) = vOffStart all j + (all.getD j default).bytes.length ∧
      vOffStart all all.length = ((all.map LsfWriter.WAttr.bytes).flatten).length := by
  intro j hj
  have h3 := parseAttrsV3_table all hb
  have h2 := parseAttrsV2_table all hb
  rw [h3, h2]
  have hg : ∀ f : Nat → LSFAttributeEntry,
      ((List.range all.length).map f).getD j default = f j := by
    intro f
    rw [List.getD_eq_getElem?_getD, List.getElem?_map, List.getElem?_range hj]
    rfl
  rw [hg, hg]
  refine ⟨rfl, rfl, rfl, rfl, ?_, ?_⟩
  · exact vOffStart_succ all j hj
  · rw [← flatten_take_length all all.length, List.take_length]

set_option maxRecDepth 100000 in
/-- C9 witness: a concrete two-attribute table. -/
theorem C9_attr_table_witness :
    attrBounds [⟨1, 20, [0], 0⟩, ⟨2, 21, [1, 2], 0⟩] ∧
    ((LSFReader.parseAttrsV3 (LsfWriter.attrTableV3
        [⟨1, 20, [0], 0⟩, ⟨2, 21, [1, 2], 0⟩])).getD 1 default).offset =
      vOffStart [⟨1, 20, [0], 0⟩, ⟨2, 21, [1, 2], 0⟩] 1 :=
  ⟨by decide,
   (C9_attr_table [⟨1, 20, [0], 0⟩, ⟨2, 21, [1, 2], 0⟩] (by decide) 1 (by decide)).2.1⟩

/-- C10: the reader decodes a Byte (type 1) attribute with signed int8
semantics - a stored byte at or above 0x80 becomes `b - 256` - and the
LSX writer's Byte token restores the unsigned 0..255 form by masking
with 0xFF after ToUint32. -/
theorem C10_byte_signed (version : Nat) (b : Nat) (h1 : 128 ≤ b) (h2 : b < 256) :
    LSFReader.readAttributeValue version 1 [b] 1 = .num ((b : Int) - 256) ∧
    LsxWriter.lsxByteToken ((b : Int) - 256) = b := by
  constructor
  · show JSValue.num (readInt8 b) = JSValue.num ((b : Int) - 256)
    have hr : readInt8 b = (b : Int) - 256 := by
      unfold readInt8
      rw [if_neg (by omega)]
    rw [hr]
  · unfold LsxWriter.lsxByteToken toUint32
    omega

/-- C10 witness: stored byte 0xFF reads back as -1. -/
theorem C10_byte_witness :
    (128 ≤ 255 ∧ 255 < 256) ∧
    LSFReader.readAttributeValue 6 1 [255] 1 = .num ((255 : Int) - 256) ∧
    LsxWriter.lsxByteToken ((255 : Int) - 256) = 255 :=
  ⟨⟨by omega, by omega⟩, (C10_byte_signed 6 255 (by omega) (by omega)).1,
   (C10_byte_signed 6 255 (by omega) (by omega)).2⟩

end PLarian

